import Mathlib

/-!
# Asterisc slow VM: single-step interpreter (`rvgo/slow/vm.go`)

A shallow embedding of `Step` and of the closures it defines, followed by the
theorems that settle the specification's statements about them.

Conventions of the embedding.

* A Go `byte` is `Fin 256`; `[32]byte` is a list of exactly 32 bytes (`B32`).
* The Go types `U64` and `U256` are `Nat`; every helper reduces its result modulo
  `2^64` resp. `2^256` where the machine word would wrap.  The injections
  `toU64`, `shortToU64`, `toU256`, `shortToU256`, `longToU256`, `u64ToU256`
  of a smaller unsigned integer into a wider word are the identity on `Nat`
  and are written as plain numerals or variables.
* The single mutable object of `Step` is the calldata buffer: `stateData` is
  the sub-slice `calldata[4 : 4+stateSize]` and aliases it.  Closures that read
  or write it become functions in the monad `M`, whose state is the whole
  calldata and whose failure carries the revert code (`0` for a Go panic that
  was raised without `revertWithCode`) together with the buffer as it stands
  when the panic is raised.
* `crypto.Keccak256Hash` is an external library function; it is a parameter
  `keccak` of the embedding.  The pre-image oracle is the parameter `po`.
-/

namespace Asterisc

/-! ## Words and bytes -/

abbrev Byte := Fin 256

abbrev B32 := { l : List Byte // l.length = 32 }

/-- The byte `n mod 256`, the Go conversion `uint8(n)`. -/
def toByte (n : Nat) : Byte := ⟨n % 256, Nat.mod_lt n (by decide)⟩

/-- The array `[32]byte{}`. -/
def zeroB32 : B32 := ⟨List.replicate 32 0, by simp⟩

/-- Modelled from the spec: the helper `u64Mask` (word primitives, not in `vm.go`): all ones in 64 bits. -/
def u64Mask : Nat := 2 ^ 64 - 1

/-- Modelled from the spec: the helper `u32Mask` (word primitives, not in `vm.go`): all ones in 32 bits. -/
def u32Mask : Nat := 2 ^ 32 - 1

/-- Modelled from the spec: the helper `add64`, addition modulo `2^64`. -/
def add64 (x y : Nat) : Nat := (x + y) % 2 ^ 64

/-- Modelled from the spec: the helper `sub64`, subtraction modulo `2^64`. -/
def sub64 (x y : Nat) : Nat := (x % 2 ^ 64 + (2 ^ 64 - y % 2 ^ 64)) % 2 ^ 64

/-- Modelled from the spec: the helper `mul64`, multiplication modulo `2^64`. -/
def mul64 (x y : Nat) : Nat := (x * y) % 2 ^ 64

/-- Modelled from the spec: the helper `div64`, unsigned division; a zero divisor gives zero
(the Yul convention the helpers follow). -/
def div64 (x y : Nat) : Nat := if y = 0 then 0 else x / y

/-- Modelled from the spec: the helper `mod64`, unsigned remainder; a zero divisor gives zero. -/
def mod64 (x y : Nat) : Nat := if y = 0 then 0 else x % y

/-- Modelled from the spec: the helper `and64`, bitwise and. -/
def and64 (x y : Nat) : Nat := x &&& y

/-- Modelled from the spec: the helper `or64`, bitwise or. -/
def or64 (x y : Nat) : Nat := x ||| y

/-- Modelled from the spec: the helper `xor64`, bitwise exclusive or. -/
def xor64 (x y : Nat) : Nat := x ^^^ y

/-- Modelled from the spec: the helper `not64`, bitwise complement in 64 bits. -/
def not64 (x : Nat) : Nat := (2 ^ 64 - 1) - x % 2 ^ 64

/-- Modelled from the spec: the helper `shl64(shift, value)`, left shift modulo `2^64`
(the shift amount comes first, as in `shr64(toU64(5), addr)` for `addr >> 5`). -/
def shl64 (s v : Nat) : Nat := (v <<< s) % 2 ^ 64

/-- Modelled from the spec: the helper `shr64(shift, value)`, logical right shift. -/
def shr64 (s v : Nat) : Nat := v >>> s

/-- Modelled from the spec: the helper `lt64`, unsigned less-than as `0` or `1`. -/
def lt64 (x y : Nat) : Nat := if x < y then 1 else 0

/-- Modelled from the spec: the helper `gt64`, unsigned greater-than as `0` or `1`. -/
def gt64 (x y : Nat) : Nat := if y < x then 1 else 0

/-- Modelled from the spec: the helper `eq64`, equality as `0` or `1`. -/
def eq64 (x y : Nat) : Nat := if x = y then 1 else 0

/-- Modelled from the spec: the helper `iszero64`, the test `x == 0` as a Go `bool`. -/
def iszero64 (x : Nat) : Bool := decide (x = 0)

/-- The signed value of a 64-bit word (two's complement). -/
def toInt64 (x : Nat) : Int := if x % 2 ^ 64 < 2 ^ 63 then (x % 2 ^ 64 : Nat) else (x % 2 ^ 64 : Nat) - 2 ^ 64

/-- The 64-bit word of an integer (two's complement). -/
def ofInt64 (z : Int) : Nat := (z % 2 ^ 64).toNat

/-- Modelled from the spec: the helper `slt64`, signed less-than as `0` or `1`. -/
def slt64 (x y : Nat) : Nat := if toInt64 x < toInt64 y then 1 else 0

/-- Modelled from the spec: the helper `sgt64`, signed greater-than as `0` or `1`. -/
def sgt64 (x y : Nat) : Nat := if toInt64 y < toInt64 x then 1 else 0

/-- Modelled from the spec: the helper `sdiv64`, signed division truncated toward zero, modulo `2^64`
(so `INT64_MIN / -1 = INT64_MIN`); a zero divisor gives zero. -/
def sdiv64 (x y : Nat) : Nat := if y % 2 ^ 64 = 0 then 0 else ofInt64 (Int.tdiv (toInt64 x) (toInt64 y))

/-- Modelled from the spec: the helper `smod64`, signed remainder with the sign of the dividend;
a zero divisor gives zero. -/
def smod64 (x y : Nat) : Nat := if y % 2 ^ 64 = 0 then 0 else ofInt64 (Int.tmod (toInt64 x) (toInt64 y))

/-- Modelled from the spec: the helper `sar64(shift, value)`, arithmetic right shift of a 64-bit word. -/
def sar64 (s v : Nat) : Nat := ofInt64 (toInt64 v / 2 ^ s)

/-- Modelled from the spec: the helper `signExtend64(v, bit)`: bits above `bit` become copies of bit `bit`. -/
def signExtend64 (v bit : Nat) : Nat :=
  if bit ≥ 63 then v % 2 ^ 64
  else if v.testBit bit then (v % 2 ^ (bit + 1) + (2 ^ 64 - 2 ^ (bit + 1))) % 2 ^ 64
  else v % 2 ^ (bit + 1)

/-- Modelled from the spec: the helper `mask32Signed64`: the low 32 bits sign-extended from bit 31. -/
def mask32Signed64 (v : Nat) : Nat := signExtend64 (and64 v u32Mask) 31

/-- Modelled from the spec: the helper `signExtend64To256`: a 64-bit word sign-extended to 256 bits. -/
def signExtend64To256 (v : Nat) : Nat :=
  if v.testBit 63 then v % 2 ^ 64 + (2 ^ 256 - 2 ^ 64) else v % 2 ^ 64

/-- Modelled from the spec: the helper `u256ToU64`, truncation to the low 64 bits. -/
def u256ToU64 (v : Nat) : Nat := v % 2 ^ 64

/-- Modelled from the spec: the 256-bit helper `shl(shift, value)`, left shift modulo `2^256`. -/
def shl (s v : Nat) : Nat := (v <<< s) % 2 ^ 256

/-- Modelled from the spec: the 256-bit helper `shr(shift, value)`, logical right shift. -/
def shr (s v : Nat) : Nat := v >>> s

/-- Modelled from the spec: the 256-bit helper `and`. -/
def and (x y : Nat) : Nat := x &&& y

/-- Modelled from the spec: the 256-bit helper `or`. -/
def or (x y : Nat) : Nat := x ||| y

/-- Modelled from the spec: the 256-bit helper `not`, bitwise complement in 256 bits. -/
def not (x : Nat) : Nat := (2 ^ 256 - 1) - x % 2 ^ 256

/-- Modelled from the spec: the 256-bit helper `sub`, subtraction modulo `2^256`. -/
def sub (x y : Nat) : Nat := (x % 2 ^ 256 + (2 ^ 256 - y % 2 ^ 256)) % 2 ^ 256

/-- Modelled from the spec: the 256-bit helper `mul`, multiplication modulo `2^256`. -/
def mul (x y : Nat) : Nat := (x * y) % 2 ^ 256

/-- Modelled from the spec: the 256-bit helper `eq`, equality as `0` or `1`. -/
def eq (x y : Nat) : Nat := if x = y then 1 else 0

/-- Modelled from the spec: the 256-bit helper `iszero`, the test `x == 0` as a Go `bool`. -/
def iszero (x : Nat) : Bool := decide (x = 0)

/-- Modelled from the spec: the byte-order conversion `b32asBEWord`: a `[32]byte` read as a
big-endian 256-bit word. -/
def b32asBEWord (b : B32) : Nat := b.val.foldl (fun acc x => acc * 256 + x.val) 0

/-- Modelled from the spec: the byte-order conversion `beWordAsB32`: a 256-bit word written as
32 big-endian bytes. -/
def beWordAsB32 (w : Nat) : B32 :=
  ⟨(List.range 32).map (fun i => toByte (w / 256 ^ (31 - i))), by simp⟩

/-! ## The execution monad -/

/-- Outcome of a closure of `Step`: a value, or the revert code of the panic that cut it short
(`0` when the panic did not go through `revertWithCode`); both carry the calldata buffer. -/
inductive Res (α : Type) where
  | ok (val : α) (cd : List Byte)
  | revert (code : Nat) (cd : List Byte)
deriving DecidableEq, Repr

/-- A closure of `Step` acting on the calldata buffer. -/
def M (α : Type) : Type := List Byte → Res α

/-- Sequencing in `M`: a revert stops the computation. -/
def M.bind {α β : Type} (m : M α) (f : α → M β) : M β := fun cd =>
  match m cd with
  | Res.ok a cd1 => f a cd1
  | Res.revert c cd1 => Res.revert c cd1

instance : Monad M where
  pure a := fun cd => Res.ok a cd
  bind := M.bind

/-- The Go statement `revertWithCode(code, err)`: records the code and panics. -/
def revertWithCode {α : Type} (code : Nat) : M α := fun cd => Res.revert code cd

/-- A Go `panic(...)` raised without `revertWithCode` (also a run-time slice panic):
the deferred handler sees `revertCode == 0`. -/
def goPanic {α : Type} : M α := fun cd => Res.revert 0 cd

/-- The buffer a computation leaves behind. -/
def Res.buf {α : Type} : Res α → List Byte
  | Res.ok _ cd => cd
  | Res.revert _ cd => cd

/-! ## Layout of the state record (lines 37-62) -/

def stateSizeMemRoot : Nat := 32
def stateSizePreimageKey : Nat := 32
def stateSizePreimageOffset : Nat := 8
def stateSizePC : Nat := 8
def stateSizeExitCode : Nat := 1
def stateSizeExited : Nat := 1
def stateSizeStep : Nat := 8
def stateSizeHeap : Nat := 8
def stateSizeLoadReservation : Nat := 8
def stateSizeRegisters : Nat := 8 * 32

def stateOffsetMemRoot : Nat := 0
def stateOffsetPreimageKey : Nat := stateOffsetMemRoot + stateSizeMemRoot
def stateOffsetPreimageOffset : Nat := stateOffsetPreimageKey + stateSizePreimageKey
def stateOffsetPC : Nat := stateOffsetPreimageOffset + stateSizePreimageOffset
def stateOffsetExitCode : Nat := stateOffsetPC + stateSizePC
def stateOffsetExited : Nat := stateOffsetExitCode + stateSizeExitCode
def stateOffsetStep : Nat := stateOffsetExited + stateSizeExited
def stateOffsetHeap : Nat := stateOffsetStep + stateSizeStep
def stateOffsetLoadReservation : Nat := stateOffsetHeap + stateSizeHeap
def stateOffsetRegisters : Nat := stateOffsetLoadReservation + stateSizeLoadReservation
def stateSize : Nat := stateOffsetRegisters + stateSizeRegisters

/-! ## Byte-level access to the buffer -/

/-- The slice `stateData = calldata[4 : 4+stateSize]`. -/
def stateData (cd : List Byte) : List Byte := (cd.drop 4).take stateSize

/-- The slice `buf[off : off+n]`, read. -/
def slice (cd : List Byte) (off n : Nat) : List Byte := (cd.drop off).take n

/-- The buffer after `copy(buf[off : off+len(bs)], bs)`. -/
def writeAt (cd : List Byte) (off : Nat) (bs : List Byte) : List Byte :=
  cd.take off ++ bs ++ cd.drop (off + bs.length)

/-- The slice `stateData[off : off+n]`, read. -/
def readState (off n : Nat) (cd : List Byte) : List Byte := slice cd (4 + off) n

/-- The Go statement `copy(stateData[off : off+len(bs)], bs)` (also a single-byte assignment). -/
def writeState (off : Nat) (bs : List Byte) : M Unit := fun cd =>
  Res.ok () (writeAt cd (4 + off) bs)

/-- The function `decodeU64` (lines 20-28): little-endian value of at most 8 bytes, masked to
`8 * len(v)` bits. -/
def decodeU64 (v : List Byte) : Nat :=
  (v.foldr (fun b acc => b.val + 256 * acc) 0) % 2 ^ (8 * v.length)

/-- The function `encodeU64` (lines 30-35): the 8 little-endian bytes of `v.val()`. -/
def encodeU64 (v : Nat) : List Byte :=
  (List.range 8).map (fun i => toByte (v / 256 ^ i))

/-- Padding of a slice to a `[32]byte`, the effect of `copy(out[:], src)` on a zeroed array. -/
def padB32 (bs : List Byte) : B32 :=
  ⟨bs.take 32 ++ List.replicate (32 - (bs.take 32).length) 0, by
    simp only [List.length_append, List.length_replicate, List.length_take]; omega⟩

/-- The closure `calldataload` (lines 65-68): 32 bytes of calldata from `offset`, zero-padded;
slicing beyond the length of the buffer is a run-time panic. -/
def calldataload (offset : Nat) : M B32 := fun cd =>
  if offset ≤ cd.length then Res.ok (padB32 (cd.drop offset)) cd else Res.revert 0 cd

/-- The closure `computeStateHash` (lines 72-74). -/
def computeStateHash (keccak : List Byte → B32) (cd : List Byte) : B32 := keccak (stateData cd)

/-- The closure `getExited` (lines 76-78). -/
def getExited (cd : List Byte) : Bool := decide (readState stateOffsetExited 1 cd ≠ [0])

/-- The closure `setExited` (lines 79-81). -/
def setExited : M Unit := writeState stateOffsetExited [1]

/-- The closure `setExitCode` (lines 82-84). -/
def setExitCode (v : Byte) : M Unit := writeState stateOffsetExitCode [v]

/-- The closure `getMemRoot` (lines 105-108). -/
def getMemRoot : M B32 := fun cd => Res.ok (padB32 (readState stateOffsetMemRoot 32 cd)) cd

/-- The closure `setMemRoot` (lines 109-111). -/
def setMemRoot (v : B32) : M Unit := writeState stateOffsetMemRoot v.val

/-! ## Merkle-proved memory (lines 113-175) -/

/-- The closure `proofOffset` (lines 113-118). -/
def proofOffset (proofIndex : Nat) : Nat :=
  add64 (mul64 (mul64 proofIndex 64) 32) (4 + stateSize)

/-- The closure `hashPair` (lines 120-122). -/
def hashPair (keccak : List Byte → B32) (a b : B32) : B32 := keccak (a.val ++ b.val)

/-- The sibling loop shared, word for word, by `getMemoryB32` (lines 134-143) and `setMemoryB32`
(lines 163-173): `n` iterations remain, `i` is the loop counter. -/
def merkleLoop (keccak : List Byte → B32) (path : Nat) : Nat → Nat → Nat → B32 → M B32
  | 0, _, _, node => pure node
  | n + 1, i, offset, node => do
    let sibling ← calldataload offset
    let offset := add64 offset 32
    let b := and64 (shr64 i path) 1
    let node := if b = 0 then hashPair keccak node sibling
      else if b = 1 then hashPair keccak sibling node
      else node
    merkleLoop keccak path n (i + 1) offset node

/-- The closure `getMemoryB32` (lines 124-150). -/
def getMemoryB32 (keccak : List Byte → B32) (addr : Nat) (proofIndex : Nat) : M B32 := do
  if and64 addr 31 ≠ 0 then revertWithCode 0xbad10ad0
  let offset := proofOffset proofIndex
  let leaf ← calldataload offset
  let offset := add64 offset 32
  let path := shr64 5 addr
  let node ← merkleLoop keccak path (64 - 5) 0 offset leaf
  let memRoot ← getMemRoot
  if iszero (eq (b32asBEWord node) (b32asBEWord memRoot)) then revertWithCode 0x0badf00d
  pure leaf

/-- The closure `setMemoryB32` (lines 154-175). -/
def setMemoryB32 (keccak : List Byte → B32) (addr : Nat) (v : B32) (proofIndex : Nat) : M Unit := do
  if and64 addr 31 ≠ 0 then revertWithCode 0xbad10ad0
  let offset := proofOffset proofIndex
  let leaf := v
  let offset := add64 offset 32
  let path := shr64 5 addr
  let node ← merkleLoop keccak path (64 - 5) 0 offset leaf
  setMemRoot node

/-! ## Unaligned loads and stores (lines 177-293) -/

/-- The byte loop of `loadMem` (lines 208-224): `n` iterations remain, `i` is the loop counter;
`left`, `right` and `out` are the mutable locals.  The two `if` statements are consecutive,
not alternatives, exactly as in the source. -/
def loadMemLoop (addr size leftAddr rightAddr : Nat) : Nat → Nat → Nat → Nat → Nat → Nat
  | 0, _, _, _, out => out
  | n + 1, i, left, right, out =>
    let effAddr := and64 (sub64 (sub64 (add64 addr size) 1) i) (not64 31)
    let b0 : Nat := 0
    let hitL : Bool := decide (eq64 effAddr leftAddr ≠ 0)
    let b1 := if hitL then and left 0xff else b0
    let left1 := if hitL then shr 8 left else left
    let hitR : Bool := decide (eq64 effAddr rightAddr ≠ 0)
    let b2 := if hitR then and right 0xff else b1
    let right1 := if hitR then shr 8 right else right
    let out1 := or64 (shl64 8 out) (u256ToU64 b2)
    loadMemLoop addr size leftAddr rightAddr n (i + 1) left1 right1 out1

/-- The closure `loadMem` (lines 178-231). -/
def loadMem (keccak : List Byte → B32) (addr size : Nat) (signed : Bool)
    (proofIndexL proofIndexR : Nat) : M Nat := do
  if size > 8 then goPanic
  let leftAddr := and64 addr (not64 31)
  let leftLeaf ← getMemoryB32 keccak leftAddr proofIndexL
  let left := b32asBEWord leftLeaf
  let alignment := sub64 addr leftAddr
  let rightAddr := and64 (add64 addr (sub64 size 1)) (not64 31)
  let (right, leftShamt, rightShamt) ←
    (if iszero64 (eq64 leftAddr rightAddr) then do
      if proofIndexR = 0xff then goPanic
      let rightLeaf ← getMemoryB32 keccak rightAddr proofIndexR
      pure (b32asBEWord rightLeaf, 0, sub64 (sub64 64 alignment) size)
    else
      pure (0, sub64 (sub64 32 alignment) size, 0) : M (Nat × Nat × Nat))
  let left := shr (shl64 3 leftShamt) left
  let right := shr (shl64 3 rightShamt) right
  let out := loadMemLoop addr size leftAddr rightAddr (size % 256) 0 left right 0
  if signed then
    let signBitShift := sub64 (shl64 3 size) 1
    pure (signExtend64 out signBitShift)
  else
    pure out

/-- The four mutable 256-bit locals of the patch loop of `storeMemUnaligned`. -/
structure Patch where
  leftPatch : Nat
  rightPatch : Nat
  leftMask : Nat
  rightMask : Nat
deriving DecidableEq, Repr

/-- The patch loop of `storeMemUnaligned` (lines 248-268): `n` iterations remain, `i` is the
loop counter, `min = alignment`, `max = alignment + size`. -/
def storePatchLoop (alignment : Nat) (value : Nat) (min max : Nat) : Nat → Nat → Patch → Patch
  | 0, _, p => p
  | n + 1, i, p =>
    let index : Nat := i
    let leftSide : Bool := decide (lt64 index 32 ≠ 0)
    let p1 : Patch :=
      if leftSide then { p with leftPatch := shl 8 p.leftPatch, leftMask := shl 8 p.leftMask }
      else { p with rightPatch := shl 8 p.rightPatch, rightMask := shl 8 p.rightMask }
    let p2 : Patch :=
      if and64 (eq64 (lt64 index min) 0) (lt64 index max) ≠ 0 then
        let b := and (shr (shr64 3 (sub64 index alignment)) value) 0xff
        if leftSide then { p1 with leftPatch := or p1.leftPatch b, leftMask := or p1.leftMask 0xff }
        else { p1 with rightPatch := or p1.rightPatch b, rightMask := or p1.rightMask 0xff }
      else p1
    storePatchLoop alignment value min max n (i + 1) p2

/-- The closure `storeMemUnaligned` (lines 233-290). -/
def storeMemUnaligned (keccak : List Byte → B32) (addr size : Nat) (value : Nat)
    (proofIndexL proofIndexR : Nat) : M Unit := do
  if size > 32 then goPanic
  let leftAddr := and64 addr (not64 31)
  let rightAddr := and64 (add64 addr (sub64 size 1)) (not64 31)
  let alignment := sub64 addr leftAddr
  let min := alignment
  let max := add64 alignment size
  let p := storePatchLoop alignment value min max 64 0 ⟨0, 0, 0, 0⟩
  let leftLeaf ← getMemoryB32 keccak leftAddr proofIndexL
  let left := b32asBEWord leftLeaf
  let left := or (and left (not p.leftMask)) p.leftPatch
  setMemoryB32 keccak leftAddr (beWordAsB32 left) proofIndexL
  if eq64 leftAddr rightAddr ≠ 0 then pure ()
  else do
    if proofIndexR = 0xff then goPanic
    let rightLeaf ← getMemoryB32 keccak rightAddr proofIndexR
    let right := b32asBEWord rightLeaf
    let right := or (and right (not p.rightMask)) p.rightPatch
    setMemoryB32 keccak rightAddr (beWordAsB32 right) proofIndexR

/-- The closure `storeMem` (lines 291-293). -/
def storeMem (keccak : List Byte → B32) (addr size value : Nat)
    (proofIndexL proofIndexR : Nat) : M Unit :=
  storeMemUnaligned keccak addr size value proofIndexL proofIndexR

/-! ## Registers and scalar fields of the state (lines 295-358) -/

/-- The closure `loadRegister` (lines 295-302). -/
def loadRegister (reg : Nat) : M Nat := do
  if gt64 reg 31 ≠ 0 then revertWithCode 0xbad4e9
  let offset := add64 stateOffsetRegisters (mul64 reg 8)
  fun cd => Res.ok (decodeU64 (readState offset 8 cd)) cd

/-- The closure `writeRegister` (lines 303-314). -/
def writeRegister (reg v : Nat) : M Unit :=
  if iszero64 reg then pure ()
  else do
    if gt64 reg 31 ≠ 0 then revertWithCode 0xbad4e9
    let offset := add64 stateOffsetRegisters (mul64 reg 8)
    writeState offset (encodeU64 v)

/-- The closure `getLoadReservation` (lines 316-318). -/
def getLoadReservation : M Nat := fun cd =>
  Res.ok (decodeU64 (readState stateOffsetLoadReservation 8 cd)) cd

/-- The closure `setLoadReservation` (lines 319-321). -/
def setLoadReservation (addr : Nat) : M Unit := writeState stateOffsetLoadReservation (encodeU64 addr)

/-- The closure `writeCSR` (lines 323-325): nothing is stored. -/
def writeCSR (_num _v : Nat) : M Unit := pure ()

/-- The closure `readCSR` (lines 327-330): always zero. -/
def readCSR (_num : Nat) : Nat := 0

/-- The closure `getPC` (lines 332-334). -/
def getPC : M Nat := fun cd => Res.ok (decodeU64 (readState stateOffsetPC 8 cd)) cd

/-- The closure `setPC` (lines 335-337). -/
def setPC (pc : Nat) : M Unit := writeState stateOffsetPC (encodeU64 pc)

/-- The closure `getHeap` (lines 339-341). -/
def getHeap : M Nat := fun cd => Res.ok (decodeU64 (readState stateOffsetHeap 8 cd)) cd

/-- The closure `setHeap` (lines 342-344). -/
def setHeap (v : Nat) : M Unit := writeState stateOffsetHeap (encodeU64 v)

/-- The closure `getPreimageKey` (lines 346-348). -/
def getPreimageKey : M B32 := fun cd => Res.ok (padB32 (readState stateOffsetPreimageKey 32 cd)) cd

/-- The closure `setPreimageKey` (lines 349-351). -/
def setPreimageKey (k : B32) : M Unit := writeState stateOffsetPreimageKey k.val

/-- The closure `getPreimageOffset` (lines 353-355). -/
def getPreimageOffset : M Nat := fun cd =>
  Res.ok (decodeU64 (readState stateOffsetPreimageOffset 8 cd)) cd

/-- The closure `setPreimageOffset` (lines 356-358). -/
def setPreimageOffset (v : Nat) : M Unit := writeState stateOffsetPreimageOffset (encodeU64 v)

/-- The closure `updateCSR` (lines 360-373). -/
def updateCSR (num v mode : Nat) : M Nat := do
  let out := readCSR num
  let v1 ←
    (if mode = 1 then pure v
    else if mode = 2 then pure (or64 out v)
    else if mode = 3 then pure (and64 out (not64 v))
    else revertWithCode 0xbadc0de0 : M Nat)
  writeCSR num v1
  pure out

/-! ## Pre-image oracle glue (lines 375-438) -/

/-- The oracle method `ReadPreImagePart(key, offset)`: `none` is a non-nil error, otherwise the
32-byte chunk and the `uint8` length. -/
abbrev PreImageOracle := B32 → Nat → Option (B32 × Byte)

/-- The closure `writePreimageKey` (lines 375-402). -/
def writePreimageKey (keccak : List Byte → B32) (addr count : Nat) : M Nat := do
  let alignment := and64 addr 31
  let maxData := sub64 32 alignment
  let count := if gt64 count maxData ≠ 0 then maxData else count
  let leaf ← getMemoryB32 keccak (sub64 addr alignment) 1
  let dat := b32asBEWord leaf
  let dat := shl (shl64 3 alignment) dat
  let dat := shr (shl64 3 (sub64 32 count)) dat
  let bits := shl 3 count
  let preImageKey ← getPreimageKey
  let key := b32asBEWord preImageKey
  let key := shl bits key
  let key := or key dat
  setPreimageKey (beWordAsB32 key)
  setPreimageOffset 0
  pure count

/-- The closure `readPreimageValue` (lines 404-438). -/
def readPreimageValue (keccak : List Byte → B32) (po : PreImageOracle) (addr count : Nat) :
    M Nat := do
  let preImageKey ← getPreimageKey
  let offset ← getPreimageOffset
  match po preImageKey offset with
  | none => revertWithCode 0xbadf00d
  | some (pdatB32, pdatlen) =>
    if iszero64 pdatlen.val then pure 0
    else do
      let alignment := and64 addr 31
      let maxData := sub64 32 alignment
      let count := if gt64 count maxData ≠ 0 then maxData else count
      let count := if gt64 count pdatlen.val ≠ 0 then pdatlen.val else count
      let bits := shl64 3 (sub64 32 count)
      let mask := not (sub (shl bits 1) 1)
      let alignmentBits := shl64 3 alignment
      let mask := shr alignmentBits mask
      let pdat := shr alignmentBits (b32asBEWord pdatB32)
      let newOffset := add64 offset count
      setPreimageOffset newOffset
      let node ← getMemoryB32 keccak (sub64 addr alignment) 1
      let dat := and (b32asBEWord node) (not mask)
      let dat := or dat (and pdat mask)
      setMemoryB32 keccak (sub64 addr alignment) (beWordAsB32 dat) 1
      pure count

/-! ## System calls (lines 440-604) -/

def fdStdin : Nat := 0
def fdStdout : Nat := 1
def fdStderr : Nat := 2
def fdHintRead : Nat := 3
def fdHintWrite : Nat := 4
def fdPreimageRead : Nat := 5
def fdPreimageWrite : Nat := 6

/-- The closure `sysCall` (lines 440-604). -/
def sysCall (keccak : List Byte → B32) (po : PreImageOracle) : M Unit := do
  let a7 ← loadRegister 17
  if a7 = 93 then do
    let a0 ← loadRegister 10
    setExitCode (toByte a0)
    setExited
  else if a7 = 94 then do
    let a0 ← loadRegister 10
    setExitCode (toByte a0)
    setExited
  else if a7 = 214 then do
    let v := shl64 30 1
    writeRegister 10 v
    writeRegister 11 0
  else if a7 = 222 then do
    let addr ← loadRegister 10
    let length ← loadRegister 11
    if addr = 0 then do
      let align := and64 length 4095
      let length := if align ≠ 0 then add64 length (sub64 4096 align) else length
      let prevHeap ← getHeap
      writeRegister 10 prevHeap
      setHeap (add64 prevHeap length)
    else pure ()
    writeRegister 11 0
  else if a7 = 63 then do
    let fd ← loadRegister 10
    let addr ← loadRegister 11
    let count ← loadRegister 12
    let (n, errCode) ←
      (if fd = fdStdin then pure (0, 0)
      else if fd = fdHintRead then pure (count, 0)
      else if fd = fdPreimageRead then do
        let n ← readPreimageValue keccak po addr count
        pure (n, 0)
      else pure (u64Mask, 0x4d) : M (Nat × Nat))
    writeRegister 10 n
    writeRegister 11 errCode
  else if a7 = 64 then do
    let fd ← loadRegister 10
    let addr ← loadRegister 11
    let count ← loadRegister 12
    let (n, errCode) ←
      (if fd = fdStdout then pure (count, 0)
      else if fd = fdStderr then pure (count, 0)
      else if fd = fdHintWrite then pure (count, 0)
      else if fd = fdPreimageWrite then do
        let n ← writePreimageKey keccak addr count
        pure (n, 0)
      else pure (u64Mask, 0x4d) : M (Nat × Nat))
    writeRegister 10 n
    writeRegister 11 errCode
  else if a7 = 25 then do
    let fd ← loadRegister 10
    let cmd ← loadRegister 11
    let (out, errCode) : Nat × Nat :=
      if cmd = 0x3 then
        if fd = 0 then (0, 0)
        else if fd = 1 then (1, 0)
        else if fd = 2 then (1, 0)
        else if fd = 3 then (0, 0)
        else if fd = 4 then (1, 0)
        else if fd = 5 then (0, 0)
        else if fd = 6 then (1, 0)
        else (u64Mask, 0x4d)
      else (u64Mask, 0x16)
    writeRegister 10 out
    writeRegister 11 errCode
  else if a7 = 56 then do
    writeRegister 10 u64Mask
    writeRegister 11 0xd
  else if a7 = 123 then do
    writeRegister 10 0
    writeRegister 11 0
  else if a7 = 113 then do
    let addr ← loadRegister 11
    storeMemUnaligned keccak addr 16 (or 1337 (shl 64 1337000000000)) 1 2
    writeRegister 10 0
    writeRegister 11 0
  else if a7 = 135 then do
    writeRegister 10 0
    writeRegister 11 0
  else if a7 = 132 then do
    writeRegister 10 0
    writeRegister 11 0
  else if a7 = 178 then do
    writeRegister 10 0
    writeRegister 11 0
  else if a7 = 134 then do
    writeRegister 10 0
    writeRegister 11 0
  else if a7 = 163 then do
    let res ← loadRegister 10
    let addr ← loadRegister 11
    if res = 0x7 then
      storeMemUnaligned keccak addr 16 (or 1024 (shl 64 1024)) 1 2
    else revertWithCode 0xf0012
  else revertWithCode 0xf001ca11

/-! ## Instruction decoding -/

/-- The bit field `bits[hi:lo]` of an instruction word. -/
def bits (hi lo : Nat) (instr : Nat) : Nat := (instr >>> lo) % 2 ^ (hi + 1 - lo)

/-- Modelled from the spec: the decoder `parseOpcode` (not in `vm.go`): `opcode = bits[6:0]`. -/
def parseOpcode (instr : Nat) : Nat := bits 6 0 instr

/-- Modelled from the spec: the decoder `parseRd`: `rd = bits[11:7]`. -/
def parseRd (instr : Nat) : Nat := bits 11 7 instr

/-- Modelled from the spec: the decoder `parseFunct3`: `funct3 = bits[14:12]`. -/
def parseFunct3 (instr : Nat) : Nat := bits 14 12 instr

/-- Modelled from the spec: the decoder `parseRs1`: `rs1 = bits[19:15]`. -/
def parseRs1 (instr : Nat) : Nat := bits 19 15 instr

/-- Modelled from the spec: the decoder `parseRs2`: `rs2 = bits[24:20]`. -/
def parseRs2 (instr : Nat) : Nat := bits 24 20 instr

/-- Modelled from the spec: the decoder `parseFunct7`: `funct7 = bits[31:25]`. -/
def parseFunct7 (instr : Nat) : Nat := bits 31 25 instr

/-- Modelled from the spec: the decoder `parseImmTypeI`: sign-extend `bits[31:20]` from bit 11. -/
def parseImmTypeI (instr : Nat) : Nat := signExtend64 (bits 31 20 instr) 11

/-- Modelled from the spec: the decoder `parseImmTypeS`: `(bits[31:25]<<5) | bits[11:7]`,
sign-extended from bit 11. -/
def parseImmTypeS (instr : Nat) : Nat :=
  signExtend64 ((bits 31 25 instr <<< 5) ||| bits 11 7 instr) 11

/-- Modelled from the spec: the decoder `parseImmTypeB`:
`(bits[31]<<12) | (bits[7]<<11) | (bits[30:25]<<5) | (bits[11:8]<<1)`, sign-extended from bit 12. -/
def parseImmTypeB (instr : Nat) : Nat :=
  signExtend64 ((bits 31 31 instr <<< 12) ||| (bits 7 7 instr <<< 11)
    ||| (bits 30 25 instr <<< 5) ||| (bits 11 8 instr <<< 1)) 12

/-- Modelled from the spec: the decoder `parseImmTypeU`: `bits[31:12]` (the `<<12` is applied at
use), as a signed 64-bit word like the other immediates, that is sign-extended from its top
bit 19.  Line 854 (LUI) shifts the decoded value left by 12 and writes it to `rd` without any
further extension, and the result is the one the specification states for LUI, `imm << 12`
sign-extended from bit 31, only if the decoder has extended the field; line 859 (AUIPC)
extends the shifted value from bit 31 once more, which changes nothing. -/
def parseImmTypeU (instr : Nat) : Nat := signExtend64 (bits 31 12 instr) 19

/-- Modelled from the spec: the decoder `parseImmTypeJ`.  The J-type immediate of the specification,
`(bits[31]<<20) | (bits[19:12]<<12) | (bits[20]<<11) | (bits[30:21]<<1)` sign-extended from
bit 20, is a byte offset whose bit 0 is always zero; line 866 shifts the decoded value left
by one before it extends it from bit 20 and adds it to `pc`, and its comment calls the value a
"signed offset in multiples of 2 bytes".  The decoder therefore returns that offset in units
of two bytes: the same four fields one position lower, sign-extended from bit 19. -/
def parseImmTypeJ (instr : Nat) : Nat :=
  signExtend64 ((bits 31 31 instr <<< 19) ||| (bits 19 12 instr <<< 11)
    ||| (bits 20 20 instr <<< 10) ||| bits 30 21 instr) 19

/-- Modelled from the spec: the decoder `parseCSSR`: `bits[31:20]`, zero-extended. -/
def parseCSSR (instr : Nat) : Nat := bits 31 20 instr

/-! ## The instruction switch of `Step` (lines 610-983) -/

/-- The value computed for `rd` by opcode `0x13` (lines 670-692); `var rdValue U64` starts at zero. -/
def opImm (funct3 rs1Value imm : Nat) : Nat :=
  if funct3 = 0 then add64 rs1Value imm
  else if funct3 = 1 then shl64 (and64 imm 0x3F) rs1Value
  else if funct3 = 2 then slt64 rs1Value imm
  else if funct3 = 3 then lt64 rs1Value imm
  else if funct3 = 4 then xor64 rs1Value imm
  else if funct3 = 5 then
    (if shr64 6 imm = 0x00 then shr64 (and64 imm 0x3F) rs1Value
    else if shr64 6 imm = 0x10 then sar64 (and64 imm 0x3F) rs1Value
    else 0)
  else if funct3 = 6 then or64 rs1Value imm
  else if funct3 = 7 then and64 rs1Value imm
  else 0

/-- The value computed for `rd` by opcode `0x1B` (lines 699-712). -/
def opImm32 (funct3 rs1Value imm : Nat) : Nat :=
  if funct3 = 0 then mask32Signed64 (add64 rs1Value imm)
  else if funct3 = 1 then mask32Signed64 (shl64 (and64 imm 0x1F) rs1Value)
  else if funct3 = 5 then
    let shamt := and64 imm 0x1F
    (if shr64 6 imm = 0x00 then signExtend64 (shr64 shamt (and64 rs1Value u32Mask)) 31
    else if shr64 6 imm = 0x10 then
      signExtend64 (shr64 shamt (and64 rs1Value u32Mask)) (sub64 31 shamt)
    else 0)
  else 0

/-- The value computed for `rd` by opcode `0x33` (lines 719-788). -/
def opReg (funct3 funct7 rs1Value rs2Value : Nat) : Nat :=
  if funct7 = 1 then
    (if funct3 = 0 then mul64 rs1Value rs2Value
    else if funct3 = 1 then
      u256ToU64 (shr 64 (mul (signExtend64To256 rs1Value) (signExtend64To256 rs2Value)))
    else if funct3 = 2 then u256ToU64 (shr 64 (mul (signExtend64To256 rs1Value) rs2Value))
    else if funct3 = 3 then u256ToU64 (shr 64 (mul rs1Value rs2Value))
    else if funct3 = 4 then (if rs2Value = 0 then u64Mask else sdiv64 rs1Value rs2Value)
    else if funct3 = 5 then (if rs2Value = 0 then u64Mask else div64 rs1Value rs2Value)
    else if funct3 = 6 then (if rs2Value = 0 then rs1Value else smod64 rs1Value rs2Value)
    else if funct3 = 7 then (if rs2Value = 0 then rs1Value else mod64 rs1Value rs2Value)
    else 0)
  else
    (if funct3 = 0 then
      (if funct7 = 0x00 then add64 rs1Value rs2Value
      else if funct7 = 0x20 then sub64 rs1Value rs2Value
      else 0)
    else if funct3 = 1 then shl64 (and64 rs2Value 0x3F) rs1Value
    else if funct3 = 2 then slt64 rs1Value rs2Value
    else if funct3 = 3 then lt64 rs1Value rs2Value
    else if funct3 = 4 then xor64 rs1Value rs2Value
    else if funct3 = 5 then
      (if funct7 = 0x00 then shr64 (and64 rs2Value 0x3F) rs1Value
      else if funct7 = 0x20 then sar64 (and64 rs2Value 0x3F) rs1Value
      else 0)
    else if funct3 = 6 then or64 rs1Value rs2Value
    else if funct3 = 7 then and64 rs1Value rs2Value
    else 0)

/-- The value computed for `rd` by opcode `0x3B` (lines 795-849). -/
def opReg32 (funct3 funct7 rs1Value rs2Value : Nat) : Nat :=
  if funct7 = 1 then
    (if funct3 = 0 then mask32Signed64 (mul64 (and64 rs1Value u32Mask) (and64 rs2Value u32Mask))
    else if funct3 = 4 then
      (if rs2Value = 0 then u64Mask
      else mask32Signed64 (sdiv64 (mask32Signed64 rs1Value) (mask32Signed64 rs2Value)))
    else if funct3 = 5 then
      (if rs2Value = 0 then u64Mask
      else mask32Signed64 (div64 (and64 rs1Value u32Mask) (and64 rs2Value u32Mask)))
    else if funct3 = 6 then
      (if rs2Value = 0 then mask32Signed64 rs1Value
      else mask32Signed64 (smod64 (mask32Signed64 rs1Value) (mask32Signed64 rs2Value)))
    else if funct3 = 7 then
      (if rs2Value = 0 then mask32Signed64 rs1Value
      else mask32Signed64 (mod64 (and64 rs1Value u32Mask) (and64 rs2Value u32Mask)))
    else 0)
  else
    (if funct3 = 0 then
      (if funct7 = 0x00 then mask32Signed64 (add64 (and64 rs1Value u32Mask) (and64 rs2Value u32Mask))
      else if funct7 = 0x20 then
        mask32Signed64 (sub64 (and64 rs1Value u32Mask) (and64 rs2Value u32Mask))
      else 0)
    else if funct3 = 1 then mask32Signed64 (shl64 (and64 rs2Value 0x1F) rs1Value)
    else if funct3 = 5 then
      let shamt := and64 rs2Value 0x1F
      (if funct7 = 0x00 then signExtend64 (shr64 shamt (and64 rs1Value u32Mask)) 31
      else if funct7 = 0x20 then
        signExtend64 (shr64 shamt (and64 rs1Value u32Mask)) (sub64 31 shamt)
      else 0)
    else 0)

/-- The branch condition of opcode `0x63` (lines 640-654); `branchHit` starts at zero. -/
def branchHit (funct3 rs1Value rs2Value : Nat) : Nat :=
  if funct3 = 0 then eq64 rs1Value rs2Value
  else if funct3 = 1 then and64 (not64 (eq64 rs1Value rs2Value)) 1
  else if funct3 = 4 then slt64 rs1Value rs2Value
  else if funct3 = 5 then and64 (not64 (slt64 rs1Value rs2Value)) 1
  else if funct3 = 6 then lt64 rs1Value rs2Value
  else if funct3 = 7 then and64 (not64 (lt64 rs1Value rs2Value)) 1
  else 0

/-- The inner switch of the atomic memory operations (lines 935-964): the value to store, or
the revert `0xf001a70` for an unknown operation. -/
def amoOp (op v value : Nat) : M Nat :=
  if op = 0x0 then pure (add64 v value)
  else if op = 0x1 then pure value
  else if op = 0x4 then pure (xor64 v value)
  else if op = 0x8 then pure (or64 v value)
  else if op = 0xc then pure (and64 v value)
  else if op = 0x10 then pure (if slt64 value v ≠ 0 then value else v)
  else if op = 0x14 then pure (if sgt64 value v ≠ 0 then value else v)
  else if op = 0x18 then pure (if lt64 value v ≠ 0 then value else v)
  else if op = 0x1c then pure (if gt64 value v ≠ 0 then value else v)
  else revertWithCode 0xf001a70

/-- The instruction switch of `Step` (lines 610-983), applied to the program counter read at
line 606 and to the instruction word fetched at line 607. -/
def execute (keccak : List Byte → B32) (po : PreImageOracle) (pc instr : Nat) : M Unit := do
  let opcode := parseOpcode instr
  let rd := parseRd instr
  let funct3 := parseFunct3 instr
  let rs1 := parseRs1 instr
  let rs2 := parseRs2 instr
  let funct7 := parseFunct7 instr
  if opcode = 0x03 then do
    let imm := parseImmTypeI instr
    let signed := iszero64 (and64 funct3 4)
    let size := shl64 (and64 funct3 3) 1
    let rs1Value ← loadRegister rs1
    let memIndex := add64 rs1Value (signExtend64 imm 11)
    let rdValue ← loadMem keccak memIndex size signed 1 2
    writeRegister rd rdValue
    setPC (add64 pc 4)
  else if opcode = 0x23 then do
    let imm := parseImmTypeS instr
    let size := shl64 funct3 1
    let value ← loadRegister rs2
    let rs1Value ← loadRegister rs1
    let memIndex := add64 rs1Value (signExtend64 imm 11)
    storeMem keccak memIndex size value 1 2
    setPC (add64 pc 4)
  else if opcode = 0x63 then do
    let rs1Value ← loadRegister rs1
    let rs2Value ← loadRegister rs2
    let hit := branchHit funct3 rs1Value rs2Value
    let pc1 := if hit = 0 then add64 pc 4 else add64 pc (parseImmTypeB instr)
    setPC pc1
  else if opcode = 0x13 then do
    let rs1Value ← loadRegister rs1
    let imm := parseImmTypeI instr
    let rdValue := opImm funct3 rs1Value imm
    writeRegister rd rdValue
    setPC (add64 pc 4)
  else if opcode = 0x1B then do
    let rs1Value ← loadRegister rs1
    let imm := parseImmTypeI instr
    let rdValue := opImm32 funct3 rs1Value imm
    writeRegister rd rdValue
    setPC (add64 pc 4)
  else if opcode = 0x33 then do
    let rs1Value ← loadRegister rs1
    let rs2Value ← loadRegister rs2
    let rdValue := opReg funct3 funct7 rs1Value rs2Value
    writeRegister rd rdValue
    setPC (add64 pc 4)
  else if opcode = 0x3B then do
    let rs1Value ← loadRegister rs1
    let rs2Value ← loadRegister rs2
    let rdValue := opReg32 funct3 funct7 rs1Value rs2Value
    writeRegister rd rdValue
    setPC (add64 pc 4)
  else if opcode = 0x37 then do
    let imm := parseImmTypeU instr
    let rdValue := shl64 12 imm
    writeRegister rd rdValue
    setPC (add64 pc 4)
  else if opcode = 0x17 then do
    let imm := parseImmTypeU instr
    let rdValue := add64 pc (signExtend64 (shl64 12 imm) 31)
    writeRegister rd rdValue
    setPC (add64 pc 4)
  else if opcode = 0x6F then do
    let imm := parseImmTypeJ instr
    let rdValue := add64 pc 4
    writeRegister rd rdValue
    setPC (add64 pc (signExtend64 (shl64 1 imm) 20))
  else if opcode = 0x67 then do
    let rs1Value ← loadRegister rs1
    let imm := parseImmTypeI instr
    let rdValue := add64 pc 4
    writeRegister rd rdValue
    setPC (and64 (add64 rs1Value (signExtend64 imm 11)) (xor64 u64Mask 1))
  else if opcode = 0x73 then do
    if funct3 = 0 then do
      if shr64 20 instr = 0 then do
        sysCall keccak po
        setPC (add64 pc 4)
      else
        setPC (add64 pc 4)
    else do
      let imm := parseCSSR instr
      let value ← (if iszero64 (and64 funct3 4) then loadRegister rs1 else pure rs1 : M Nat)
      let mode := and64 funct3 3
      let rdValue ← updateCSR imm value mode
      writeRegister rd rdValue
      setPC (add64 pc 4)
  else if opcode = 0x2F then do
    let size := shl64 funct3 1
    if lt64 size 4 ≠ 0 then revertWithCode 0xbada70
    let addr ← loadRegister rs1
    let op := shr64 2 funct7
    if op = 0x2 then do
      let v ← loadMem keccak addr size true 1 2
      writeRegister rd v
      setLoadReservation addr
    else if op = 0x3 then do
      let reservation ← getLoadReservation
      let rdValue ←
        (if eq64 addr reservation ≠ 0 then do
          let rs2Value ← loadRegister rs2
          storeMem keccak addr size rs2Value 1 2
          pure 0
        else pure 1 : M Nat)
      writeRegister rd rdValue
      setLoadReservation 0
    else do
      let rs2Value ← loadRegister rs2
      let rs2Value := if eq64 size 4 ≠ 0 then mask32Signed64 rs2Value else rs2Value
      let value := rs2Value
      let v ← loadMem keccak addr size true 1 2
      let v ← amoOp op v value
      storeMem keccak addr size v 1 3
      let rdValue := v
      writeRegister rd rdValue
    setPC (add64 pc 4)
  else if opcode = 0x0F then setPC (add64 pc 4)
  else if opcode = 0x07 then setPC (add64 pc 4)
  else if opcode = 0x27 then setPC (add64 pc 4)
  else if opcode = 0x53 then setPC (add64 pc 4)
  else revertWithCode 0xf001c0de

/-- Lines 606-984 of `Step`: fetch at `pc`, then the instruction switch. -/
def stepBody (keccak : List Byte → B32) (po : PreImageOracle) : M Unit := do
  let pc ← getPC
  let instr ← loadMem keccak pc 4 false 0 0xff
  execute keccak po pc instr

/-- The two results of `Step` and the calldata buffer it leaves behind: `outErr = none` is a nil
error, `some code` a non-nil error with the revert code the deferred handler reports (`0` for a
recovered panic without code). -/
structure StepResult where
  stateHash : B32
  outErr : Option Nat
  calldata : List Byte
deriving DecidableEq, Repr

/-- The function `Step` (lines 64-984).  `none` stands for the slice panic of line 70, raised
before the deferred recover is installed, when the calldata is shorter than `4 + stateSize`.
The named result `stateHash` is assigned on the early return of line 87 only; the final
`return` of line 984 is bare, and a recovered panic returns the results as they stand. -/
def Step (keccak : List Byte → B32) (po : PreImageOracle) (calldata : List Byte) :
    Option StepResult :=
  if calldata.length < 4 + stateSize then none
  else if getExited calldata then some ⟨computeStateHash keccak calldata, none, calldata⟩
  else
    match stepBody keccak po calldata with
    | Res.ok _ cd => some ⟨zeroB32, none, cd⟩
    | Res.revert code cd => some ⟨zeroB32, some code, cd⟩

/-! ## Auxiliary notions used by the statements -/

/-- A computation that never writes to the buffer. -/
def ReadOnly {α : Type} (m : M α) : Prop := ∀ cd, (m cd).buf = cd

/-- The `memRoot` field of the state record. -/
def memRootOf (cd : List Byte) : B32 := padB32 (readState stateOffsetMemRoot 32 cd)

/-- Slot `j` of proof block `proofIndex`: 32 bytes of calldata at `4 + 362 + proofIndex·2048 + 32·j`. -/
def proofSlot (cd : List Byte) (proofIndex j : Nat) : B32 :=
  padB32 (cd.drop (proofOffset proofIndex + 32 * j))

/-- The first `n` consecutive 32-byte slots of a byte string (zero-padded at its end). -/
def slotsOf : List Byte → Nat → List B32
  | _, 0 => []
  | bs, n + 1 => padB32 bs :: slotsOf (bs.drop 32) n

/-- The siblings of proof block `proofIndex`: its slots 1 to 59. -/
def proofSiblings (cd : List Byte) (proofIndex : Nat) : List B32 :=
  slotsOf (cd.drop (proofOffset proofIndex + 32)) 59

/-- The root as the specification words it: starting from the leaf, the sibling of level `i`
is hashed as `H(node, sibling)` when bit `i` of the path is 0 and as `H(sibling, node)` when
it is 1. -/
def foldRoot (keccak : List Byte → B32) (path : Nat) : Nat → B32 → List B32 → B32
  | _, node, [] => node
  | i, node, sibling :: rest =>
    foldRoot keccak path (i + 1)
      (if path.testBit i then hashPair keccak sibling node else hashPair keccak node sibling) rest

/-- The calldata after the leaf slot of proof block `proofIndex` has been replaced by `v`. -/
def withLeaf (cd : List Byte) (proofIndex : Nat) (v : B32) : List Byte :=
  writeAt cd (proofOffset proofIndex) v.val

/-- The value of register `x[r]` in the state record. -/
def regOf (cd : List Byte) (r : Nat) : Nat :=
  decodeU64 (readState (stateOffsetRegisters + 8 * r) 8 cd)

/-- The `pc` field of the state record. -/
def pcOf (cd : List Byte) : Nat := decodeU64 (readState stateOffsetPC 8 cd)

/-- The `heap` field of the state record. -/
def heapOf (cd : List Byte) : Nat := decodeU64 (readState stateOffsetHeap 8 cd)

/-- The `loadReservation` field of the state record. -/
def loadReservationOf (cd : List Byte) : Nat :=
  decodeU64 (readState stateOffsetLoadReservation 8 cd)

/-- The buffer after the 8 bytes of register `x[r]` have been set to `v`. -/
def withReg (cd : List Byte) (r v : Nat) : List Byte :=
  writeAt cd (4 + (stateOffsetRegisters + 8 * r)) (encodeU64 v)

/-- The buffer after the `pc` field has been set to `v`. -/
def withPC (cd : List Byte) (v : Nat) : List Byte := writeAt cd (4 + stateOffsetPC) (encodeU64 v)

/-- The buffers have the same length and hold the same eight bytes of register `x0`
(state offsets 106 to 113). -/
def SameX0 (cd cd1 : List Byte) : Prop :=
  cd1.length = cd.length ∧
    readState stateOffsetRegisters 8 cd1 = readState stateOffsetRegisters 8 cd

/-- A computation that, on a buffer holding a whole state record, leaves `x0` as it was,
whether it returns or reverts. -/
def KeepsX0 {α : Type} (m : M α) : Prop :=
  ∀ cd, 4 + stateSize ≤ cd.length → SameX0 cd (m cd).buf

/-- A stand-in digest at which the statements, all of them proved for an arbitrary `keccak`,
are instantiated on concrete buffers: byte `i` of the digest is `3 * bs[i] + bs[32+i] + 1`
modulo 256, so that the digest of a pair depends on both members and on their order. -/
def sampleKeccak (bs : List Byte) : B32 :=
  padB32 (List.zipWith (fun x y => toByte (3 * x.val + y.val + 1)) bs
    (bs.drop 32 ++ List.replicate 32 0))

/-- An oracle that always answers with an error. -/
def sampleOracle : PreImageOracle := fun _ _ => none

/-- A state record: the given `memRoot`, program counter bytes, `exited` byte and registers,
every other field zero. -/
def sampleState (memRoot : List Byte) (pc : List Byte) (exited : Byte) (regs : List Byte) :
    List Byte :=
  memRoot ++ List.replicate 32 0 ++ List.replicate 8 0 ++ pc ++ [0, exited]
    ++ List.replicate 8 0 ++ List.replicate 8 0 ++ List.replicate 8 0 ++ regs

/-- A proof block: the leaf followed by 63 zero slots. -/
def sampleProof (leaf : List Byte) : List Byte := leaf ++ List.replicate (63 * 32) 0

/-- The leaf holding the word `0x00500093` (`addi x1, x0, 5`) in its first four bytes. -/
def addiLeaf : List Byte := [0x93, 0x00, 0x50, 0x00] ++ List.replicate 28 0

/-- The root, under `sampleKeccak`, of the path of address 0 over `addiLeaf` and 59 zero
siblings. -/
def addiRoot : List Byte := [126, 157, 13] ++ List.replicate 29 157

/-- The root, under `sampleKeccak`, of the path of address `0x1000` over the all-zero leaf and
59 zero siblings. -/
def zeroRoot : List Byte := List.replicate 32 143

/-- Calldata without proof blocks: selector and a fresh state record at `pc = 0` whose
registers `x1` and `x2` hold the given values, every other register zero. -/
def cdRegs (x1 x2 : Nat) : List Byte :=
  [0, 0, 0, 0] ++ sampleState (List.replicate 32 0) (List.replicate 8 0) 0
    (List.replicate 8 0 ++ encodeU64 x1 ++ encodeU64 x2 ++ List.replicate (29 * 8) 0)

/-- Calldata of scenario S1: selector, a fresh state over `addiLeaf` at `pc = 0`, and the proof
of the leaf at address 0 (valid for `sampleKeccak`). -/
def cdAddi : List Byte :=
  [0, 0, 0, 0] ++ sampleState addiRoot (List.replicate 8 0) 0 (List.replicate 256 0)
    ++ sampleProof addiLeaf

/-- The same calldata with `exited = 1` and exit code left at zero. -/
def cdExited : List Byte :=
  [0, 0, 0, 0] ++ sampleState addiRoot (List.replicate 8 0) 1 (List.replicate 256 0)
    ++ sampleProof addiLeaf


/-- Calldata for a store to address `0x1000`: a fresh state whose `memRoot` is the root over an
all-zero leaf at that address, an unused block 0, and block 1 holding that leaf and its
siblings (valid for `sampleKeccak`). -/
def cdStore : List Byte :=
  [0, 0, 0, 0]
    ++ sampleState zeroRoot (List.replicate 8 0) 0 (List.replicate 256 0)
    ++ sampleProof (List.replicate 32 0) ++ sampleProof (List.replicate 32 0)

/-- The leaf that `storeMem(0x1000, 8, 0xDEADBEEFCAFEBABE)` writes back over `leaf`: the word of
`leaf` with its top 8 bytes cleared, or-ed with the patch `0xBEBEBEBEBEBEBEBE << 192`. -/
def storedLeaf (leaf : B32) : B32 :=
  beWordAsB32 (or (and (b32asBEWord leaf) (not (0xFFFFFFFFFFFFFFFF <<< 192)))
    (0xBEBEBEBEBEBEBEBE <<< 192))

/-- The buffer `cdStore` after `storeMem(0x1000, 8, 0xDEADBEEFCAFEBABE, 1, 2)`: its `memRoot`
replaced by the root folded from the leaf that was written. -/
def cdStored : List Byte :=
  writeAt cdStore 4
    (foldRoot sampleKeccak (0x1000 >>> 5) 0 (storedLeaf zeroB32) (proofSiblings cdStore 1)).val

/-- The buffer after the `loadReservation` field has been set to `v`. -/
def withLoadReservation (cd : List Byte) (v : Nat) : List Byte :=
  writeAt cd (4 + stateOffsetLoadReservation) (encodeU64 v)

/-- The buffer after the `heap` field has been set to `v`. -/
def withHeap (cd : List Byte) (v : Nat) : List Byte :=
  writeAt cd (4 + stateOffsetHeap) (encodeU64 v)

/-- The buffer after `writeRegister(r, v)`: untouched for `r = 0`. -/
def withRd (cd : List Byte) (r v : Nat) : List Byte := if r = 0 then cd else withReg cd r v

/-- The 256 bytes of a register file whose first registers hold `vals`, the others zero. -/
def regBytes (vals : List Nat) : List Byte :=
  ((vals.map encodeU64).flatten ++ List.replicate 256 0).take 256

/-- Calldata for the atomic instructions at address `0x1000`: a fresh state whose `memRoot` is
the root over an all-zero leaf at that address, `x1 = 0x1000`, `x2 = 5`, `x3 = 7`, an unused
block 0, and block 1 holding that leaf and its siblings (valid for `sampleKeccak`). -/
def cdAmo : List Byte :=
  [0, 0, 0, 0]
    ++ sampleState zeroRoot (List.replicate 8 0) 0 (regBytes [0, 0x1000, 5, 7])
    ++ sampleProof (List.replicate 32 0) ++ sampleProof (List.replicate 32 0)

/-- The patch that `storeMemUnaligned(addr, size, value)` computes before it reads the leaf. -/
def patchOf (addr size value : Nat) : Patch :=
  storePatchLoop (sub64 addr (and64 addr (not64 31))) value (sub64 addr (and64 addr (not64 31)))
    (add64 (sub64 addr (and64 addr (not64 31))) size) 64 0 ⟨0, 0, 0, 0⟩

/-- The left leaf that `storeMemUnaligned(addr, size, value)` writes back over `leaf`. -/
def patchedLeaf (addr size value : Nat) (leaf : B32) : B32 :=
  beWordAsB32 (or (and (b32asBEWord leaf) (not (patchOf addr size value).leftMask))
    (patchOf addr size value).leftPatch)

/-- The root, under `sampleKeccak`, of the path of address 0 over the all-zero leaf and 59 zero
siblings. -/
def zeroRoot0 : List Byte := List.replicate 32 157

/-- Calldata for a store-conditional at address 0: a fresh state (`loadReservation = 0`) whose
`memRoot` is the root over an all-zero leaf at address 0, `x1 = 0`, `x2 = 5`, `x3 = 7`, and two
blocks holding that leaf and its siblings (valid for `sampleKeccak`). -/
def cdSc0 : List Byte :=
  [0, 0, 0, 0]
    ++ sampleState zeroRoot0 (List.replicate 8 0) 0 (regBytes [0, 0, 5, 7])
    ++ sampleProof (List.replicate 32 0) ++ sampleProof (List.replicate 32 0)

/-- The buffer after `setExitCode(code)` and `setExited()`. -/
def withExit (cd : List Byte) (code : Byte) : List Byte :=
  writeAt (writeAt cd (4 + stateOffsetExitCode) [code]) (4 + stateOffsetExited) [1]

/-- The `exitCode` byte of the state record. -/
def exitCodeOf (cd : List Byte) : List Byte := readState stateOffsetExitCode 1 cd

/-- The leaf holding the word `0x00000073` (`ecall`) in its first four bytes. -/
def ecallLeaf : List Byte := [0x73, 0x00, 0x00, 0x00] ++ List.replicate 28 0

/-- The root, under `sampleKeccak`, of the path of address 0 over `ecallLeaf` and 59 zero
siblings. -/
def ecallRoot : List Byte := [30] ++ List.replicate 31 157

/-- Calldata of scenario S6, `exit(42)`: selector, a fresh state over `ecallLeaf` at `pc = 0`
with `a0 = x10 = 42` and `a7 = x17 = 93`, and the proof of the leaf at address 0 (valid for
`sampleKeccak`). -/
def cdExit : List Byte :=
  [0, 0, 0, 0] ++ sampleState ecallRoot (List.replicate 8 0) 0
      (regBytes (List.replicate 10 0 ++ [42] ++ List.replicate 6 0 ++ [93]))
    ++ sampleProof ecallLeaf

/-- Calldata for the `mmap` system call: selector and a fresh state with `heap = 0x20000`,
`a0 = x10`, `a1 = x11` as given and `a7 = x17 = 222`. -/
def cdMmap (a0 a1 : Nat) : List Byte :=
  withHeap ([0, 0, 0, 0] ++ sampleState (List.replicate 32 0) (List.replicate 8 0) 0
    (regBytes (List.replicate 10 0 ++ [a0, a1] ++ List.replicate 5 0 ++ [222]))) 0x20000

/-- The low 32 bits of a word read as a signed 32-bit integer. -/
def toInt32 (x : Nat) : Int :=
  if x % 2 ^ 32 < 2 ^ 31 then (x % 2 ^ 32 : Nat) else (x % 2 ^ 32 : Nat) - 2 ^ 32

/-- The leaf holding the word `0x004080E7` (`jalr x1, 4(x1)`) in its first four bytes. -/
def jalrLeaf : List Byte := [0xE7, 0x80, 0x40, 0x00] ++ List.replicate 28 0

/-- The root, under `sampleKeccak`, of the path of address 0 over `jalrLeaf` and 59 zero
siblings. -/
def jalrRoot : List Byte := [218, 29, 93] ++ List.replicate 29 157

/-- Calldata for `jalr x1, 4(x1)` at `pc = 0` with `x1 = 0x2000`: selector, state over
`jalrLeaf`, and the proof of the leaf at address 0 (valid for `sampleKeccak`). -/
def cdJalr : List Byte :=
  [0, 0, 0, 0] ++ sampleState jalrRoot (List.replicate 8 0) 0 (regBytes [0, 0x2000])
    ++ sampleProof jalrLeaf

/-- A computation that never reverts with the code `0xf001c0de`. -/
def NotUnknownOpcode {α : Type} (m : M α) : Prop :=
  ∀ cd c cd1, m cd = Res.revert c cd1 → c ≠ 0xf001c0de

/-- The opcodes that have a case in the switch of `Step`. -/
def knownOpcodes : List Nat :=
  [0x03, 0x23, 0x63, 0x13, 0x1B, 0x33, 0x3B, 0x37, 0x17, 0x6F, 0x67, 0x73, 0x2F, 0x0F, 0x07,
    0x27, 0x53]

/-- Byte `i` of a byte string, zero beyond its end. -/
def byteAt (l : List Byte) (i : Nat) : Byte := (l[i]?).getD 0

/-- Bit `j` of a 32-byte string read as a big-endian word: bit `j mod 8` of byte `31 - j / 8`. -/
def bitOf (l : List Byte) (j : Nat) : Bool :=
  decide (j < 256) && (byteAt l (31 - j / 8)).val.testBit (j % 8)

/-- An oracle that answers every query with the chunk `01 02 ... 20` and the length 5. -/
def chunkOracle : PreImageOracle :=
  fun _ _ => some (⟨(List.range 32).map (fun i => toByte (i + 1)), by simp⟩, 5)

/-- The `preimageKey` field of the state record. -/
def preimageKeyOf (cd : List Byte) : B32 := padB32 (readState stateOffsetPreimageKey 32 cd)

/-- The `preimageOffset` field of the state record. -/
def preimageOffsetOf (cd : List Byte) : Nat :=
  decodeU64 (readState stateOffsetPreimageOffset 8 cd)

/-- The buffer after the `preimageKey` field has been set to `k`. -/
def withPreimageKey (cd : List Byte) (k : B32) : List Byte :=
  writeAt cd (4 + stateOffsetPreimageKey) k.val

/-- The buffer after the `preimageOffset` field has been set to `v`. -/
def withPreimageOffset (cd : List Byte) (v : Nat) : List Byte :=
  writeAt cd (4 + stateOffsetPreimageOffset) (encodeU64 v)

/-- The big-endian value of a byte string. -/
def beValue (l : List Byte) : Nat := l.foldl (fun (acc : Nat) (x : Byte) => acc * 256 + x.val) 0

/-- The J-type immediate as the specification writes it: the byte offset
`(bits[31]<<20) | (bits[19:12]<<12) | (bits[20]<<11) | (bits[30:21]<<1)`, sign-extended from
bit 20. -/
def immJ (instr : Nat) : Nat :=
  signExtend64 ((bits 31 31 instr <<< 20) ||| (bits 19 12 instr <<< 12)
    ||| (bits 20 20 instr <<< 11) ||| (bits 30 21 instr <<< 1)) 20

/-- The leaf holding the word `0x008000EF` (`jal x1, 8`) in its first four bytes. -/
def jalLeaf : List Byte := [0xEF, 0x00, 0x80, 0x00] ++ List.replicate 28 0

/-- The root, under `sampleKeccak`, of the path of address 0 over `jalLeaf` and 59 zero
siblings. -/
def jalRoot : List Byte := [178, 157, 29] ++ List.replicate 29 157

/-- Calldata for `jal x1, 8` at `pc = 0`: selector, a fresh state over `jalLeaf`, and the proof
of the leaf at address 0 (valid for `sampleKeccak`). -/
def cdJal : List Byte :=
  [0, 0, 0, 0] ++ sampleState jalRoot (List.replicate 8 0) 0 (List.replicate 256 0)
    ++ sampleProof jalLeaf

/-- Calldata for a load-reserved and store-conditional pair at address `0x1000`: a fresh state
whose `memRoot` is the root over an all-zero leaf at that address, `x1 = 0x1000`,
`x2 = 0x0102030405060708`, `x3 = 7`, an unused block 0, and block 1 holding that leaf and its
siblings (valid for `sampleKeccak`). -/
def cdLrSc : List Byte :=
  [0, 0, 0, 0]
    ++ sampleState zeroRoot (List.replicate 8 0) 0 (regBytes [0, 0x1000, 0x0102030405060708, 7])
    ++ sampleProof (List.replicate 32 0) ++ sampleProof (List.replicate 32 0)

/-- The buffers have the same length and agree on every slice of the state record that lies
outside the fields `memRoot` (state offsets 0 to 31) and `preimageOffset` (64 to 71): on
`preimageKey` and on everything from `pc` on (exit code, exited, step, heap, load
reservation, registers). -/
def SameOutsideRootAndOffset (cd cd1 : List Byte) : Prop :=
  cd1.length = cd.length ∧
    ∀ off n, (stateOffsetPreimageKey ≤ off ∧ off + n ≤ stateOffsetPreimageOffset)
        ∨ stateOffsetPC ≤ off → readState off n cd1 = readState off n cd

/-- A computation that, on a buffer holding a whole state record, writes nothing but `memRoot`
and `preimageOffset`, whether it returns or reverts. -/
def WritesRootAndOffsetOnly {α : Type} (m : M α) : Prop :=
  ∀ cd, 4 + stateSize ≤ cd.length → SameOutsideRootAndOffset cd (m cd).buf

/-- A computation that, on a buffer holding a whole state record, returns (it never reverts)
and keeps the length of the buffer. -/
def NeverReverts {α : Type} (m : M α) : Prop :=
  ∀ cd, 4 + stateSize ≤ cd.length → ∃ a cd1, m cd = Res.ok a cd1 ∧ cd1.length = cd.length

/-- A computation that, on a buffer holding a whole state record, keeps the length of the
buffer when it returns and, when it reverts, has written nothing but `memRoot` and
`preimageOffset`. -/
def RevertKeepsFields {α : Type} (m : M α) : Prop :=
  ∀ cd, 4 + stateSize ≤ cd.length →
    (∀ a cd1, m cd = Res.ok a cd1 → cd1.length = cd.length) ∧
      (∀ c cd1, m cd = Res.revert c cd1 → SameOutsideRootAndOffset cd cd1)

/-- Calldata for a store that crosses from the leaf at `0x1000` into the leaf at `0x1020`: a
fresh state whose `memRoot` is the root over all-zero leaves, `x1 = 0x1000`,
`x2 = 0x0102030405060708`, an unused block 0, block 1 holding the leaf at `0x1000` and its
siblings, and block 2 holding the leaf at `0x1020` and its siblings, both valid for
`sampleKeccak` against this `memRoot`. -/
def cdCross : List Byte :=
  [0, 0, 0, 0]
    ++ sampleState zeroRoot (List.replicate 8 0) 0 (regBytes [0, 0x1000, 0x0102030405060708, 7])
    ++ sampleProof (List.replicate 32 0) ++ sampleProof (List.replicate 32 0)
    ++ sampleProof (List.replicate 32 0)

/-- The root, under `sampleKeccak`, of the path of address `0x1000` over the leaf whose last
four bytes are `08` and 59 zero siblings. -/
def crossRoot : List Byte := List.replicate 28 143 ++ List.replicate 4 215

/-- Calldata for a pre-image read into address `0x1000` with a witness that does not verify:
a fresh state (`preimageOffset = 0`) whose `memRoot` is the root of the path of address 0,
`a0 = x10 = 5` (the pre-image read descriptor), `a1 = x11 = 0x1000`, `a2 = x12 = 4`,
`a7 = x17 = 63` (read), and two blocks of zeros. -/
def cdRead : List Byte :=
  [0, 0, 0, 0]
    ++ sampleState zeroRoot0 (List.replicate 8 0) 0
      (regBytes (List.replicate 10 0 ++ [5, 0x1000, 4] ++ List.replicate 4 0 ++ [63]))
    ++ sampleProof (List.replicate 32 0) ++ sampleProof (List.replicate 32 0)

/-! # Theorems -/

/-! ## The monad -/

@[simp] theorem bind_apply {α β : Type} (m : M α) (f : α → M β) (cd : List Byte) :
    (m >>= f) cd = match m cd with
      | Res.ok a cd1 => f a cd1
      | Res.revert c cd1 => Res.revert c cd1 := rfl

@[simp] theorem pure_apply {α : Type} (a : α) (cd : List Byte) :
    (pure a : M α) cd = Res.ok a cd := rfl

@[simp] theorem revertWithCode_apply {α : Type} (c : Nat) (cd : List Byte) :
    (revertWithCode c : M α) cd = Res.revert c cd := rfl

@[simp] theorem goPanic_apply {α : Type} (cd : List Byte) :
    (goPanic : M α) cd = Res.revert 0 cd := rfl

@[simp] theorem buf_ok {α : Type} (a : α) (cd : List Byte) : (Res.ok a cd).buf = cd := rfl

@[simp] theorem buf_revert {α : Type} (c : Nat) (cd : List Byte) :
    (Res.revert c cd : Res α).buf = cd := rfl

@[simp] theorem ite_run {α : Type} (c : Prop) [Decidable c] (m1 m2 : M α) (cd : List Byte) :
    (if c then m1 else m2) cd = if c then m1 cd else m2 cd := by
  split <;> rfl

theorem readOnly_cases {α : Type} {m : M α} (h : ReadOnly m) (cd : List Byte) :
    (∃ a, m cd = Res.ok a cd) ∨ (∃ c, m cd = Res.revert c cd) := by
  have := h cd
  cases hm : m cd with
  | ok a cd1 => rw [hm] at this; simp at this; subst this; exact Or.inl ⟨a, rfl⟩
  | revert c cd1 => rw [hm] at this; simp at this; subst this; exact Or.inr ⟨c, rfl⟩

theorem readOnly_pure {α : Type} (a : α) : ReadOnly (pure a : M α) := fun _ => rfl

theorem readOnly_revertWithCode {α : Type} (c : Nat) : ReadOnly (revertWithCode c : M α) :=
  fun _ => rfl

theorem readOnly_goPanic {α : Type} : ReadOnly (goPanic : M α) := fun _ => rfl

theorem readOnly_bind {α β : Type} {m : M α} {f : α → M β} (hm : ReadOnly m)
    (hf : ∀ a, ReadOnly (f a)) : ReadOnly (m >>= f) := by
  intro cd
  rcases readOnly_cases hm cd with ⟨a, h⟩ | ⟨c, h⟩
  · simp [h]; exact hf a cd
  · simp [h]

theorem readOnly_ite {α : Type} (c : Prop) [Decidable c] {m1 m2 : M α} (h1 : ReadOnly m1)
    (h2 : ReadOnly m2) : ReadOnly (if c then m1 else m2) := by
  split <;> assumption

theorem readOnly_calldataload (offset : Nat) : ReadOnly (calldataload offset) := by
  intro cd; unfold calldataload; split <;> rfl

theorem readOnly_getMemRoot : ReadOnly getMemRoot := fun _ => rfl

theorem readOnly_merkleLoop (keccak : List Byte → B32) (path : Nat) (n : Nat) :
    ∀ (i : Nat) (offset : Nat) (node : B32), ReadOnly (merkleLoop keccak path n i offset node) := by
  induction n with
  | zero => intro i offset node; exact readOnly_pure node
  | succ n ih =>
    intro i offset node
    unfold merkleLoop
    exact readOnly_bind (readOnly_calldataload offset) (fun _ => ih _ _ _)

theorem readOnly_getMemoryB32 (keccak : List Byte → B32) (addr : Nat) (proofIndex : Nat) :
    ReadOnly (getMemoryB32 keccak addr proofIndex) := by
  unfold getMemoryB32
  with_reducible repeat (first
    | exact readOnly_pure _
    | exact readOnly_revertWithCode _
    | exact readOnly_calldataload _
    | exact readOnly_merkleLoop _ _ _ _ _ _
    | exact readOnly_getMemRoot
    | apply readOnly_bind
    | apply readOnly_ite
    | intro _)

/-! ## Loads -/

theorem loadMemLoop_inside (addr size la : Nat) (n : Nat) :
    ∀ (i : Nat) (left : Nat), loadMemLoop addr size la la n i left 0 0 = 0 := by
  induction n with
  | zero => intro i left; rfl
  | succ n ih =>
    intro i left
    unfold loadMemLoop
    by_cases h : eq64 (and64 (sub64 (sub64 (add64 addr size) 1) i) (not64 31)) la ≠ 0
    · simp [h, and, shr, or64, shl64, u256ToU64, ih]
    · simp [h, or64, shl64, u256ToU64, ih]

theorem signExtend64_zero (bit : Nat) : signExtend64 0 bit = 0 := by
  unfold signExtend64
  split
  · rfl
  · simp

theorem readOnly_loadMem (keccak : List Byte → B32) (addr size : Nat) (signed : Bool)
    (proofIndexL proofIndexR : Nat) :
    ReadOnly (loadMem keccak addr size signed proofIndexL proofIndexR) := by
  unfold loadMem
  with_reducible repeat (first
    | exact readOnly_pure _
    | exact readOnly_goPanic
    | exact readOnly_getMemoryB32 _ _ _
    | apply readOnly_bind
    | apply readOnly_ite
    | intro _)

theorem loadMem_inside_leaf (keccak : List Byte → B32) (addr size : Nat) (signed : Bool)
    (proofIndexL proofIndexR : Nat) (cd : List Byte) (v : Nat) (cd1 : List Byte)
    (h : and64 addr (not64 31) = and64 (add64 addr (sub64 size 1)) (not64 31))
    (hr : loadMem keccak addr size signed proofIndexL proofIndexR cd = Res.ok v cd1) :
    v = 0 ∧ cd1 = cd := by
  have hbuf := readOnly_loadMem keccak addr size signed proofIndexL proofIndexR cd
  rw [hr] at hbuf
  refine ⟨?_, hbuf⟩
  unfold loadMem at hr
  by_cases hs : size > 8
  · simp [hs] at hr
  · rcases readOnly_cases (readOnly_getMemoryB32 keccak (and64 addr (not64 31)) proofIndexL) cd
      with ⟨leaf, hl⟩ | ⟨c, hl⟩
    · simp only [hs, if_false, bind_apply, pure_apply, hl, ← h, eq64, iszero64, if_true, ite_run,
        one_ne_zero, decide_False, Bool.false_eq_true] at hr
      simp only [shr, shl64, Nat.zero_shiftRight, Nat.zero_shiftLeft, Nat.zero_mod,
        loadMemLoop_inside, signExtend64_zero] at hr
      split at hr
      · simp at hr; exact hr.1.symm
      · simp at hr; exact hr.1.symm
    · simp [hs, hl] at hr

theorem fetch_word (keccak : List Byte → B32) (pc : Nat) (cd : List Byte) (v : Nat)
    (cd1 : List Byte) (hr : loadMem keccak pc 4 false 0 0xff cd = Res.ok v cd1) :
    v = 0 ∧ cd1 = cd := by
  by_cases h : and64 pc (not64 31) = and64 (add64 pc (sub64 4 1)) (not64 31)
  · exact loadMem_inside_leaf keccak pc 4 false 0 0xff cd v cd1 h hr
  · exfalso
    unfold loadMem at hr
    rcases readOnly_cases (readOnly_getMemoryB32 keccak (and64 pc (not64 31)) 0) cd
      with ⟨leaf, hl⟩ | ⟨c, hl⟩
    · simp [hl, eq64, iszero64, h] at hr
    · simp [hl] at hr

theorem execute_zero (keccak : List Byte → B32) (po : PreImageOracle) (pc : Nat)
    (cd : List Byte) : execute keccak po pc 0 cd = Res.revert 0xf001c0de cd := by
  simp [execute, parseOpcode, bits]

theorem stepBody_reverts (keccak : List Byte → B32) (po : PreImageOracle) (cd : List Byte) :
    ∃ c, stepBody keccak po cd = Res.revert c cd := by
  unfold stepBody
  simp only [bind_apply, getPC]
  rcases readOnly_cases (readOnly_loadMem keccak (decodeU64 (readState stateOffsetPC 8 cd)) 4
    false 0 0xff) cd with ⟨v, h⟩ | ⟨c, h⟩
  · have hv := (fetch_word keccak _ cd v cd h).1
    subst hv
    rw [h]
    exact ⟨0xf001c0de, execute_zero keccak po _ cd⟩
  · rw [h]; exact ⟨c, rfl⟩

theorem step_not_exited (keccak : List Byte → B32) (po : PreImageOracle) (cd : List Byte)
    (hlen : 4 + stateSize ≤ cd.length) (hex : getExited cd = false) :
    ∃ c, Step keccak po cd = some ⟨zeroB32, some c, cd⟩ := by
  obtain ⟨c, hc⟩ := stepBody_reverts keccak po cd
  refine ⟨c, ?_⟩
  unfold Step
  rw [if_neg (by omega), hex, hc]
  simp

/-! ## Slices of the buffer -/

theorem getElem?_slice (cd : List Byte) (o n k : Nat) :
    (slice cd o n)[k]? = if k < n then cd[o + k]? else none := by
  simp [slice, List.getElem?_take, List.getElem?_drop]

theorem getElem?_writeAt (cd : List Byte) (off : Nat) (bs : List Byte) (j : Nat)
    (h : off + bs.length ≤ cd.length) :
    (writeAt cd off bs)[j]? =
      if j < off then cd[j]? else if j < off + bs.length then bs[j - off]? else cd[j]? := by
  unfold writeAt
  have h1 : (List.take off cd).length = off := by simp; omega
  rw [List.append_assoc, List.getElem?_append, h1]
  split
  · simp [List.getElem?_take, *]
  · rw [List.getElem?_append]
    split
    · rw [if_pos (by omega)]
    · rw [if_neg (by omega), List.getElem?_drop]
      congr 1
      omega

theorem length_writeAt (cd : List Byte) (off : Nat) (bs : List Byte)
    (h : off + bs.length ≤ cd.length) : (writeAt cd off bs).length = cd.length := by
  simp [writeAt]
  omega

theorem slice_writeAt_disjoint (cd : List Byte) (off : Nat) (bs : List Byte) (o n : Nat)
    (h : off + bs.length ≤ cd.length) (hd : o + n ≤ off ∨ off + bs.length ≤ o) :
    slice (writeAt cd off bs) o n = slice cd o n := by
  apply List.ext_getElem?
  intro k
  rw [getElem?_slice, getElem?_slice]
  split
  · rw [getElem?_writeAt cd off bs _ h]
    rcases hd with hd | hd
    · rw [if_pos (by omega)]
    · rw [if_neg (by omega), if_neg (by omega)]
  · rfl

theorem slice_writeAt_same (cd : List Byte) (off : Nat) (bs : List Byte)
    (h : off + bs.length ≤ cd.length) : slice (writeAt cd off bs) off bs.length = bs := by
  apply List.ext_getElem?
  intro k
  rw [getElem?_slice]
  split
  · rw [getElem?_writeAt cd off bs _ h, if_neg (by omega), if_pos (by omega)]
    congr 1
    omega
  · rw [List.getElem?_eq_none (by omega)]

theorem padB32_drop (cd : List Byte) (o : Nat) : padB32 (cd.drop o) = padB32 (slice cd o 32) := by
  apply Subtype.ext
  simp [padB32, slice, List.take_take]

theorem padB32_val (v : B32) : padB32 v.val = v := by
  apply Subtype.ext
  have := v.property
  simp [padB32, List.take_of_length_le, this]

/-! ## Merkle proofs -/

theorem stateSize_eq : stateSize = 362 := by decide

theorem proofOffset_eq (proofIndex : Nat) (h : proofIndex < 256) :
    proofOffset proofIndex = 366 + 2048 * proofIndex := by
  simp only [proofOffset, add64, mul64, stateSize_eq, Nat.reducePow]
  omega

theorem pathBit_eq (path i : Nat) :
    and64 (shr64 i path) 1 = if path.testBit i then 1 else 0 := by
  simp only [and64, shr64, Nat.and_one_is_mod, Nat.shiftRight_eq_div_pow,
    Nat.testBit_to_div_mod]
  by_cases h : path / 2 ^ i % 2 = 1
  · simp [h]
  · simp [h]; omega

theorem add64_eq (x y : Nat) (h : x + y < 2 ^ 64) : add64 x y = x + y :=
  Nat.mod_eq_of_lt h

theorem merkleLoop_eq (keccak : List Byte → B32) (path : Nat) (cd : List Byte) (n : Nat) :
    ∀ (i : Nat) (offset : Nat) (node : B32), offset + 32 * n ≤ cd.length →
      offset + 32 * n < 2 ^ 64 →
      merkleLoop keccak path n i offset node cd
        = Res.ok (foldRoot keccak path i node (slotsOf (cd.drop offset) n)) cd := by
  induction n with
  | zero => intro i offset node _ _; rfl
  | succ n ih =>
    intro i offset node h1 h2
    unfold merkleLoop
    have hle : offset ≤ cd.length := by omega
    have hadd : add64 offset 32 = offset + 32 := add64_eq _ _ (by omega)
    simp only [bind_apply, calldataload, if_pos hle, hadd, pathBit_eq]
    rw [ih (i + 1) (offset + 32) _ (by omega) (by omega)]
    simp only [slotsOf, foldRoot, List.drop_drop, Nat.add_comm 32 offset]
    by_cases hb : path.testBit i
    · simp [hb]
    · simp [hb]

theorem beDecode_inj : ∀ (l1 l2 : List Byte) (a1 a2 : Nat), l1.length = l2.length →
    l1.foldl (fun acc x => acc * 256 + x.val) a1 = l2.foldl (fun acc x => acc * 256 + x.val) a2 →
    a1 = a2 ∧ l1 = l2 := by
  intro l1
  induction l1 with
  | nil =>
    intro l2 a1 a2 hlen h
    cases l2 with
    | nil => exact ⟨h, rfl⟩
    | cons y ys => simp at hlen
  | cons x xs ih =>
    intro l2 a1 a2 hlen h
    cases l2 with
    | nil => simp at hlen
    | cons y ys =>
      simp only [List.length_cons, Nat.add_right_cancel_iff] at hlen
      simp only [List.foldl_cons] at h
      obtain ⟨h3, h4⟩ := ih ys _ _ hlen h
      have hx := x.isLt
      have hy := y.isLt
      have h5 : a1 = a2 := by omega
      have h6 : x = y := by apply Fin.ext; omega
      exact ⟨h5, by rw [h6, h4]⟩

theorem b32asBEWord_inj (a b : B32) (h : b32asBEWord a = b32asBEWord b) : a = b := by
  apply Subtype.ext
  exact (beDecode_inj a.val b.val 0 0 (by rw [a.property, b.property]) h).2

theorem rootCheck_eq (node memRoot : B32) :
    iszero (eq (b32asBEWord node) (b32asBEWord memRoot)) = decide (node ≠ memRoot) := by
  by_cases h : node = memRoot
  · subst h; simp [iszero, eq]
  · have : b32asBEWord node ≠ b32asBEWord memRoot := fun hc => h (b32asBEWord_inj _ _ hc)
    simp [iszero, eq, this, h]

theorem getMemoryB32_eq (keccak : List Byte → B32) (addr : Nat) (proofIndex : Nat)
    (cd : List Byte) (hpi : proofIndex < 256)
    (hlen : proofOffset proofIndex + 64 * 32 ≤ cd.length) :
    getMemoryB32 keccak addr proofIndex cd =
      if and64 addr 31 ≠ 0 then Res.revert 0xbad10ad0 cd
      else if foldRoot keccak (addr >>> 5) 0 (proofSlot cd proofIndex 0)
          (proofSiblings cd proofIndex) = memRootOf cd
        then Res.ok (proofSlot cd proofIndex 0) cd
      else Res.revert 0x0badf00d cd := by
  have hpo := proofOffset_eq proofIndex hpi
  have hadd : add64 (proofOffset proofIndex) 32 = proofOffset proofIndex + 32 :=
    add64_eq _ _ (by omega)
  have hle : proofOffset proofIndex ≤ cd.length := by omega
  unfold getMemoryB32
  by_cases ha : and64 addr 31 ≠ 0
  · simp [ha]
  · simp only [ha, if_false, bind_apply, pure_apply, calldataload, if_pos hle, hadd, shr64]
    rw [merkleLoop_eq keccak (addr >>> 5) cd (64 - 5) 0 (proofOffset proofIndex + 32) _
      (by omega) (by omega)]
    simp only [getMemRoot, rootCheck_eq, proofSlot, proofSiblings, memRootOf, Nat.mul_zero,
      Nat.add_zero]
    by_cases hroot : foldRoot keccak (addr >>> 5) 0 (padB32 (List.drop (proofOffset proofIndex) cd))
        (slotsOf (List.drop (proofOffset proofIndex + 32) cd) (64 - 5))
        = padB32 (readState stateOffsetMemRoot 32 cd)
    · simp [hroot]
    · simp [hroot]

theorem slotsOf_congr (cd cd1 : List Byte) (n : Nat) :
    ∀ (off : Nat), (∀ o, off ≤ o → o + 32 ≤ off + 32 * n → slice cd1 o 32 = slice cd o 32) →
      slotsOf (cd1.drop off) n = slotsOf (cd.drop off) n := by
  induction n with
  | zero => intro off _; rfl
  | succ n ih =>
    intro off h
    simp only [slotsOf, List.drop_drop]
    rw [padB32_drop cd1, padB32_drop cd, h off (by omega) (by omega),
      ih (off + 32) (fun o h1 h2 => h o (by omega) (by omega))]

theorem setMemoryB32_eq (keccak : List Byte → B32) (addr : Nat) (v : B32) (proofIndex : Nat)
    (cd : List Byte) (hpi : proofIndex < 256)
    (hlen : proofOffset proofIndex + 64 * 32 ≤ cd.length) (ha : and64 addr 31 = 0) :
    setMemoryB32 keccak addr v proofIndex cd =
      Res.ok () (writeAt cd 4
        (foldRoot keccak (addr >>> 5) 0 v (proofSiblings cd proofIndex)).val) := by
  have hpo := proofOffset_eq proofIndex hpi
  have hadd : add64 (proofOffset proofIndex) 32 = proofOffset proofIndex + 32 :=
    add64_eq _ _ (by omega)
  unfold setMemoryB32
  simp only [ha, ne_eq, not_true_eq_false, if_false, bind_apply, pure_apply, hadd, shr64]
  rw [merkleLoop_eq keccak (addr >>> 5) cd (64 - 5) 0 (proofOffset proofIndex + 32) _
    (by omega) (by omega)]
  rfl

theorem get_after_set (keccak : List Byte → B32) (addr proofIndex : Nat) (v : B32)
    (cd cd1 : List Byte) (hpi : proofIndex < 256)
    (hlen : proofOffset proofIndex + 64 * 32 ≤ cd.length) (ha : addr &&& 31 = 0)
    (hcd1 : writeAt cd 4
      (foldRoot keccak (addr >>> 5) 0 v (proofSiblings cd proofIndex)).val = cd1) :
    memRootOf cd1 = foldRoot keccak (addr >>> 5) 0 v (proofSiblings cd proofIndex) ∧
      proofSlot (withLeaf cd1 proofIndex v) proofIndex 0 = v ∧
      proofSiblings (withLeaf cd1 proofIndex v) proofIndex = proofSiblings cd proofIndex ∧
      getMemoryB32 keccak addr proofIndex (withLeaf cd1 proofIndex v)
        = Res.ok v (withLeaf cd1 proofIndex v) := by
  have hpo := proofOffset_eq proofIndex hpi
  have hroot := (foldRoot keccak (addr >>> 5) 0 v (proofSiblings cd proofIndex)).property
  have hv := v.property
  have hlen1 : cd1.length = cd.length := by
    rw [← hcd1]; exact length_writeAt _ _ _ (by omega)
  have hroot1 : memRootOf cd1 = foldRoot keccak (addr >>> 5) 0 v (proofSiblings cd proofIndex) := by
    have := slice_writeAt_same cd 4
      (foldRoot keccak (addr >>> 5) 0 v (proofSiblings cd proofIndex)).val (by omega)
    rw [hcd1, hroot] at this
    show padB32 (slice cd1 (4 + 0) 32) = _
    rw [this, padB32_val]
  have hlen2 : (withLeaf cd1 proofIndex v).length = cd.length := by
    unfold withLeaf; rw [length_writeAt _ _ _ (by omega), hlen1]
  have hleaf : proofSlot (withLeaf cd1 proofIndex v) proofIndex 0 = v := by
    have := slice_writeAt_same cd1 (proofOffset proofIndex) v.val (by omega)
    rw [hv] at this
    unfold proofSlot withLeaf
    rw [Nat.mul_zero, Nat.add_zero, padB32_drop, this, padB32_val]
  have hsib : proofSiblings (withLeaf cd1 proofIndex v) proofIndex
      = proofSiblings cd proofIndex := by
    unfold proofSiblings
    apply slotsOf_congr
    intro o h1 h2
    unfold withLeaf
    rw [slice_writeAt_disjoint cd1 _ _ o 32 (by omega) (Or.inr (by omega)), ← hcd1,
      slice_writeAt_disjoint cd 4 _ o 32 (by omega) (Or.inr (by omega))]
  have hroot2 : memRootOf (withLeaf cd1 proofIndex v) = memRootOf cd1 := by
    show padB32 (slice _ (4 + 0) 32) = padB32 (slice _ (4 + 0) 32)
    unfold withLeaf
    rw [slice_writeAt_disjoint cd1 _ _ (4 + 0) 32 (by omega) (Or.inl (by omega))]
  refine ⟨hroot1, hleaf, hsib, ?_⟩
  rw [getMemoryB32_eq keccak addr proofIndex _ hpi (by omega)]
  have ha2 : ¬ (and64 addr 31 ≠ 0) := by simp [and64, ha]
  rw [if_neg ha2, hleaf, hsib, hroot2, hroot1, if_pos rfl]


/-! ## Address arithmetic -/

theorem and64_not31 (x : Nat) (h : x < 2 ^ 64) : and64 x (not64 31) = x - x % 32 := by
  have h1 : x - x % 32 = (x >>> 5) <<< 5 := by
    rw [Nat.shiftRight_eq_div_pow, Nat.shiftLeft_eq]; omega
  have hm : (2 ^ 64 - 1 - 31 % 2 ^ 64 : Nat) = 2 ^ 64 - ((2 ^ 5 - 1) + 1) := by norm_num
  unfold and64 not64
  rw [h1, hm]
  apply Nat.eq_of_testBit_eq
  intro i
  rw [Nat.testBit_and, Nat.testBit_shiftLeft, Nat.testBit_shiftRight,
    Nat.testBit_two_pow_sub_succ (by norm_num), Nat.testBit_two_pow_sub_one]
  by_cases hi : i < 64
  · by_cases h5 : 5 ≤ i
    · have e : 5 + (i - 5) = i := by omega
      have h6 : ¬ i < 5 := by omega
      simp [hi, h5, h6, e]
    · have h6 : i < 5 := by omega
      simp [hi, h5, h6]
  · have hx : x.testBit i = false :=
      Nat.testBit_lt_two_pow (lt_of_lt_of_le h (Nat.pow_le_pow_right (by decide) (by omega)))
    have e : 5 + (i - 5) = i := by omega
    simp [hx, e, hi]

theorem inside_leaf (addr size : Nat) (ha : addr < 2 ^ 64) (hs : 0 < size)
    (h : addr % 32 + size ≤ 32) :
    and64 addr (not64 31) = and64 (add64 addr (sub64 size 1)) (not64 31) := by
  have h1 : sub64 size 1 = size - 1 := by
    simp only [sub64, Nat.reducePow]; omega
  have h2 : add64 addr (size - 1) = addr + (size - 1) := by
    simp only [add64, Nat.reducePow] at *; omega
  have h3 : addr + (size - 1) < 2 ^ 64 := by
    simp only [Nat.reducePow] at *; omega
  rw [h1, h2, and64_not31 addr ha, and64_not31 _ h3]
  omega

theorem decodeU64_lt (v : List Byte) (h : v.length ≤ 8) : decodeU64 v < 2 ^ 64 := by
  unfold decodeU64
  calc _ < 2 ^ (8 * v.length) := Nat.mod_lt _ (by positivity)
    _ ≤ 2 ^ 64 := Nat.pow_le_pow_right (by decide) (by omega)

theorem length_slice_le (cd : List Byte) (o n : Nat) : (slice cd o n).length ≤ n := by
  simp [slice]

theorem bind_pure_unit (m : M Unit) (cd : List Byte) : (m >>= fun _ => pure ()) cd = m cd := by
  simp only [bind_apply]
  cases m cd <;> rfl

theorem b32asBEWord_lt (b : B32) : b32asBEWord b < 2 ^ 256 := by
  have key : ∀ (l : List Byte) (a : Nat),
      l.foldl (fun acc x => acc * 256 + x.val) a < (a + 1) * 256 ^ l.length := by
    intro l
    induction l with
    | nil => intro a; simp
    | cons x xs ih =>
      intro a
      have hx := x.isLt
      simp only [List.foldl_cons, List.length_cons]
      calc _ < (a * 256 + x.val + 1) * 256 ^ xs.length := ih _
        _ ≤ ((a + 1) * 256) * 256 ^ xs.length := Nat.mul_le_mul_right _ (by omega)
        _ = (a + 1) * 256 ^ (xs.length + 1) := by ring
  have := key b.val 0
  rw [b.property] at this
  simpa [b32asBEWord] using this

theorem storedLeaf_bytes (leaf : B32) :
    (storedLeaf leaf).val.take 8 = List.replicate 8 0xBE := by
  have hm : not (0xFFFFFFFFFFFFFFFF <<< 192) = 2 ^ 192 - 1 := by decide!
  have hp : (0xBEBEBEBEBEBEBEBE <<< 192 : Nat) = 2 ^ 192 * 0xBEBEBEBEBEBEBEBE := by decide!
  have hw : or (and (b32asBEWord leaf) (not (0xFFFFFFFFFFFFFFFF <<< 192)))
      (0xBEBEBEBEBEBEBEBE <<< 192)
      = 2 ^ 192 * 0xBEBEBEBEBEBEBEBE + b32asBEWord leaf % 2 ^ 192 := by
    unfold or and
    rw [hm, hp, Nat.and_pow_two_sub_one_eq_mod, Nat.or_comm]
    exact (Nat.mul_add_lt_is_or (Nat.mod_lt _ (by positivity)) _).symm
  have hr : b32asBEWord leaf % 2 ^ 192 < 2 ^ 192 := Nat.mod_lt _ (by positivity)
  generalize b32asBEWord leaf % 2 ^ 192 = r at hw hr
  unfold storedLeaf beWordAsB32
  rw [hw]
  simp only [Nat.reducePow] at hr
  simp only [List.range, List.range.loop, List.map, List.take, List.replicate, toByte,
    Nat.reducePow, Nat.reduceSub, Nat.reduceMul]
  simp only [List.cons.injEq, and_true, Fin.mk.injEq]
  refine ⟨?_, ?_, ?_, ?_, ?_, ?_, ?_, ?_⟩ <;> (apply Fin.ext; simp only [Fin.val_ofNat']; omega)

theorem execute_addi (keccak : List Byte → B32) (po : PreImageOracle) (pc instr : Nat)
    (hop : parseOpcode instr = 0x13) (hf3 : parseFunct3 instr = 0) :
    execute keccak po pc instr = (do
      let rs1Value ← loadRegister (parseRs1 instr)
      writeRegister (parseRd instr) (add64 rs1Value (parseImmTypeI instr))
      setPC (add64 pc 4)) := by
  simp [execute, hop, hf3, opImm]


/-! ## Consequences used at concrete buffers -/

theorem getMemoryB32_ok (keccak : List Byte → B32) (addr proofIndex : Nat) (cd : List Byte)
    (leaf : B32) (sibs : List B32) (hpi : proofIndex < 256)
    (hlen : proofOffset proofIndex + 64 * 32 ≤ cd.length) (ha : and64 addr 31 = 0)
    (hleaf : proofSlot cd proofIndex 0 = leaf) (hsibs : proofSiblings cd proofIndex = sibs)
    (hroot : foldRoot keccak (addr >>> 5) 0 leaf sibs = memRootOf cd) :
    getMemoryB32 keccak addr proofIndex cd = Res.ok leaf cd := by
  rw [getMemoryB32_eq keccak addr proofIndex cd hpi hlen, if_neg (by simp [ha]), hleaf, hsibs,
    if_pos hroot]

theorem loadMem_inside_ok (keccak : List Byte → B32) (addr size : Nat) (signed : Bool)
    (proofIndexL proofIndexR : Nat) (cd : List Byte) (leaf : B32) (hs : size ≤ 8)
    (hin : and64 addr (not64 31) = and64 (add64 addr (sub64 size 1)) (not64 31))
    (hget : getMemoryB32 keccak (and64 addr (not64 31)) proofIndexL cd = Res.ok leaf cd) :
    loadMem keccak addr size signed proofIndexL proofIndexR cd = Res.ok 0 cd := by
  have hs2 : ¬ size > 8 := by omega
  unfold loadMem
  simp only [hs2, bind_apply, pure_apply, ite_run, hget, ← hin, eq64, iszero64, if_true,
    one_ne_zero, decide_False, Bool.false_eq_true, if_false, shr, shl64, Nat.zero_shiftRight,
    Nat.zero_shiftLeft, Nat.zero_mod, loadMemLoop_inside, signExtend64_zero]
  split <;> rfl

theorem step_of_fetch (keccak : List Byte → B32) (po : PreImageOracle)
    (cd : List Byte) (leaf : B32) (hlen : 4 + stateSize ≤ cd.length)
    (hex : readState stateOffsetExited 1 cd = [0])
    (hpc : decodeU64 (readState stateOffsetPC 8 cd) % 32 ≤ 28)
    (hproof : getMemoryB32 keccak (and64 (decodeU64 (readState stateOffsetPC 8 cd)) (not64 31)) 0 cd
      = Res.ok leaf cd) :
    Step keccak po cd = some ⟨zeroB32, some 0xf001c0de, cd⟩ := by
  have hex2 : getExited cd = false := by simp [getExited, hex]
  have hin := inside_leaf (decodeU64 (readState stateOffsetPC 8 cd)) 4
    (decodeU64_lt _ (length_slice_le _ _ _)) (by decide) (by omega)
  have hfetch : loadMem keccak (decodeU64 (readState stateOffsetPC 8 cd)) 4 false 0 0xff cd
      = Res.ok 0 cd := by
    unfold loadMem
    simp only [bind_apply, pure_apply, ite_run, hproof, ← hin, eq64, iszero64, if_true,
      one_ne_zero, decide_False, Bool.false_eq_true, if_false, shr, shl64, Nat.zero_shiftRight,
      Nat.zero_shiftLeft, Nat.zero_mod, loadMemLoop_inside]
    simp
  unfold Step
  rw [if_neg (by omega), hex2]
  simp only [stepBody, bind_apply, getPC, hfetch, execute_zero, Bool.false_eq_true, if_false]


theorem storeMem_sd (keccak : List Byte → B32) (cd : List Byte) (leaf : B32)
    (hget : getMemoryB32 keccak 0x1000 1 cd = Res.ok leaf cd) :
    storeMem keccak 0x1000 8 0xDEADBEEFCAFEBABE 1 2 cd
        = setMemoryB32 keccak 0x1000 (storedLeaf leaf) 1 cd ∧
      (storedLeaf leaf).val.take 8 = List.replicate 8 0xBE := by
  refine ⟨?_, storedLeaf_bytes leaf⟩
  have h1 : and64 0x1000 (not64 31) = 0x1000 := by decide!
  have h2 : and64 (add64 0x1000 (sub64 8 1)) (not64 31) = 0x1000 := by decide!
  have h3 : sub64 0x1000 0x1000 = 0 := by decide!
  have hp : storePatchLoop 0 0xDEADBEEFCAFEBABE 0 (add64 0 8) 64 0 ⟨0, 0, 0, 0⟩
      = ⟨0xBEBEBEBEBEBEBEBE <<< 192, 0, 0xFFFFFFFFFFFFFFFF <<< 192, 0⟩ := by decide!
  unfold storeMem storeMemUnaligned
  simp only [h1, h2, h3, hp, bind_apply, pure_apply, ite_run, hget, eq64, if_true]
  simp only [gt_iff_lt, Nat.reduceLT, if_false, ne_eq, one_ne_zero, not_false_eq_true, if_true,
    storedLeaf]
  cases setMemoryB32 keccak 0x1000 _ 1 cd <;> rfl


/-! ## Registers and scalar fields -/

theorem le_digits (n : Nat) : ∀ v : Nat,
    ((List.range n).map (fun i => toByte (v / 256 ^ i))).foldr (fun b acc => b.val + 256 * acc) 0
      = v % 256 ^ n := by
  induction n with
  | zero => intro v; simp [Nat.mod_one]
  | succ n ih =>
    intro v
    rw [List.range_succ_eq_map, List.map_cons, List.map_map, List.foldr_cons]
    have : ((fun i => toByte (v / 256 ^ i)) ∘ Nat.succ) = fun i => toByte (v / 256 / 256 ^ i) := by
      funext i
      simp only [Function.comp, Nat.succ_eq_add_one, Nat.pow_succ, Nat.div_div_eq_div_mul]
      rw [Nat.mul_comm]
    rw [this, ih (v / 256)]
    simp only [toByte, pow_zero, Nat.div_one]
    rw [Nat.pow_succ, Nat.mul_comm (256 ^ n) 256, Nat.mod_mul]

theorem length_encodeU64 (v : Nat) : (encodeU64 v).length = 8 := by
  simp [encodeU64]

theorem decode_encode (v : Nat) : decodeU64 (encodeU64 v) = v % 2 ^ 64 := by
  unfold decodeU64 encodeU64
  rw [le_digits 8 v]
  simp only [List.length_map, List.length_range, Nat.reduceMul, Nat.reducePow, Nat.mod_mod]

theorem bits_lt (hi lo instr : Nat) : bits hi lo instr < 2 ^ (hi + 1 - lo) :=
  Nat.mod_lt _ (by positivity)

theorem parseRs1_le (instr : Nat) : parseRs1 instr ≤ 31 := by
  have := bits_lt 19 15 instr
  simp only [Nat.reduceAdd, Nat.reduceSub, Nat.reducePow] at this
  unfold parseRs1; omega

theorem parseRs2_le (instr : Nat) : parseRs2 instr ≤ 31 := by
  have := bits_lt 24 20 instr
  simp only [Nat.reduceAdd, Nat.reduceSub, Nat.reducePow] at this
  unfold parseRs2; omega

theorem parseRd_le (instr : Nat) : parseRd instr ≤ 31 := by
  have := bits_lt 11 7 instr
  simp only [Nat.reduceAdd, Nat.reduceSub, Nat.reducePow] at this
  unfold parseRd; omega

theorem regOffset_eq (r : Nat) (h : r ≤ 31) :
    add64 stateOffsetRegisters (mul64 r 8) = stateOffsetRegisters + 8 * r := by
  have e1 : stateOffsetRegisters = 106 := by decide
  simp only [add64, mul64, e1, Nat.reducePow]
  omega

theorem loadRegister_eq (r : Nat) (h : r ≤ 31) (cd : List Byte) :
    loadRegister r cd = Res.ok (regOf cd r) cd := by
  have hg : gt64 r 31 = 0 := by simp only [gt64]; rw [if_neg (by omega)]
  simp only [loadRegister, bind_apply, ite_run, hg, ne_eq, not_true_eq_false, if_false,
    pure_apply, regOffset_eq r h, regOf]

theorem writeRegister_eq (r v : Nat) (h0 : r ≠ 0) (h : r ≤ 31) (cd : List Byte) :
    writeRegister r v cd = Res.ok () (withReg cd r v) := by
  have hg : gt64 r 31 = 0 := by simp only [gt64]; rw [if_neg (by omega)]
  simp only [writeRegister, iszero64, h0, decide_False, Bool.false_eq_true, if_false,
    bind_apply, ite_run, hg, ne_eq, not_true_eq_false, pure_apply, regOffset_eq r h,
    writeState, withReg]

theorem regOf_lt (cd : List Byte) (r : Nat) : regOf cd r < 2 ^ 64 :=
  decodeU64_lt _ (length_slice_le _ _ _)

theorem readState_writeAt_same (cd : List Byte) (off : Nat) (bs : List Byte)
    (h : 4 + off + bs.length ≤ cd.length) :
    readState off bs.length (writeAt cd (4 + off) bs) = bs :=
  slice_writeAt_same cd (4 + off) bs h

theorem readState_writeAt_other (cd : List Byte) (off n off2 : Nat) (bs : List Byte)
    (h : 4 + off2 + bs.length ≤ cd.length) (hd : off + n ≤ off2 ∨ off2 + bs.length ≤ off) :
    readState off n (writeAt cd (4 + off2) bs) = readState off n cd := by
  unfold readState
  apply slice_writeAt_disjoint cd (4 + off2) bs (4 + off) n h
  rcases hd with hd | hd
  · exact Or.inl (by omega)
  · exact Or.inr (by omega)

theorem decode_writeAt_same (cd : List Byte) (off v : Nat) (h : 4 + off + 8 ≤ cd.length) :
    decodeU64 (readState off 8 (writeAt cd (4 + off) (encodeU64 v))) = v % 2 ^ 64 := by
  have := readState_writeAt_same cd off (encodeU64 v) (by rw [length_encodeU64]; exact h)
  rw [length_encodeU64] at this
  rw [this, decode_encode]

theorem length_withReg (cd : List Byte) (r v : Nat) (hr : r ≤ 31)
    (h : 4 + stateSize ≤ cd.length) : (withReg cd r v).length = cd.length := by
  have e1 : stateOffsetRegisters = 106 := by decide
  rw [stateSize_eq] at h
  unfold withReg
  rw [length_writeAt _ _ _ (by rw [length_encodeU64, e1]; omega)]

theorem length_withPC (cd : List Byte) (v : Nat) (h : 4 + stateSize ≤ cd.length) :
    (withPC cd v).length = cd.length := by
  have e1 : stateOffsetPC = 72 := by decide
  rw [stateSize_eq] at h
  unfold withPC
  rw [length_writeAt _ _ _ (by rw [length_encodeU64, e1]; omega)]

theorem regOf_withReg_same (cd : List Byte) (r v : Nat) (hr : r ≤ 31)
    (h : 4 + stateSize ≤ cd.length) : regOf (withReg cd r v) r = v % 2 ^ 64 := by
  have e1 : stateOffsetRegisters = 106 := by decide
  rw [stateSize_eq] at h
  unfold regOf withReg
  exact decode_writeAt_same cd _ v (by rw [e1]; omega)

theorem regOf_withReg_other (cd : List Byte) (r r2 v : Nat) (hr : r2 ≤ 31) (hne : r ≠ r2)
    (h : 4 + stateSize ≤ cd.length) : regOf (withReg cd r2 v) r = regOf cd r := by
  have e1 : stateOffsetRegisters = 106 := by decide
  rw [stateSize_eq] at h
  unfold regOf withReg
  rw [readState_writeAt_other cd _ 8 _ _ (by rw [length_encodeU64, e1]; omega)
    (by rw [length_encodeU64]; omega)]

theorem regOf_withPC (cd : List Byte) (r v : Nat) (h : 4 + stateSize ≤ cd.length) :
    regOf (withPC cd v) r = regOf cd r := by
  have e1 : stateOffsetRegisters = 106 := by decide
  have e2 : stateOffsetPC = 72 := by decide
  rw [stateSize_eq] at h
  unfold regOf withPC
  rw [readState_writeAt_other cd _ 8 _ _ (by rw [length_encodeU64, e2]; omega)
    (by rw [length_encodeU64, e1, e2]; omega)]

theorem pcOf_withPC (cd : List Byte) (v : Nat) (h : 4 + stateSize ≤ cd.length) :
    pcOf (withPC cd v) = v % 2 ^ 64 := by
  have e2 : stateOffsetPC = 72 := by decide
  rw [stateSize_eq] at h
  unfold pcOf withPC
  exact decode_writeAt_same cd _ v (by rw [e2]; omega)

theorem setPC_eq (v : Nat) (cd : List Byte) : setPC v cd = Res.ok () (withPC cd v) := rfl

/-! ## The register-register opcodes of the switch -/

theorem execute_op (keccak : List Byte → B32) (po : PreImageOracle) (pc instr : Nat)
    (cd : List Byte) (hop : parseOpcode instr = 0x33) :
    execute keccak po pc instr cd =
      (writeRegister (parseRd instr)
        (opReg (parseFunct3 instr) (parseFunct7 instr) (regOf cd (parseRs1 instr))
          (regOf cd (parseRs2 instr))) >>= fun _ => setPC (add64 pc 4)) cd := by
  simp [execute, hop, loadRegister_eq _ (parseRs1_le instr), loadRegister_eq _ (parseRs2_le instr)]

theorem execute_op32 (keccak : List Byte → B32) (po : PreImageOracle) (pc instr : Nat)
    (cd : List Byte) (hop : parseOpcode instr = 0x3B) :
    execute keccak po pc instr cd =
      (writeRegister (parseRd instr)
        (opReg32 (parseFunct3 instr) (parseFunct7 instr) (regOf cd (parseRs1 instr))
          (regOf cd (parseRs2 instr))) >>= fun _ => setPC (add64 pc 4)) cd := by
  simp [execute, hop, loadRegister_eq _ (parseRs1_le instr), loadRegister_eq _ (parseRs2_le instr)]

/-! ## Multiplication and division -/

theorem testBit63 (v : Nat) (h : v < 2 ^ 64) : v.testBit 63 = decide (2 ^ 63 ≤ v) := by
  rw [Nat.testBit_to_div_mod]
  simp only [Nat.reducePow] at *
  congr 1
  apply propext
  constructor <;> intro h1 <;> omega

theorem signExtend64To256_cast (v : Nat) (h : v < 2 ^ 64) :
    ∃ e : Int, ((signExtend64To256 v : Nat) : Int) = toInt64 v + 2 ^ 256 * e := by
  unfold signExtend64To256 toInt64
  rw [testBit63 v h, Nat.mod_eq_of_lt h]
  simp only [Nat.reducePow] at *
  by_cases hv : 9223372036854775808 ≤ v
  · have h2 : ¬ v < 9223372036854775808 := by omega
    refine ⟨1, ?_⟩
    simp only [hv, h2, decide_True, if_true, if_false]
    push_cast
    omega
  · have h2 : v < 9223372036854775808 := by omega
    refine ⟨0, ?_⟩
    simp only [hv, h2, decide_False, if_true, if_false]
    simp

set_option maxRecDepth 10000 in
theorem high_bits (p k : Int) :
    (p + 115792089237316195423570985008687907853269984665640564039457584007913129639936 * k) % 115792089237316195423570985008687907853269984665640564039457584007913129639936 / 18446744073709551616 % 18446744073709551616
      = p / 18446744073709551616 % 18446744073709551616 := by
  omega

theorem mulh_value (a b : Nat) (ha : a < 2 ^ 64) (hb : b < 2 ^ 64) :
    u256ToU64 (shr 64 (mul (signExtend64To256 a) (signExtend64To256 b)))
      = (toInt64 a * toInt64 b / 2 ^ 64 % 2 ^ 64).toNat := by
  obtain ⟨e1, hA⟩ := signExtend64To256_cast a ha
  obtain ⟨e2, hB⟩ := signExtend64To256_cast b hb
  generalize signExtend64To256 a = A at hA
  generalize signExtend64To256 b = B at hB
  generalize toInt64 a = sa at hA
  generalize toInt64 b = sb at hB
  have key : (A : Int) * (B : Int) = sa * sb + 115792089237316195423570985008687907853269984665640564039457584007913129639936 * (sa * e2 + e1 * sb + 115792089237316195423570985008687907853269984665640564039457584007913129639936 * (e1 * e2)) := by
    rw [hA, hB]
    ring
  unfold u256ToU64 shr mul
  rw [Nat.shiftRight_eq_div_pow]
  apply Int.ofNat.inj
  rw [Int.ofNat_eq_coe, Int.ofNat_eq_coe, Int.toNat_of_nonneg (Int.emod_nonneg _ (by norm_num))]
  push_cast
  rw [key]
  exact high_bits _ _

theorem mulhsu_value (a b : Nat) (ha : a < 2 ^ 64) :
    u256ToU64 (shr 64 (mul (signExtend64To256 a) b))
      = (toInt64 a * (b : Int) / 2 ^ 64 % 2 ^ 64).toNat := by
  obtain ⟨e1, hA⟩ := signExtend64To256_cast a ha
  generalize signExtend64To256 a = A at hA
  generalize toInt64 a = sa at hA
  have key : (A : Int) * (b : Int) = sa * b + 115792089237316195423570985008687907853269984665640564039457584007913129639936 * (e1 * b) := by
    rw [hA]
    ring
  unfold u256ToU64 shr mul
  rw [Nat.shiftRight_eq_div_pow]
  apply Int.ofNat.inj
  rw [Int.ofNat_eq_coe, Int.ofNat_eq_coe, Int.toNat_of_nonneg (Int.emod_nonneg _ (by norm_num))]
  push_cast
  rw [key]
  exact high_bits _ _

theorem mulhu_value (a b : Nat) (ha : a < 2 ^ 64) (hb : b < 2 ^ 64) :
    u256ToU64 (shr 64 (mul a b)) = a * b / 2 ^ 64 % 2 ^ 64 := by
  unfold u256ToU64 shr mul
  rw [Nat.shiftRight_eq_div_pow]
  have : a * b < 2 ^ 256 := by
    calc a * b < 2 ^ 64 * 2 ^ 64 := Nat.mul_lt_mul'' ha hb
      _ ≤ 2 ^ 256 := by norm_num
  rw [Nat.mod_eq_of_lt this]

theorem and64_u32Mask (x : Nat) : and64 x u32Mask = x % 2 ^ 32 :=
  Nat.and_pow_two_sub_one_eq_mod x 32

theorem mask32Signed64_of_low (x c : Nat) (h : x % 2 ^ 32 = c) :
    mask32Signed64 x = signExtend64 c 31 := by
  unfold mask32Signed64
  rw [and64_u32Mask, h]

/-! ## The atomic opcode of the switch -/

theorem amoSize_ok (f3 : Nat) (h : f3 = 2 ∨ f3 = 3) : lt64 (shl64 f3 1) 4 = 0 := by
  rcases h with h | h <;> subst h <;> decide!

theorem getLoadReservation_eq (cd : List Byte) :
    getLoadReservation cd = Res.ok (loadReservationOf cd) cd := rfl

theorem execute_lr (keccak : List Byte → B32) (po : PreImageOracle) (pc instr : Nat)
    (cd : List Byte) (hop : parseOpcode instr = 0x2F)
    (hf3 : parseFunct3 instr = 2 ∨ parseFunct3 instr = 3)
    (hop2 : shr64 2 (parseFunct7 instr) = 2) :
    execute keccak po pc instr cd =
      (do
        let v ← loadMem keccak (regOf cd (parseRs1 instr)) (shl64 (parseFunct3 instr) 1) true 1 2
        writeRegister (parseRd instr) v
        setLoadReservation (regOf cd (parseRs1 instr))
        setPC (add64 pc 4)) cd := by
  simp [execute, hop, amoSize_ok _ hf3, hop2, loadRegister_eq _ (parseRs1_le instr)]

theorem execute_sc (keccak : List Byte → B32) (po : PreImageOracle) (pc instr : Nat)
    (cd : List Byte) (hop : parseOpcode instr = 0x2F)
    (hf3 : parseFunct3 instr = 2 ∨ parseFunct3 instr = 3)
    (hop2 : shr64 2 (parseFunct7 instr) = 3) :
    execute keccak po pc instr cd =
      (do
        let rdValue ←
          (if eq64 (regOf cd (parseRs1 instr)) (loadReservationOf cd) ≠ 0 then do
            storeMem keccak (regOf cd (parseRs1 instr)) (shl64 (parseFunct3 instr) 1)
              (regOf cd (parseRs2 instr)) 1 2
            pure 0
          else pure 1 : M Nat)
        writeRegister (parseRd instr) rdValue
        setLoadReservation 0
        setPC (add64 pc 4)) cd := by
  simp [execute, hop, amoSize_ok _ hf3, hop2, loadRegister_eq _ (parseRs1_le instr),
    loadRegister_eq _ (parseRs2_le instr), getLoadReservation_eq]

theorem execute_amo (keccak : List Byte → B32) (po : PreImageOracle) (pc instr : Nat)
    (cd : List Byte) (hop : parseOpcode instr = 0x2F)
    (hf3 : parseFunct3 instr = 2 ∨ parseFunct3 instr = 3)
    (hne2 : shr64 2 (parseFunct7 instr) ≠ 2) (hne3 : shr64 2 (parseFunct7 instr) ≠ 3) :
    execute keccak po pc instr cd =
      (do
        let v ← loadMem keccak (regOf cd (parseRs1 instr)) (shl64 (parseFunct3 instr) 1) true 1 2
        let v ← amoOp (shr64 2 (parseFunct7 instr)) v
          (if eq64 (shl64 (parseFunct3 instr) 1) 4 ≠ 0
            then mask32Signed64 (regOf cd (parseRs2 instr)) else regOf cd (parseRs2 instr))
        storeMem keccak (regOf cd (parseRs1 instr)) (shl64 (parseFunct3 instr) 1) v 1 3
        writeRegister (parseRd instr) v
        setPC (add64 pc 4)) cd := by
  simp [execute, hop, amoSize_ok _ hf3, hne2, hne3, loadRegister_eq _ (parseRs1_le instr),
    loadRegister_eq _ (parseRs2_le instr)]

/-! ## Register `x0` -/

theorem keepsX0_of_readOnly {α : Type} {m : M α} (h : ReadOnly m) : KeepsX0 m := by
  intro cd _
  rw [h cd]
  exact ⟨rfl, rfl⟩

theorem keepsX0_pure {α : Type} (a : α) : KeepsX0 (pure a : M α) :=
  keepsX0_of_readOnly (readOnly_pure a)

theorem keepsX0_revertWithCode {α : Type} (c : Nat) : KeepsX0 (revertWithCode c : M α) :=
  keepsX0_of_readOnly (readOnly_revertWithCode c)

theorem keepsX0_goPanic {α : Type} : KeepsX0 (goPanic : M α) :=
  keepsX0_of_readOnly readOnly_goPanic

theorem keepsX0_bind {α β : Type} {m : M α} {f : α → M β} (hm : KeepsX0 m)
    (hf : ∀ a, KeepsX0 (f a)) : KeepsX0 (m >>= f) := by
  intro cd hlen
  have h1 := hm cd hlen
  simp only [bind_apply]
  cases hmc : m cd with
  | ok a cd1 =>
    rw [hmc] at h1
    simp only [buf_ok] at h1
    have h2 := hf a cd1 (by rw [h1.1]; exact hlen)
    exact ⟨h2.1.trans h1.1, h2.2.trans h1.2⟩
  | revert c cd1 =>
    rw [hmc] at h1
    exact h1

theorem keepsX0_ite {α : Type} (c : Prop) [Decidable c] {m1 m2 : M α} (h1 : KeepsX0 m1)
    (h2 : KeepsX0 m2) : KeepsX0 (if c then m1 else m2) := by
  split <;> assumption

theorem keepsX0_writeState (off : Nat) (bs : List Byte)
    (h : off + bs.length ≤ stateOffsetRegisters ∨ stateOffsetRegisters + 8 ≤ off)
    (h2 : off + bs.length ≤ stateSize) : KeepsX0 (writeState off bs) := by
  intro cd hlen
  have e1 : stateOffsetRegisters = 106 := by decide
  rw [stateSize_eq] at hlen h2
  rw [e1] at h
  simp only [writeState, buf_ok, SameX0, readState, e1]
  refine ⟨length_writeAt _ _ _ (by omega), slice_writeAt_disjoint _ _ _ _ _ (by omega) ?_⟩
  rcases h with h | h
  · exact Or.inr (by omega)
  · exact Or.inl (by omega)

theorem keepsX0_writeRegister (reg v : Nat) : KeepsX0 (writeRegister reg v) := by
  unfold writeRegister
  by_cases h0 : reg = 0
  · simp only [h0, iszero64, decide_True, if_true]
    exact keepsX0_pure _
  · by_cases h31 : reg ≤ 31
    · have hoff : add64 stateOffsetRegisters (mul64 reg 8) = 106 + 8 * reg := by
        have e1 : stateOffsetRegisters = 106 := by decide
        simp only [add64, mul64, e1, Nat.reducePow]
        omega
      have hg : gt64 reg 31 = 0 := by simp only [gt64]; rw [if_neg (by omega)]
      simp only [iszero64, h0, decide_False, Bool.false_eq_true, if_false, hg, hoff, ne_eq,
        not_true_eq_false]
      apply keepsX0_bind (keepsX0_pure _)
      intro _
      apply keepsX0_writeState
      · right
        have e1 : stateOffsetRegisters = 106 := by decide
        rw [e1]; omega
      · rw [length_encodeU64, stateSize_eq]; omega
    · have hg : gt64 reg 31 = 1 := by simp only [gt64]; rw [if_pos (by omega)]
      intro cd _
      simp only [iszero64, h0, decide_False, Bool.false_eq_true, if_false, hg, ne_eq,
        one_ne_zero, not_false_eq_true, if_true, bind_apply, revertWithCode_apply, buf_revert]
      exact ⟨rfl, rfl⟩

theorem readOnly_loadRegister (reg : Nat) : ReadOnly (loadRegister reg) := by
  intro cd
  unfold loadRegister
  simp only [bind_apply, ite_run, revertWithCode_apply, pure_apply]
  split <;> rfl

theorem readOnly_getPC : ReadOnly getPC := fun _ => rfl

theorem readOnly_getHeap : ReadOnly getHeap := fun _ => rfl

theorem readOnly_getLoadReservation : ReadOnly getLoadReservation := fun _ => rfl

theorem readOnly_getPreimageKey : ReadOnly getPreimageKey := fun _ => rfl

theorem readOnly_getPreimageOffset : ReadOnly getPreimageOffset := fun _ => rfl

theorem readOnly_updateCSR (num v mode : Nat) : ReadOnly (updateCSR num v mode) := by
  unfold updateCSR writeCSR
  with_reducible repeat (first
    | exact readOnly_pure _
    | exact readOnly_revertWithCode _
    | apply readOnly_bind
    | apply readOnly_ite
    | intro _)

theorem readOnly_amoOp (op v value : Nat) : ReadOnly (amoOp op v value) := by
  unfold amoOp
  with_reducible repeat (first
    | exact readOnly_pure _
    | exact readOnly_revertWithCode _
    | apply readOnly_ite)

theorem keepsX0_setPC (pc : Nat) : KeepsX0 (setPC pc) :=
  keepsX0_writeState _ _ (Or.inl (by rw [length_encodeU64]; decide))
    (by rw [length_encodeU64]; decide)

theorem keepsX0_setHeap (v : Nat) : KeepsX0 (setHeap v) :=
  keepsX0_writeState _ _ (Or.inl (by rw [length_encodeU64]; decide))
    (by rw [length_encodeU64]; decide)

theorem keepsX0_setLoadReservation (v : Nat) : KeepsX0 (setLoadReservation v) :=
  keepsX0_writeState _ _ (Or.inl (by rw [length_encodeU64]; decide))
    (by rw [length_encodeU64]; decide)

theorem keepsX0_setPreimageOffset (v : Nat) : KeepsX0 (setPreimageOffset v) :=
  keepsX0_writeState _ _ (Or.inl (by rw [length_encodeU64]; decide))
    (by rw [length_encodeU64]; decide)

theorem keepsX0_setPreimageKey (k : B32) : KeepsX0 (setPreimageKey k) :=
  keepsX0_writeState _ _ (Or.inl (by rw [k.property]; decide)) (by rw [k.property]; decide)

theorem keepsX0_setMemRoot (v : B32) : KeepsX0 (setMemRoot v) :=
  keepsX0_writeState _ _ (Or.inl (by rw [v.property]; decide)) (by rw [v.property]; decide)

theorem keepsX0_setExited : KeepsX0 setExited :=
  keepsX0_writeState _ _ (Or.inl (by decide)) (by decide)

theorem keepsX0_setExitCode (v : Byte) : KeepsX0 (setExitCode v) :=
  keepsX0_writeState _ _
    (Or.inl (by show stateOffsetExitCode + 1 ≤ stateOffsetRegisters; decide))
    (by show stateOffsetExitCode + 1 ≤ stateSize; decide)

theorem keepsX0_setMemoryB32 (keccak : List Byte → B32) (addr : Nat) (v : B32)
    (proofIndex : Nat) : KeepsX0 (setMemoryB32 keccak addr v proofIndex) := by
  unfold setMemoryB32
  with_reducible repeat (first
    | exact keepsX0_pure _
    | exact keepsX0_revertWithCode _
    | exact keepsX0_setMemRoot _
    | exact keepsX0_of_readOnly (readOnly_merkleLoop _ _ _ _ _ _)
    | apply keepsX0_bind
    | apply keepsX0_ite
    | intro _
    | dsimp only)

theorem keepsX0_storeMemUnaligned (keccak : List Byte → B32) (addr size value : Nat)
    (proofIndexL proofIndexR : Nat) :
    KeepsX0 (storeMemUnaligned keccak addr size value proofIndexL proofIndexR) := by
  unfold storeMemUnaligned
  with_reducible repeat (first
    | exact keepsX0_pure _
    | exact keepsX0_goPanic
    | exact keepsX0_setMemoryB32 _ _ _ _
    | exact keepsX0_of_readOnly (readOnly_getMemoryB32 _ _ _)
    | apply keepsX0_bind
    | apply keepsX0_ite
    | intro _
    | dsimp only)

theorem keepsX0_writePreimageKey (keccak : List Byte → B32) (addr count : Nat) :
    KeepsX0 (writePreimageKey keccak addr count) := by
  unfold writePreimageKey
  with_reducible repeat (first
    | exact keepsX0_pure _
    | exact keepsX0_setPreimageKey _
    | exact keepsX0_setPreimageOffset _
    | exact keepsX0_of_readOnly (readOnly_getMemoryB32 _ _ _)
    | exact keepsX0_of_readOnly readOnly_getHeap
    | exact keepsX0_of_readOnly readOnly_getLoadReservation
    | exact keepsX0_of_readOnly readOnly_getPreimageKey
    | exact keepsX0_of_readOnly readOnly_getPreimageOffset
    | apply keepsX0_bind
    | apply keepsX0_ite
    | intro _
    | dsimp only)

theorem keepsX0_readPreimageValue (keccak : List Byte → B32) (po : PreImageOracle)
    (addr count : Nat) : KeepsX0 (readPreimageValue keccak po addr count) := by
  unfold readPreimageValue
  with_reducible repeat (first
    | exact keepsX0_pure _
    | exact keepsX0_revertWithCode _
    | exact keepsX0_setPreimageOffset _
    | exact keepsX0_setMemoryB32 _ _ _ _
    | exact keepsX0_of_readOnly (readOnly_getMemoryB32 _ _ _)
    | exact keepsX0_of_readOnly readOnly_getHeap
    | exact keepsX0_of_readOnly readOnly_getLoadReservation
    | exact keepsX0_of_readOnly readOnly_getPreimageKey
    | exact keepsX0_of_readOnly readOnly_getPreimageOffset
    | apply keepsX0_bind
    | apply keepsX0_ite
    | intro _
    | split
    | dsimp only)

set_option maxRecDepth 20000 in
theorem keepsX0_sysCall (keccak : List Byte → B32) (po : PreImageOracle) :
    KeepsX0 (sysCall keccak po) := by
  unfold sysCall
  with_reducible repeat (first
    | exact keepsX0_pure _
    | exact keepsX0_revertWithCode _
    | exact keepsX0_writeRegister _ _
    | exact keepsX0_setExited
    | exact keepsX0_setExitCode _
    | exact keepsX0_setHeap _
    | exact keepsX0_readPreimageValue _ _ _ _
    | exact keepsX0_writePreimageKey _ _ _
    | exact keepsX0_storeMemUnaligned _ _ _ _ _ _
    | exact keepsX0_of_readOnly (readOnly_loadRegister _)
    | exact keepsX0_of_readOnly readOnly_getHeap
    | exact keepsX0_of_readOnly readOnly_getLoadReservation
    | exact keepsX0_of_readOnly readOnly_getPreimageKey
    | exact keepsX0_of_readOnly readOnly_getPreimageOffset
    | apply keepsX0_bind
    | apply keepsX0_ite
    | intro _
    | split
    | dsimp only)

set_option maxRecDepth 20000 in
theorem keepsX0_execute (keccak : List Byte → B32) (po : PreImageOracle) (pc instr : Nat) :
    KeepsX0 (execute keccak po pc instr) := by
  unfold execute storeMem
  with_reducible repeat (first
    | exact keepsX0_pure _
    | exact keepsX0_revertWithCode _
    | exact keepsX0_writeRegister _ _
    | exact keepsX0_setPC _
    | exact keepsX0_setLoadReservation _
    | exact keepsX0_sysCall _ _
    | exact keepsX0_storeMemUnaligned _ _ _ _ _ _
    | exact keepsX0_of_readOnly (readOnly_loadRegister _)
    | exact keepsX0_of_readOnly (readOnly_loadMem _ _ _ _ _ _)
    | exact keepsX0_of_readOnly (readOnly_updateCSR _ _ _)
    | exact keepsX0_of_readOnly (readOnly_amoOp _ _ _)
    | exact keepsX0_of_readOnly readOnly_getHeap
    | exact keepsX0_of_readOnly readOnly_getLoadReservation
    | exact keepsX0_of_readOnly readOnly_getPreimageKey
    | exact keepsX0_of_readOnly readOnly_getPreimageOffset
    | apply keepsX0_bind
    | apply keepsX0_ite
    | intro _
    | split
    | dsimp only)

theorem keepsX0_stepBody (keccak : List Byte → B32) (po : PreImageOracle) :
    KeepsX0 (stepBody keccak po) := by
  unfold stepBody
  apply keepsX0_bind (keepsX0_of_readOnly readOnly_getPC)
  intro pc
  apply keepsX0_bind (keepsX0_of_readOnly (readOnly_loadMem _ _ _ _ _ _))
  intro instr
  exact keepsX0_execute keccak po pc instr

theorem writeRegister_zero (v : Nat) (cd : List Byte) : writeRegister 0 v cd = Res.ok () cd := rfl

theorem step_keeps_x0 (keccak : List Byte → B32) (po : PreImageOracle) (cd : List Byte)
    (r : StepResult) (hr : Step keccak po cd = some r) :
    readState stateOffsetRegisters 8 r.calldata = readState stateOffsetRegisters 8 cd := by
  unfold Step at hr
  by_cases hlen : cd.length < 4 + stateSize
  · rw [if_pos hlen] at hr; cases hr
  · rw [if_neg hlen] at hr
    have hk := (keepsX0_stepBody keccak po cd (by omega)).2
    by_cases hex : getExited cd = true
    · rw [if_pos hex] at hr
      cases hr
      rfl
    · rw [if_neg hex] at hr
      cases hb : stepBody keccak po cd with
      | ok a cd1 => rw [hb] at hr hk; cases hr; exact hk
      | revert c cd1 => rw [hb] at hr hk; cases hr; exact hk

/-! ## Concrete buffers -/

theorem cdAddi_length : cdAddi.length = 2414 := by decide!

theorem cdExited_length : cdExited.length = 2414 := by decide!

theorem cdStore_length : cdStore.length = 4462 := by decide!

theorem cdAddi_fetch : getMemoryB32 sampleKeccak 0 0 cdAddi = Res.ok (padB32 addiLeaf) cdAddi :=
  getMemoryB32_ok sampleKeccak 0 0 cdAddi (padB32 addiLeaf) (List.replicate 59 zeroB32)
    (by decide) (by rw [cdAddi_length]; decide!) (by decide!) (by decide!) (by decide!)
    (by decide!)

theorem cdAddi_step :
    Step sampleKeccak sampleOracle cdAddi = some ⟨zeroB32, some 0xf001c0de, cdAddi⟩ := by
  have hpc : and64 (decodeU64 (readState stateOffsetPC 8 cdAddi)) (not64 31) = 0 := by decide!
  exact step_of_fetch sampleKeccak sampleOracle cdAddi (padB32 addiLeaf)
    (by rw [cdAddi_length]; decide!) (by decide!) (by decide!) (by rw [hpc]; exact cdAddi_fetch)

theorem cdStore_get : getMemoryB32 sampleKeccak 0x1000 1 cdStore = Res.ok zeroB32 cdStore :=
  getMemoryB32_ok sampleKeccak 0x1000 1 cdStore zeroB32 (List.replicate 59 zeroB32)
    (by decide) (by rw [cdStore_length]; decide!) (by decide!) (by decide!) (by decide!)
    (by decide!)

theorem cdStore_store :
    storeMem sampleKeccak 0x1000 8 0xDEADBEEFCAFEBABE 1 2 cdStore = Res.ok () cdStored := by
  rw [(storeMem_sd sampleKeccak cdStore zeroB32 cdStore_get).1]
  exact setMemoryB32_eq sampleKeccak 0x1000 (storedLeaf zeroB32) 1 cdStore (by decide)
    (by rw [cdStore_length]; decide!) (by decide!)

theorem cdStored_load :
    loadMem sampleKeccak 0x1000 8 false 1 2 (withLeaf cdStored 1 (storedLeaf zeroB32))
      = Res.ok 0 (withLeaf cdStored 1 (storedLeaf zeroB32)) := by
  have h := (get_after_set sampleKeccak 0x1000 1 (storedLeaf zeroB32) cdStore cdStored
    (by decide) (by rw [cdStore_length]; decide!) (by decide!) rfl).2.2.2
  have ha : and64 0x1000 (not64 31) = 0x1000 := by decide!
  exact loadMem_inside_ok sampleKeccak 0x1000 8 false 1 2 _ (storedLeaf zeroB32) (by decide)
    (by decide!) (by rw [ha]; exact h)

/-! ## Fields of the state record after a write -/

theorem field_write_same (cd : List Byte) (off v : Nat) (h : 4 + stateSize ≤ cd.length)
    (h2 : off + 8 ≤ stateSize) :
    decodeU64 (readState off 8 (writeAt cd (4 + off) (encodeU64 v))) = v % 2 ^ 64 :=
  decode_writeAt_same cd off v (by omega)

theorem field_write_other (cd : List Byte) (off off2 v : Nat) (h : 4 + stateSize ≤ cd.length)
    (h2 : off2 + 8 ≤ stateSize) (hd : off + 8 ≤ off2 ∨ off2 + 8 ≤ off) :
    decodeU64 (readState off 8 (writeAt cd (4 + off2) (encodeU64 v)))
      = decodeU64 (readState off 8 cd) := by
  rw [readState_writeAt_other cd off 8 off2 _ (by rw [length_encodeU64]; omega)
    (by rw [length_encodeU64]; exact hd)]

theorem length_write8 (cd : List Byte) (off v : Nat) (h : 4 + stateSize ≤ cd.length)
    (h2 : off + 8 ≤ stateSize) : (writeAt cd (4 + off) (encodeU64 v)).length = cd.length :=
  length_writeAt _ _ _ (by rw [length_encodeU64]; omega)

theorem memRootOf_writeAt (cd : List Byte) (off : Nat) (bs : List Byte)
    (h : 4 + off + bs.length ≤ cd.length) (h32 : 32 ≤ off) :
    memRootOf (writeAt cd (4 + off) bs) = memRootOf cd := by
  unfold memRootOf
  rw [readState_writeAt_other cd _ 32 off bs h (Or.inl (by simp [stateOffsetMemRoot]; omega))]

theorem memRootOf_write8 (cd : List Byte) (off v : Nat) (h : 4 + stateSize ≤ cd.length)
    (h2 : off + 8 ≤ stateSize) (h32 : 32 ≤ off) :
    memRootOf (writeAt cd (4 + off) (encodeU64 v)) = memRootOf cd :=
  memRootOf_writeAt cd off _ (by rw [length_encodeU64]; omega) h32

theorem offsets_eq : stateOffsetRegisters = 106 ∧ stateOffsetPC = 72 ∧ stateOffsetHeap = 90 ∧
    stateOffsetLoadReservation = 98 ∧ stateOffsetExitCode = 80 ∧ stateOffsetExited = 81 ∧
    stateOffsetPreimageKey = 32 ∧ stateOffsetPreimageOffset = 64 ∧ stateSize = 362 := by decide

/-! ## Reads after writes -/

theorem memRootOf_withPC (cd : List Byte) (v : Nat)
    (h : 4 + stateSize ≤ cd.length) : memRootOf (withPC cd v) = memRootOf cd := by
  obtain ⟨e1, e2, e3, e4, _, _, _, _, e9⟩ := offsets_eq
  exact memRootOf_write8 cd _ _ h (by omega) (by omega)

theorem loadReservationOf_withPC (cd : List Byte) (v : Nat)
    (h : 4 + stateSize ≤ cd.length) : loadReservationOf (withPC cd v) = loadReservationOf cd := by
  obtain ⟨e1, e2, e3, e4, _, _, _, _, e9⟩ := offsets_eq
  exact field_write_other cd _ _ v h (by omega) (by omega)

theorem heapOf_withPC (cd : List Byte) (v : Nat)
    (h : 4 + stateSize ≤ cd.length) : heapOf (withPC cd v) = heapOf cd := by
  obtain ⟨e1, e2, e3, e4, _, _, _, _, e9⟩ := offsets_eq
  exact field_write_other cd _ _ v h (by omega) (by omega)

theorem length_withLoadReservation (cd : List Byte) (v : Nat)
    (h : 4 + stateSize ≤ cd.length) : (withLoadReservation cd v).length = cd.length := by
  obtain ⟨e1, e2, e3, e4, _, _, _, _, e9⟩ := offsets_eq
  exact length_write8 cd _ _ h (by omega)

theorem memRootOf_withLoadReservation (cd : List Byte) (v : Nat)
    (h : 4 + stateSize ≤ cd.length) : memRootOf (withLoadReservation cd v) = memRootOf cd := by
  obtain ⟨e1, e2, e3, e4, _, _, _, _, e9⟩ := offsets_eq
  exact memRootOf_write8 cd _ _ h (by omega) (by omega)

theorem pcOf_withLoadReservation (cd : List Byte) (v : Nat)
    (h : 4 + stateSize ≤ cd.length) : pcOf (withLoadReservation cd v) = pcOf cd := by
  obtain ⟨e1, e2, e3, e4, _, _, _, _, e9⟩ := offsets_eq
  exact field_write_other cd _ _ v h (by omega) (by omega)

theorem loadReservationOf_withLoadReservation (cd : List Byte) (v : Nat)
    (h : 4 + stateSize ≤ cd.length) : loadReservationOf (withLoadReservation cd v) = v % 2 ^ 64 := by
  obtain ⟨e1, e2, e3, e4, _, _, _, _, e9⟩ := offsets_eq
  exact field_write_same cd _ v h (by omega)

theorem heapOf_withLoadReservation (cd : List Byte) (v : Nat)
    (h : 4 + stateSize ≤ cd.length) : heapOf (withLoadReservation cd v) = heapOf cd := by
  obtain ⟨e1, e2, e3, e4, _, _, _, _, e9⟩ := offsets_eq
  exact field_write_other cd _ _ v h (by omega) (by omega)

theorem regOf_withLoadReservation (cd : List Byte) (v : Nat) (q : Nat) (hq : q ≤ 31)
    (h : 4 + stateSize ≤ cd.length) : regOf (withLoadReservation cd v) q = regOf cd q := by
  obtain ⟨e1, e2, e3, e4, _, _, _, _, e9⟩ := offsets_eq
  exact field_write_other cd _ _ v h (by omega) (by omega)

theorem length_withHeap (cd : List Byte) (v : Nat)
    (h : 4 + stateSize ≤ cd.length) : (withHeap cd v).length = cd.length := by
  obtain ⟨e1, e2, e3, e4, _, _, _, _, e9⟩ := offsets_eq
  exact length_write8 cd _ _ h (by omega)

theorem memRootOf_withHeap (cd : List Byte) (v : Nat)
    (h : 4 + stateSize ≤ cd.length) : memRootOf (withHeap cd v) = memRootOf cd := by
  obtain ⟨e1, e2, e3, e4, _, _, _, _, e9⟩ := offsets_eq
  exact memRootOf_write8 cd _ _ h (by omega) (by omega)

theorem pcOf_withHeap (cd : List Byte) (v : Nat)
    (h : 4 + stateSize ≤ cd.length) : pcOf (withHeap cd v) = pcOf cd := by
  obtain ⟨e1, e2, e3, e4, _, _, _, _, e9⟩ := offsets_eq
  exact field_write_other cd _ _ v h (by omega) (by omega)

theorem loadReservationOf_withHeap (cd : List Byte) (v : Nat)
    (h : 4 + stateSize ≤ cd.length) : loadReservationOf (withHeap cd v) = loadReservationOf cd := by
  obtain ⟨e1, e2, e3, e4, _, _, _, _, e9⟩ := offsets_eq
  exact field_write_other cd _ _ v h (by omega) (by omega)

theorem heapOf_withHeap (cd : List Byte) (v : Nat)
    (h : 4 + stateSize ≤ cd.length) : heapOf (withHeap cd v) = v % 2 ^ 64 := by
  obtain ⟨e1, e2, e3, e4, _, _, _, _, e9⟩ := offsets_eq
  exact field_write_same cd _ v h (by omega)

theorem regOf_withHeap (cd : List Byte) (v : Nat) (q : Nat) (hq : q ≤ 31)
    (h : 4 + stateSize ≤ cd.length) : regOf (withHeap cd v) q = regOf cd q := by
  obtain ⟨e1, e2, e3, e4, _, _, _, _, e9⟩ := offsets_eq
  exact field_write_other cd _ _ v h (by omega) (by omega)

theorem memRootOf_withReg (cd : List Byte) (r v : Nat) (hr : r ≤ 31)
    (h : 4 + stateSize ≤ cd.length) : memRootOf (withReg cd r v) = memRootOf cd := by
  obtain ⟨e1, e2, e3, e4, _, _, _, _, e9⟩ := offsets_eq
  exact memRootOf_write8 cd _ _ h (by omega) (by omega)

theorem pcOf_withReg (cd : List Byte) (r v : Nat) (hr : r ≤ 31)
    (h : 4 + stateSize ≤ cd.length) : pcOf (withReg cd r v) = pcOf cd := by
  obtain ⟨e1, e2, e3, e4, _, _, _, _, e9⟩ := offsets_eq
  exact field_write_other cd _ _ v h (by omega) (by omega)

theorem loadReservationOf_withReg (cd : List Byte) (r v : Nat) (hr : r ≤ 31)
    (h : 4 + stateSize ≤ cd.length) : loadReservationOf (withReg cd r v) = loadReservationOf cd := by
  obtain ⟨e1, e2, e3, e4, _, _, _, _, e9⟩ := offsets_eq
  exact field_write_other cd _ _ v h (by omega) (by omega)

theorem heapOf_withReg (cd : List Byte) (r v : Nat) (hr : r ≤ 31)
    (h : 4 + stateSize ≤ cd.length) : heapOf (withReg cd r v) = heapOf cd := by
  obtain ⟨e1, e2, e3, e4, _, _, _, _, e9⟩ := offsets_eq
  exact field_write_other cd _ _ v h (by omega) (by omega)

theorem length_withRd (cd : List Byte) (r v : Nat) (hr : r ≤ 31)
    (h : 4 + stateSize ≤ cd.length) : (withRd cd r v).length = cd.length := by
  unfold withRd
  split
  · rfl
  · exact length_withReg cd r v hr h

theorem memRootOf_withRd (cd : List Byte) (r v : Nat) (hr : r ≤ 31)
    (h : 4 + stateSize ≤ cd.length) : memRootOf (withRd cd r v) = memRootOf cd := by
  unfold withRd
  split
  · rfl
  · exact memRootOf_withReg cd r v hr h

theorem regOf_withRd_same (cd : List Byte) (r v : Nat) (hr : r ≤ 31) (h0 : r ≠ 0)
    (h : 4 + stateSize ≤ cd.length) : regOf (withRd cd r v) r = v % 2 ^ 64 := by
  unfold withRd
  rw [if_neg h0]
  exact regOf_withReg_same cd r v hr h

theorem regOf_withRd_other (cd : List Byte) (r q v : Nat) (hr : r ≤ 31) (hne : q ≠ r)
    (h : 4 + stateSize ≤ cd.length) : regOf (withRd cd r v) q = regOf cd q := by
  unfold withRd
  split
  · rfl
  · exact regOf_withReg_other cd q r v hr hne h

theorem pcOf_withRd (cd : List Byte) (r v : Nat) (hr : r ≤ 31)
    (h : 4 + stateSize ≤ cd.length) : pcOf (withRd cd r v) = pcOf cd := by
  unfold withRd
  split
  · rfl
  · exact pcOf_withReg cd r v hr h

theorem heapOf_withRd (cd : List Byte) (r v : Nat) (hr : r ≤ 31)
    (h : 4 + stateSize ≤ cd.length) : heapOf (withRd cd r v) = heapOf cd := by
  unfold withRd
  split
  · rfl
  · exact heapOf_withReg cd r v hr h

theorem loadReservationOf_withRd (cd : List Byte) (r v : Nat) (hr : r ≤ 31)
    (h : 4 + stateSize ≤ cd.length) :
    loadReservationOf (withRd cd r v) = loadReservationOf cd := by
  unfold withRd
  split
  · rfl
  · exact loadReservationOf_withReg cd r v hr h

theorem writeRegister_withRd (r v : Nat) (h : r ≤ 31) (cd : List Byte) :
    writeRegister r v cd = Res.ok () (withRd cd r v) := by
  unfold withRd
  split
  · subst r; rfl
  · exact writeRegister_eq r v (by assumption) h cd

theorem setLoadReservation_eq (v : Nat) (cd : List Byte) :
    setLoadReservation v cd = Res.ok () (withLoadReservation cd v) := rfl

theorem setHeap_eq (v : Nat) (cd : List Byte) : setHeap v cd = Res.ok () (withHeap cd v) := rfl

/-! ## Results of the atomic opcode -/

theorem length_of_keepsX0 {α : Type} {m : M α} (hm : KeepsX0 m) (cd : List Byte) (a : α)
    (cd1 : List Byte) (h : 4 + stateSize ≤ cd.length) (hr : m cd = Res.ok a cd1) :
    cd1.length = cd.length := by
  have := (hm cd h).1
  rw [hr] at this
  exact this

theorem storeMem_length (keccak : List Byte → B32) (addr size value pL pR : Nat)
    (cd cd1 : List Byte) (h : 4 + stateSize ≤ cd.length)
    (hr : storeMem keccak addr size value pL pR cd = Res.ok () cd1) : cd1.length = cd.length :=
  length_of_keepsX0 (keepsX0_storeMemUnaligned keccak addr size value pL pR) cd () cd1 h hr

theorem execute_lr_ok (keccak : List Byte → B32) (po : PreImageOracle) (pc instr : Nat)
    (cd : List Byte) (v : Nat) (hop : parseOpcode instr = 0x2F)
    (hf3 : parseFunct3 instr = 2 ∨ parseFunct3 instr = 3)
    (hop2 : shr64 2 (parseFunct7 instr) = 2)
    (hload : loadMem keccak (regOf cd (parseRs1 instr)) (shl64 (parseFunct3 instr) 1) true 1 2 cd
      = Res.ok v cd) :
    execute keccak po pc instr cd = Res.ok ()
      (withPC (withLoadReservation (withRd cd (parseRd instr) v) (regOf cd (parseRs1 instr)))
        (add64 pc 4)) := by
  rw [execute_lr keccak po pc instr cd hop hf3 hop2]
  simp only [bind_apply, hload, writeRegister_withRd _ _ (parseRd_le instr),
    setLoadReservation_eq, setPC_eq]

theorem execute_sc_ne (keccak : List Byte → B32) (po : PreImageOracle) (pc instr : Nat)
    (cd : List Byte) (hop : parseOpcode instr = 0x2F)
    (hf3 : parseFunct3 instr = 2 ∨ parseFunct3 instr = 3)
    (hop2 : shr64 2 (parseFunct7 instr) = 3)
    (hne : regOf cd (parseRs1 instr) ≠ loadReservationOf cd) :
    execute keccak po pc instr cd = Res.ok ()
      (withPC (withLoadReservation (withRd cd (parseRd instr) 1) 0) (add64 pc 4)) := by
  rw [execute_sc keccak po pc instr cd hop hf3 hop2]
  simp only [eq64, if_neg hne, ne_eq, not_true_eq_false, if_false, bind_apply, pure_apply,
    writeRegister_withRd _ _ (parseRd_le instr), setLoadReservation_eq, setPC_eq]

theorem execute_sc_eq (keccak : List Byte → B32) (po : PreImageOracle) (pc instr : Nat)
    (cd cd1 : List Byte) (hop : parseOpcode instr = 0x2F)
    (hf3 : parseFunct3 instr = 2 ∨ parseFunct3 instr = 3)
    (hop2 : shr64 2 (parseFunct7 instr) = 3)
    (heq : regOf cd (parseRs1 instr) = loadReservationOf cd)
    (hstore : storeMem keccak (regOf cd (parseRs1 instr)) (shl64 (parseFunct3 instr) 1)
      (regOf cd (parseRs2 instr)) 1 2 cd = Res.ok () cd1) :
    execute keccak po pc instr cd = Res.ok ()
      (withPC (withLoadReservation (withRd cd1 (parseRd instr) 0) 0) (add64 pc 4)) := by
  rw [execute_sc keccak po pc instr cd hop hf3 hop2]
  simp only [eq64, if_pos heq, ne_eq, one_ne_zero, not_false_eq_true, if_true, bind_apply,
    pure_apply, hstore, writeRegister_withRd _ _ (parseRd_le instr), setLoadReservation_eq,
    setPC_eq]

theorem execute_amo_ok (keccak : List Byte → B32) (po : PreImageOracle) (pc instr : Nat)
    (cd cd1 : List Byte) (v w : Nat) (hop : parseOpcode instr = 0x2F)
    (hf3 : parseFunct3 instr = 2 ∨ parseFunct3 instr = 3)
    (hne2 : shr64 2 (parseFunct7 instr) ≠ 2) (hne3 : shr64 2 (parseFunct7 instr) ≠ 3)
    (hload : loadMem keccak (regOf cd (parseRs1 instr)) (shl64 (parseFunct3 instr) 1) true 1 2 cd
      = Res.ok v cd)
    (hamo : amoOp (shr64 2 (parseFunct7 instr)) v
      (if eq64 (shl64 (parseFunct3 instr) 1) 4 ≠ 0
        then mask32Signed64 (regOf cd (parseRs2 instr)) else regOf cd (parseRs2 instr)) cd
      = Res.ok w cd)
    (hstore : storeMem keccak (regOf cd (parseRs1 instr)) (shl64 (parseFunct3 instr) 1) w 1 3 cd
      = Res.ok () cd1) :
    execute keccak po pc instr cd = Res.ok ()
      (withPC (withRd cd1 (parseRd instr) w) (add64 pc 4)) := by
  rw [execute_amo keccak po pc instr cd hop hf3 hne2 hne3]
  simp only [bind_apply, hload, hamo, hstore, writeRegister_withRd _ _ (parseRd_le instr),
    setPC_eq]

theorem storeMem_inside (keccak : List Byte → B32) (addr size value pL pR : Nat)
    (cd : List Byte) (leaf : B32) (hs : size ≤ 32)
    (hin : and64 addr (not64 31) = and64 (add64 addr (sub64 size 1)) (not64 31))
    (hget : getMemoryB32 keccak (and64 addr (not64 31)) pL cd = Res.ok leaf cd) :
    storeMem keccak addr size value pL pR cd
      = setMemoryB32 keccak (and64 addr (not64 31)) (patchedLeaf addr size value leaf) pL cd := by
  have hs2 : ¬ size > 32 := by omega
  unfold storeMem storeMemUnaligned
  simp only [hs2, if_false, bind_apply, pure_apply, ite_run, hget, ← hin, eq64, if_true,
    patchedLeaf, patchOf]
  simp only [ne_eq, one_ne_zero, not_false_eq_true, if_true]
  cases setMemoryB32 keccak _ _ pL cd <;> rfl

theorem aligned_left (addr : Nat) (h : addr < 2 ^ 64) : and64 (and64 addr (not64 31)) 31 = 0 := by
  rw [and64_not31 addr h]
  have : (31 : Nat) = 2 ^ 5 - 1 := by norm_num
  unfold and64
  rw [this, Nat.and_pow_two_sub_one_eq_mod]
  omega

theorem memRootOf_setRoot (cd : List Byte) (root : B32) (h : 36 ≤ cd.length) :
    memRootOf (writeAt cd 4 root.val) = root := by
  have := slice_writeAt_same cd 4 root.val (by rw [root.property]; omega)
  rw [root.property] at this
  show padB32 (slice _ (4 + 0) 32) = _
  rw [this, padB32_val]

theorem storeMem_inside_ok (keccak : List Byte → B32) (addr size value pL pR : Nat)
    (cd : List Byte) (leaf : B32) (ha : addr < 2 ^ 64) (hs : size ≤ 32) (hpi : pL < 256)
    (hlen : proofOffset pL + 64 * 32 ≤ cd.length)
    (hin : and64 addr (not64 31) = and64 (add64 addr (sub64 size 1)) (not64 31))
    (hget : getMemoryB32 keccak (and64 addr (not64 31)) pL cd = Res.ok leaf cd) :
    storeMem keccak addr size value pL pR cd = Res.ok ()
      (writeAt cd 4 (foldRoot keccak (and64 addr (not64 31) >>> 5) 0
        (patchedLeaf addr size value leaf) (proofSiblings cd pL)).val) := by
  rw [storeMem_inside keccak addr size value pL pR cd leaf hs hin hget]
  exact setMemoryB32_eq keccak _ _ pL cd hpi hlen (aligned_left addr ha)

/-! ## More concrete buffers -/

theorem zeroRoot_fold :
    foldRoot sampleKeccak (0x1000 >>> 5) 0 zeroB32 (List.replicate 59 zeroB32)
      = ⟨zeroRoot, by decide⟩ := by decide!

theorem cdAmo_length : cdAmo.length = 4462 := by decide!

theorem cdAmo_root : memRootOf cdAmo = ⟨zeroRoot, by decide⟩ := by decide!

theorem cdAmo_get : getMemoryB32 sampleKeccak 0x1000 1 cdAmo = Res.ok zeroB32 cdAmo :=
  getMemoryB32_ok sampleKeccak 0x1000 1 cdAmo zeroB32 (List.replicate 59 zeroB32)
    (by decide) (by rw [cdAmo_length]; decide!) (by decide!) (by decide!) (by decide!)
    (by rw [cdAmo_root]; exact zeroRoot_fold)

theorem cdAmo_regs : regOf cdAmo 1 = 0x1000 ∧ regOf cdAmo 2 = 5 ∧ regOf cdAmo 3 = 7 ∧
    loadReservationOf cdAmo = 0 := by decide!

theorem cdAmo_load (size : Nat) (hs : size = 4 ∨ size = 8) :
    loadMem sampleKeccak 0x1000 size true 1 2 cdAmo = Res.ok 0 cdAmo := by
  have ha : and64 0x1000 (not64 31) = 0x1000 := by decide!
  refine loadMem_inside_ok sampleKeccak 0x1000 size true 1 2 _ zeroB32 (by omega) ?_
    (by rw [ha]; exact cdAmo_get)
  rcases hs with h | h <;> subst h <;> decide!

theorem cdSc0_length : cdSc0.length = 4462 := by decide!

theorem cdSc0_root : memRootOf cdSc0 = ⟨zeroRoot0, by decide⟩ := by decide!

theorem cdSc0_get : getMemoryB32 sampleKeccak 0 1 cdSc0 = Res.ok zeroB32 cdSc0 :=
  getMemoryB32_ok sampleKeccak 0 1 cdSc0 zeroB32 (List.replicate 59 zeroB32)
    (by decide) (by rw [cdSc0_length]; decide!) (by decide!) (by decide!) (by decide!)
    (by rw [cdSc0_root]; decide!)

theorem cdSc0_regs : regOf cdSc0 1 = 0 ∧ regOf cdSc0 2 = 5 ∧ regOf cdSc0 3 = 7 ∧
    loadReservationOf cdSc0 = 0 := by decide!

theorem cdSc0_store :
    storeMem sampleKeccak 0 8 5 1 2 cdSc0 = Res.ok ()
      (writeAt cdSc0 4 (foldRoot sampleKeccak 0 0 (patchedLeaf 0 8 5 zeroB32)
        (List.replicate 59 zeroB32)).val) := by
  have hs : proofSiblings cdSc0 1 = List.replicate 59 zeroB32 := by decide!
  have := storeMem_inside_ok sampleKeccak 0 8 5 1 2 cdSc0 zeroB32 (by decide) (by decide)
    (by decide) (by rw [cdSc0_length]; decide!) (by decide!) cdSc0_get
  rw [hs] at this
  exact this

theorem cdSc0_newRoot :
    foldRoot sampleKeccak 0 0 (patchedLeaf 0 8 5 zeroB32) (List.replicate 59 zeroB32)
      ≠ ⟨zeroRoot0, by decide⟩ := by decide!

/-! ## System calls -/

theorem execute_ecall (keccak : List Byte → B32) (po : PreImageOracle) (pc instr : Nat)
    (cd : List Byte) (hop : parseOpcode instr = 0x73) (hf3 : parseFunct3 instr = 0)
    (himm : shr64 20 instr = 0) :
    execute keccak po pc instr cd = (sysCall keccak po >>= fun _ => setPC (add64 pc 4)) cd := by
  simp [execute, hop, hf3, himm]

theorem getHeap_eq (cd : List Byte) : getHeap cd = Res.ok (heapOf cd) cd := rfl

theorem sysCall_exit (keccak : List Byte → B32) (po : PreImageOracle) (cd : List Byte)
    (ha7 : regOf cd 17 = 93 ∨ regOf cd 17 = 94) :
    sysCall keccak po cd = Res.ok () (withExit cd (toByte (regOf cd 10))) := by
  rcases ha7 with h | h <;>
    simp [sysCall, loadRegister_eq, h, setExitCode, setExited, writeState, withExit]

theorem sysCall_mmap (keccak : List Byte → B32) (po : PreImageOracle) (cd : List Byte)
    (ha7 : regOf cd 17 = 222) :
    sysCall keccak po cd = Res.ok ()
      (withRd
        (if regOf cd 10 = 0 then
          withHeap (withRd cd 10 (heapOf cd))
            (add64 (heapOf cd)
              (if and64 (regOf cd 11) 4095 ≠ 0
                then add64 (regOf cd 11) (sub64 4096 (and64 (regOf cd 11) 4095))
                else regOf cd 11))
        else cd) 11 0) := by
  by_cases h0 : regOf cd 10 = 0
  · simp [sysCall, loadRegister_eq, ha7, h0, getHeap_eq, writeRegister_withRd, setHeap_eq]
  · simp [sysCall, loadRegister_eq, ha7, h0, getHeap_eq, writeRegister_withRd, setHeap_eq]

theorem length_withExit (cd : List Byte) (code : Byte) (h : 4 + stateSize ≤ cd.length) :
    (withExit cd code).length = cd.length := by
  obtain ⟨e1, e2, e3, e4, e5, e6, _, _, e9⟩ := offsets_eq
  unfold withExit
  rw [length_writeAt _ _ _ (by rw [length_writeAt _ _ _ (by simp; omega)]; simp; omega),
    length_writeAt _ _ _ (by simp; omega)]

theorem readState_withExit (cd : List Byte) (code : Byte) (off n : Nat)
    (h : 4 + stateSize ≤ cd.length) (hd : off + n ≤ 80 ∨ 82 ≤ off) :
    readState off n (withExit cd code) = readState off n cd := by
  obtain ⟨e1, e2, e3, e4, e5, e6, _, _, e9⟩ := offsets_eq
  unfold withExit
  rw [readState_writeAt_other _ off n _ _
      (by rw [length_writeAt _ _ _ (by simp; omega)]; simp; omega) (by simp; omega),
    readState_writeAt_other _ off n _ _ (by simp; omega) (by simp; omega)]

theorem exited_withExit (cd : List Byte) (code : Byte) (h : 4 + stateSize ≤ cd.length) :
    readState stateOffsetExited 1 (withExit cd code) = [1] := by
  obtain ⟨e1, e2, e3, e4, e5, e6, _, _, e9⟩ := offsets_eq
  unfold withExit
  exact readState_writeAt_same _ stateOffsetExited [1]
    (by rw [length_writeAt _ _ _ (by simp; omega)]; simp; omega)

theorem exitCode_withExit (cd : List Byte) (code : Byte) (h : 4 + stateSize ≤ cd.length) :
    readState stateOffsetExitCode 1 (withExit cd code) = [code] := by
  obtain ⟨e1, e2, e3, e4, e5, e6, _, _, e9⟩ := offsets_eq
  unfold withExit
  rw [readState_writeAt_other _ stateOffsetExitCode 1 _ _
      (by rw [length_writeAt _ _ _ (by simp; omega)]; simp; omega) (by simp; omega)]
  exact readState_writeAt_same _ stateOffsetExitCode [code] (by simp; omega)

theorem readState_withPC (cd : List Byte) (v off n : Nat)
    (h : 4 + stateSize ≤ cd.length) (hd : off + n ≤ 72 ∨ 80 ≤ off) :
    readState off n (withPC cd v) = readState off n cd := by
  obtain ⟨e1, e2, e3, e4, e5, e6, _, _, e9⟩ := offsets_eq
  unfold withPC
  rw [readState_writeAt_other _ off n _ _ (by rw [length_encodeU64]; omega)
    (by rw [length_encodeU64]; omega)]

theorem execute_exit (keccak : List Byte → B32) (po : PreImageOracle) (pc instr : Nat)
    (cd : List Byte) (hop : parseOpcode instr = 0x73) (hf3 : parseFunct3 instr = 0)
    (himm : shr64 20 instr = 0) (ha7 : regOf cd 17 = 93 ∨ regOf cd 17 = 94) :
    execute keccak po pc instr cd
      = Res.ok () (withPC (withExit cd (toByte (regOf cd 10))) (add64 pc 4)) := by
  rw [execute_ecall keccak po pc instr cd hop hf3 himm]
  simp only [bind_apply, sysCall_exit keccak po cd ha7, setPC_eq]

theorem add64_mod (x y : Nat) : add64 x y % 2 ^ 64 = add64 x y := by
  unfold add64
  exact Nat.mod_mod _ _

theorem exit_state (cd : List Byte) (pc : Nat) (code : Byte) (h : 4 + stateSize ≤ cd.length) :
    pcOf (withPC (withExit cd code) (add64 pc 4)) = add64 pc 4 ∧
      getExited (withPC (withExit cd code) (add64 pc 4)) = true ∧
      exitCodeOf (withPC (withExit cd code) (add64 pc 4)) = [code] ∧
      (∀ r, r ≤ 31 → regOf (withPC (withExit cd code) (add64 pc 4)) r = regOf cd r) ∧
      memRootOf (withPC (withExit cd code) (add64 pc 4)) = memRootOf cd := by
  obtain ⟨e1, e2, e3, e4, e5, e6, _, _, e9⟩ := offsets_eq
  have hl := length_withExit cd code h
  have hl2 : 4 + stateSize ≤ (withExit cd code).length := by omega
  refine ⟨?_, ?_, ?_, ?_, ?_⟩
  · rw [pcOf_withPC _ _ hl2, add64_mod]
  · unfold getExited
    rw [readState_withPC _ _ _ _ hl2 (by omega), exited_withExit cd code h]
    decide
  · unfold exitCodeOf
    rw [readState_withPC _ _ _ _ hl2 (by omega), exitCode_withExit cd code h]
  · intro r hr
    rw [regOf_withPC _ _ _ hl2]
    unfold regOf
    rw [readState_withExit cd code _ 8 h (by omega)]
  · rw [memRootOf_withPC _ _ hl2]
    unfold memRootOf
    rw [readState_withExit cd code _ 32 h (Or.inl (by simp [stateOffsetMemRoot]))]

theorem cdExit_length : cdExit.length = 2414 := by decide!

theorem cdExit_fetch :
    getMemoryB32 sampleKeccak 0 0 cdExit = Res.ok (padB32 ecallLeaf) cdExit :=
  getMemoryB32_ok sampleKeccak 0 0 cdExit (padB32 ecallLeaf) (List.replicate 59 zeroB32)
    (by decide) (by rw [cdExit_length]; decide!) (by decide!) (by decide!) (by decide!)
    (by decide!)

theorem cdExit_regs : regOf cdExit 10 = 42 ∧ regOf cdExit 17 = 93 ∧ pcOf cdExit = 0 := by
  decide!

theorem cdExit_step :
    Step sampleKeccak sampleOracle cdExit = some ⟨zeroB32, some 0xf001c0de, cdExit⟩ := by
  have hpc : and64 (decodeU64 (readState stateOffsetPC 8 cdExit)) (not64 31) = 0 := by decide!
  exact step_of_fetch sampleKeccak sampleOracle cdExit (padB32 ecallLeaf)
    (by rw [cdExit_length]; decide!) (by decide!) (by decide!) (by rw [hpc]; exact cdExit_fetch)

/-! ## Jumps and upper immediates -/

theorem execute_jalr (keccak : List Byte → B32) (po : PreImageOracle) (pc instr : Nat)
    (cd : List Byte) (hop : parseOpcode instr = 0x67) :
    execute keccak po pc instr cd = Res.ok ()
      (withPC (withRd cd (parseRd instr) (add64 pc 4))
        (and64 (add64 (regOf cd (parseRs1 instr)) (signExtend64 (parseImmTypeI instr) 11))
          (xor64 u64Mask 1))) := by
  simp [execute, hop, loadRegister_eq _ (parseRs1_le instr),
    writeRegister_withRd _ _ (parseRd_le instr), setPC_eq]

theorem execute_jal (keccak : List Byte → B32) (po : PreImageOracle) (pc instr : Nat)
    (cd : List Byte) (hop : parseOpcode instr = 0x6F) :
    execute keccak po pc instr cd = Res.ok ()
      (withPC (withRd cd (parseRd instr) (add64 pc 4))
        (add64 pc (signExtend64 (shl64 1 (parseImmTypeJ instr)) 20))) := by
  simp [execute, hop, writeRegister_withRd _ _ (parseRd_le instr), setPC_eq]

theorem execute_lui (keccak : List Byte → B32) (po : PreImageOracle) (pc instr : Nat)
    (cd : List Byte) (hop : parseOpcode instr = 0x37) :
    execute keccak po pc instr cd = Res.ok ()
      (withPC (withRd cd (parseRd instr) (shl64 12 (parseImmTypeU instr))) (add64 pc 4)) := by
  simp [execute, hop, writeRegister_withRd _ _ (parseRd_le instr), setPC_eq]

theorem execute_opimm32 (keccak : List Byte → B32) (po : PreImageOracle) (pc instr : Nat)
    (cd : List Byte) (hop : parseOpcode instr = 0x1B) :
    execute keccak po pc instr cd =
      (writeRegister (parseRd instr)
        (opImm32 (parseFunct3 instr) (regOf cd (parseRs1 instr)) (parseImmTypeI instr))
          >>= fun _ => setPC (add64 pc 4)) cd := by
  simp [execute, hop, loadRegister_eq _ (parseRs1_le instr)]

theorem jump_state (cd : List Byte) (rd v target : Nat) (hrd : rd ≤ 31)
    (h : 4 + stateSize ≤ cd.length) :
    pcOf (withPC (withRd cd rd v) target) = target % 2 ^ 64 ∧
      (rd ≠ 0 → regOf (withPC (withRd cd rd v) target) rd = v % 2 ^ 64) ∧
      (∀ q, q ≤ 31 → q ≠ rd → regOf (withPC (withRd cd rd v) target) q = regOf cd q) := by
  have hl := length_withRd cd rd v hrd h
  refine ⟨pcOf_withPC _ _ (by omega), ?_, ?_⟩
  · intro h0
    rw [regOf_withPC _ _ _ (by omega), regOf_withRd_same _ _ _ hrd h0 h]
  · intro q _ hne
    rw [regOf_withPC _ _ _ (by omega), regOf_withRd_other _ _ _ _ hrd hne h]

theorem cdJalr_length : cdJalr.length = 2414 := by decide!

theorem cdJalr_fetch :
    getMemoryB32 sampleKeccak 0 0 cdJalr = Res.ok (padB32 jalrLeaf) cdJalr :=
  getMemoryB32_ok sampleKeccak 0 0 cdJalr (padB32 jalrLeaf) (List.replicate 59 zeroB32)
    (by decide) (by rw [cdJalr_length]; decide!) (by decide!) (by decide!) (by decide!)
    (by decide!)

/-! ## Shifts of the low word -/

theorem and64_1F (x : Nat) : and64 x 0x1F = x % 32 :=
  Nat.and_pow_two_sub_one_eq_mod x 5

set_option maxRecDepth 100000 in
set_option maxHeartbeats 4000000 in
theorem sraw_value (a s : Nat) (hs : s ≤ 31) :
    signExtend64 (shr64 s (and64 a u32Mask)) (sub64 31 s) = ofInt64 (toInt32 a / 2 ^ s) := by
  have hm : a % 2 ^ 32 < 2 ^ 32 := Nat.mod_lt _ (by norm_num)
  rw [and64_u32Mask]
  unfold toInt32
  generalize a % 2 ^ 32 = m at hm
  unfold signExtend64 shr64 sub64 ofInt64
  rw [Nat.testBit_to_div_mod, Nat.shiftRight_eq_div_pow]
  interval_cases s <;> simp only [Nat.reducePow, Nat.reduceMod, Nat.reduceSub, Nat.reduceAdd,
    Nat.reduceLeDiff, ge_iff_le, if_false, decide_eq_true_eq] at * <;> (split <;> split <;> omega)

/-! ## The revert code of an unknown opcode -/

theorem nuo_pure {α : Type} (a : α) : NotUnknownOpcode (pure a : M α) := by
  intro cd c cd1 h
  cases h

theorem nuo_revertWithCode {α : Type} (c : Nat) (h : c ≠ 0xf001c0de) :
    NotUnknownOpcode (revertWithCode c : M α) := by
  intro cd c1 cd1 h1
  cases h1
  exact h

theorem nuo_goPanic {α : Type} : NotUnknownOpcode (goPanic : M α) := by
  intro cd c1 cd1 h1
  cases h1
  decide

theorem nuo_bind {α β : Type} {m : M α} {f : α → M β} (hm : NotUnknownOpcode m)
    (hf : ∀ a, NotUnknownOpcode (f a)) : NotUnknownOpcode (m >>= f) := by
  intro cd c cd1 h
  simp only [bind_apply] at h
  cases hmc : m cd with
  | ok a cd2 =>
    rw [hmc] at h
    exact hf a cd2 c cd1 h
  | revert c2 cd2 =>
    rw [hmc] at h
    cases h
    exact hm cd c cd1 hmc

theorem nuo_ite {α : Type} (c : Prop) [Decidable c] {m1 m2 : M α} (h1 : NotUnknownOpcode m1)
    (h2 : NotUnknownOpcode m2) : NotUnknownOpcode (if c then m1 else m2) := by
  split <;> assumption

theorem nuo_writeState (off : Nat) (bs : List Byte) : NotUnknownOpcode (writeState off bs) := by
  intro cd c cd1 h
  cases h

theorem nuo_calldataload (offset : Nat) : NotUnknownOpcode (calldataload offset) := by
  intro cd c cd1 h
  unfold calldataload at h
  split at h
  · cases h
  · cases h
    decide

theorem nuo_merkleLoop (keccak : List Byte → B32) (path : Nat) (n : Nat) :
    ∀ (i offset : Nat) (node : B32), NotUnknownOpcode (merkleLoop keccak path n i offset node) := by
  induction n with
  | zero => intro i offset node; exact nuo_pure _
  | succ n ih =>
    intro i offset node
    unfold merkleLoop
    exact nuo_bind (nuo_calldataload _) (fun _ => ih _ _ _)

theorem nuo_getMemRoot : NotUnknownOpcode getMemRoot := by
  intro cd c cd1 h
  cases h

theorem nuo_getMemoryB32 (keccak : List Byte → B32) (addr proofIndex : Nat) :
    NotUnknownOpcode (getMemoryB32 keccak addr proofIndex) := by
  unfold getMemoryB32
  with_reducible repeat (first
    | exact nuo_pure _
    | exact nuo_revertWithCode _ (by decide)
    | exact nuo_calldataload _
    | exact nuo_merkleLoop _ _ _ _ _ _
    | exact nuo_getMemRoot
    | apply nuo_bind
    | apply nuo_ite
    | intro _
    | dsimp only)

theorem nuo_setMemoryB32 (keccak : List Byte → B32) (addr : Nat) (v : B32) (proofIndex : Nat) :
    NotUnknownOpcode (setMemoryB32 keccak addr v proofIndex) := by
  unfold setMemoryB32 setMemRoot
  with_reducible repeat (first
    | exact nuo_pure _
    | exact nuo_revertWithCode _ (by decide)
    | exact nuo_writeState _ _
    | exact nuo_merkleLoop _ _ _ _ _ _
    | apply nuo_bind
    | apply nuo_ite
    | intro _
    | dsimp only)

theorem nuo_loadMem (keccak : List Byte → B32) (addr size : Nat) (signed : Bool)
    (pL pR : Nat) : NotUnknownOpcode (loadMem keccak addr size signed pL pR) := by
  unfold loadMem
  with_reducible repeat (first
    | exact nuo_pure _
    | exact nuo_goPanic
    | exact nuo_getMemoryB32 _ _ _
    | apply nuo_bind
    | apply nuo_ite
    | intro _
    | split
    | dsimp only)

theorem nuo_storeMemUnaligned (keccak : List Byte → B32) (addr size value pL pR : Nat) :
    NotUnknownOpcode (storeMemUnaligned keccak addr size value pL pR) := by
  unfold storeMemUnaligned
  with_reducible repeat (first
    | exact nuo_pure _
    | exact nuo_goPanic
    | exact nuo_getMemoryB32 _ _ _
    | exact nuo_setMemoryB32 _ _ _ _
    | apply nuo_bind
    | apply nuo_ite
    | intro _
    | dsimp only)

theorem nuo_getter {α : Type} (f : List Byte → α) :
    NotUnknownOpcode (fun cd => Res.ok (f cd) cd : M α) := by
  intro cd c cd1 h
  cases h

theorem nuo_loadRegister (reg : Nat) : NotUnknownOpcode (loadRegister reg) := by
  unfold loadRegister
  with_reducible repeat (first
    | exact nuo_pure _
    | exact nuo_revertWithCode _ (by decide)
    | exact nuo_getter _
    | apply nuo_bind
    | apply nuo_ite
    | intro _
    | dsimp only)

theorem nuo_writeRegister (reg v : Nat) : NotUnknownOpcode (writeRegister reg v) := by
  unfold writeRegister
  with_reducible repeat (first
    | exact nuo_pure _
    | exact nuo_revertWithCode _ (by decide)
    | exact nuo_writeState _ _
    | apply nuo_bind
    | apply nuo_ite
    | intro _
    | dsimp only)

theorem nuo_updateCSR (num v mode : Nat) : NotUnknownOpcode (updateCSR num v mode) := by
  unfold updateCSR writeCSR
  with_reducible repeat (first
    | exact nuo_pure _
    | exact nuo_revertWithCode _ (by decide)
    | apply nuo_bind
    | apply nuo_ite
    | intro _)

theorem nuo_amoOp (op v value : Nat) : NotUnknownOpcode (amoOp op v value) := by
  unfold amoOp
  with_reducible repeat (first
    | exact nuo_pure _
    | exact nuo_revertWithCode _ (by decide)
    | apply nuo_ite)

theorem nuo_writePreimageKey (keccak : List Byte → B32) (addr count : Nat) :
    NotUnknownOpcode (writePreimageKey keccak addr count) := by
  unfold writePreimageKey setPreimageKey setPreimageOffset getPreimageKey
  with_reducible repeat (first
    | exact nuo_pure _
    | exact nuo_writeState _ _
    | exact nuo_getMemoryB32 _ _ _
    | exact nuo_getter _
    | apply nuo_bind
    | apply nuo_ite
    | intro _
    | dsimp only)

theorem nuo_readPreimageValue (keccak : List Byte → B32) (po : PreImageOracle)
    (addr count : Nat) : NotUnknownOpcode (readPreimageValue keccak po addr count) := by
  unfold readPreimageValue setPreimageOffset getPreimageKey getPreimageOffset
  with_reducible repeat (first
    | exact nuo_pure _
    | exact nuo_revertWithCode _ (by decide)
    | exact nuo_writeState _ _
    | exact nuo_getMemoryB32 _ _ _
    | exact nuo_setMemoryB32 _ _ _ _
    | exact nuo_getter _
    | apply nuo_bind
    | apply nuo_ite
    | intro _
    | split
    | dsimp only)

set_option maxRecDepth 20000 in
theorem nuo_sysCall (keccak : List Byte → B32) (po : PreImageOracle) :
    NotUnknownOpcode (sysCall keccak po) := by
  unfold sysCall setExitCode setExited setHeap getHeap
  with_reducible repeat (first
    | exact nuo_pure _
    | exact nuo_revertWithCode _ (by decide)
    | exact nuo_writeRegister _ _
    | exact nuo_loadRegister _
    | exact nuo_writeState _ _
    | exact nuo_getter _
    | exact nuo_readPreimageValue _ _ _ _
    | exact nuo_writePreimageKey _ _ _
    | exact nuo_storeMemUnaligned _ _ _ _ _ _
    | apply nuo_bind
    | apply nuo_ite
    | intro _
    | split
    | dsimp only)

theorem nuo_ite_hyp {α : Type} (c : Prop) [Decidable c] {m1 m2 : M α}
    (h1 : c → NotUnknownOpcode m1) (h2 : ¬ c → NotUnknownOpcode m2) :
    NotUnknownOpcode (if c then m1 else m2) := by
  split
  · exact h1 (by assumption)
  · exact h2 (by assumption)

set_option maxRecDepth 20000 in
theorem nuo_execute (keccak : List Byte → B32) (po : PreImageOracle) (pc instr : Nat)
    (hmem : parseOpcode instr ∈ knownOpcodes) :
    NotUnknownOpcode (execute keccak po pc instr) := by
  simp only [knownOpcodes, List.mem_cons, List.mem_singleton, List.not_mem_nil, or_false] at hmem
  unfold execute storeMem setPC setLoadReservation getLoadReservation
  with_reducible repeat (first
    | exact nuo_pure _
    | exact nuo_revertWithCode _ (by decide)
    | exact nuo_writeRegister _ _
    | exact nuo_loadRegister _
    | exact nuo_writeState _ _
    | exact nuo_getter _
    | exact nuo_sysCall _ _
    | exact nuo_storeMemUnaligned _ _ _ _ _ _
    | exact nuo_loadMem _ _ _ _ _ _
    | exact nuo_updateCSR _ _ _
    | exact nuo_amoOp _ _ _
    | apply nuo_bind
    | apply nuo_ite_hyp
    | intro _
    | split
    | dsimp only
    | (exfalso; omega))

theorem execute_unknown (keccak : List Byte → B32) (po : PreImageOracle) (pc instr : Nat)
    (cd : List Byte) (hmem : parseOpcode instr ∉ knownOpcodes) :
    execute keccak po pc instr cd = Res.revert 0xf001c0de cd := by
  simp only [knownOpcodes, List.mem_cons, List.mem_singleton, List.not_mem_nil, or_false,
    not_or] at hmem
  obtain ⟨h1, h2, h3, h4, h5, h6, h7, h8, h9, h10, h11, h12, h13, h14, h15, h16, h17⟩ := hmem
  simp [execute, h1, h2, h3, h4, h5, h6, h7, h8, h9, h10, h11, h12, h13, h14, h15, h16, h17]

theorem execute_noop (keccak : List Byte → B32) (po : PreImageOracle) (pc instr : Nat)
    (cd : List Byte)
    (hop : parseOpcode instr = 0x0F ∨ parseOpcode instr = 0x07 ∨ parseOpcode instr = 0x27
      ∨ parseOpcode instr = 0x53) :
    execute keccak po pc instr cd = Res.ok () (withPC cd (add64 pc 4)) := by
  rcases hop with h | h | h | h <;> simp [execute, h, setPC_eq]

theorem execute_unknown_iff (keccak : List Byte → B32) (po : PreImageOracle) (pc instr : Nat)
    (cd : List Byte) :
    (∃ cd1, execute keccak po pc instr cd = Res.revert 0xf001c0de cd1)
      ↔ parseOpcode instr ∉ knownOpcodes := by
  constructor
  · rintro ⟨cd1, h⟩ hmem
    exact nuo_execute keccak po pc instr hmem cd _ cd1 h rfl
  · intro hmem
    exact ⟨cd, execute_unknown keccak po pc instr cd hmem⟩

theorem step_unknown_iff (keccak : List Byte → B32) (po : PreImageOracle) (cd : List Byte)
    (instr : Nat) (hlen : 4 + stateSize ≤ cd.length) (hex : getExited cd = false)
    (hfetch : loadMem keccak (pcOf cd) 4 false 0 0xff cd = Res.ok instr cd) :
    (∃ r, Step keccak po cd = some r ∧ r.outErr = some 0xf001c0de)
      ↔ parseOpcode instr ∉ knownOpcodes := by
  have hb : stepBody keccak po cd = execute keccak po (pcOf cd) instr cd := by
    simp only [stepBody, bind_apply, getPC, pcOf] at hfetch ⊢
    rw [hfetch]
  have hs : Step keccak po cd = match execute keccak po (pcOf cd) instr cd with
      | Res.ok _ cd1 => some ⟨zeroB32, none, cd1⟩
      | Res.revert code cd1 => some ⟨zeroB32, some code, cd1⟩ := by
    unfold Step
    rw [if_neg (by omega), hex, hb]
    rfl
  rw [hs, ← execute_unknown_iff keccak po (pcOf cd) instr cd]
  cases hx : execute keccak po (pcOf cd) instr cd with
  | ok a cd1 =>
    constructor
    · rintro ⟨r, h1, h2⟩
      cases h1
      simp at h2
    · rintro ⟨cd2, h⟩
      cases h
  | revert c cd1 =>
    constructor
    · rintro ⟨r, h1, h2⟩
      cases h1
      simp only [Option.some.injEq] at h2
      subst h2
      exact ⟨cd1, rfl⟩
    · rintro ⟨cd2, h⟩
      cases h
      exact ⟨_, rfl, rfl⟩

/-! ## Stores of more than eight bytes -/

theorem bind_of_ok {α β : Type} (m : M α) (f : α → M β) (cd cd1 : List Byte) (a : α)
    (h : m cd = Res.ok a cd1) : (m >>= f) cd = f a cd1 := by
  simp only [bind_apply, h]

theorem execute_store (keccak : List Byte → B32) (po : PreImageOracle) (pc instr : Nat)
    (cd : List Byte) (hop : parseOpcode instr = 0x23) :
    execute keccak po pc instr cd =
      (storeMem keccak
        (add64 (regOf cd (parseRs1 instr)) (signExtend64 (parseImmTypeS instr) 11))
        (shl64 (parseFunct3 instr) 1) (regOf cd (parseRs2 instr)) 1 2
          >>= fun _ => setPC (add64 pc 4)) cd := by
  simp [execute, hop, loadRegister_eq _ (parseRs1_le instr), loadRegister_eq _ (parseRs2_le instr)]

theorem execute_sc_size (keccak : List Byte → B32) (po : PreImageOracle) (pc instr : Nat)
    (cd : List Byte) (hop : parseOpcode instr = 0x2F)
    (hsz : lt64 (shl64 (parseFunct3 instr) 1) 4 = 0)
    (hop2 : shr64 2 (parseFunct7 instr) = 3) :
    execute keccak po pc instr cd =
      (do
        let rdValue ←
          (if eq64 (regOf cd (parseRs1 instr)) (loadReservationOf cd) ≠ 0 then do
            storeMem keccak (regOf cd (parseRs1 instr)) (shl64 (parseFunct3 instr) 1)
              (regOf cd (parseRs2 instr)) 1 2
            pure 0
          else pure 1 : M Nat)
        writeRegister (parseRd instr) rdValue
        setLoadReservation 0
        setPC (add64 pc 4)) cd := by
  simp [execute, hop, hsz, hop2, loadRegister_eq _ (parseRs1_le instr),
    loadRegister_eq _ (parseRs2_le instr), getLoadReservation_eq]

theorem execute_sc_eq_size (keccak : List Byte → B32) (po : PreImageOracle) (pc instr : Nat)
    (cd cd1 : List Byte) (hop : parseOpcode instr = 0x2F)
    (hsz : lt64 (shl64 (parseFunct3 instr) 1) 4 = 0)
    (hop2 : shr64 2 (parseFunct7 instr) = 3)
    (heq : regOf cd (parseRs1 instr) = loadReservationOf cd)
    (hstore : storeMem keccak (regOf cd (parseRs1 instr)) (shl64 (parseFunct3 instr) 1)
      (regOf cd (parseRs2 instr)) 1 2 cd = Res.ok () cd1) :
    execute keccak po pc instr cd = Res.ok ()
      (withPC (withLoadReservation (withRd cd1 (parseRd instr) 0) 0) (add64 pc 4)) := by
  rw [execute_sc_size keccak po pc instr cd hop hsz hop2]
  simp only [eq64, if_pos heq, ne_eq, one_ne_zero, not_false_eq_true, if_true, bind_apply,
    pure_apply, hstore, writeRegister_withRd _ _ (parseRd_le instr), setLoadReservation_eq,
    setPC_eq]

theorem cdAmo_store16 :
    storeMem sampleKeccak 0x1000 16 5 1 2 cdAmo = Res.ok ()
      (writeAt cdAmo 4 (foldRoot sampleKeccak (0x1000 >>> 5) 0 (patchedLeaf 0x1000 16 5 zeroB32)
        (List.replicate 59 zeroB32)).val) := by
  have hs : proofSiblings cdAmo 1 = List.replicate 59 zeroB32 := by decide!
  have ha : and64 0x1000 (not64 31) = 0x1000 := by decide!
  have := storeMem_inside_ok sampleKeccak 0x1000 16 5 1 2 cdAmo zeroB32 (by decide) (by decide)
    (by decide) (by rw [cdAmo_length]; decide!) (by decide!) (by rw [ha]; exact cdAmo_get)
  rw [hs, ha] at this
  exact this

theorem cdAmo_newRoot16 :
    foldRoot sampleKeccak (0x1000 >>> 5) 0 (patchedLeaf 0x1000 16 5 zeroB32)
      (List.replicate 59 zeroB32) ≠ ⟨zeroRoot, by decide⟩ := by decide!

theorem cdSc0_store16 :
    storeMem sampleKeccak 0 16 5 1 2 cdSc0 = Res.ok ()
      (writeAt cdSc0 4 (foldRoot sampleKeccak 0 0 (patchedLeaf 0 16 5 zeroB32)
        (List.replicate 59 zeroB32)).val) := by
  have hs : proofSiblings cdSc0 1 = List.replicate 59 zeroB32 := by decide!
  have := storeMem_inside_ok sampleKeccak 0 16 5 1 2 cdSc0 zeroB32 (by decide) (by decide)
    (by decide) (by rw [cdSc0_length]; decide!) (by decide!) cdSc0_get
  rw [hs] at this
  exact this

theorem cdSc0_newRoot16 :
    foldRoot sampleKeccak 0 0 (patchedLeaf 0 16 5 zeroB32) (List.replicate 59 zeroB32)
      ≠ ⟨zeroRoot0, by decide⟩ := by decide!

/-! ## Bytes of a big-endian word -/

theorem testBit_byte (b : Byte) (t : Nat) (h : 8 ≤ t) : b.val.testBit t = false :=
  Nat.testBit_lt_two_pow (lt_of_lt_of_le b.isLt (by
    calc 256 = 2 ^ 8 := by norm_num
      _ ≤ 2 ^ t := Nat.pow_le_pow_right (by decide) h))

theorem testBit_foldl (l : List Byte) : ∀ j,
    (l.foldl (fun (acc : Nat) (x : Byte) => acc * 256 + x.val) 0).testBit j
      = (decide (j < 8 * l.length) && (byteAt l (l.length - 1 - j / 8)).val.testBit (j % 8)) := by
  induction l using List.reverseRecOn with
  | nil => intro j; simp
  | append_singleton xs x ih =>
    intro j
    have hx : x.val < 2 ^ 8 := x.isLt
    have key := Nat.testBit_mul_pow_two_add
      (xs.foldl (fun (acc : Nat) (x : Byte) => acc * 256 + x.val) 0) hx j
    simp only [Nat.reducePow] at key
    rw [List.foldl_append, List.foldl_cons, List.foldl_nil, Nat.mul_comm _ 256, key, ih]
    simp only [List.length_append, List.length_singleton, byteAt]
    by_cases h8 : j < 8
    · have e1 : j / 8 = 0 := by omega
      have e2 : j % 8 = j := by omega
      have e3 : j < 8 * (xs.length + 1) := by omega
      simp [h8, e1, e2, e3]
    · have e1 : (j - 8) / 8 = j / 8 - 1 := by omega
      have e2 : (j - 8) % 8 = j % 8 := by omega
      rw [if_neg h8, e1, e2]
      by_cases hj : j < 8 * (xs.length + 1)
      · have e3 : j - 8 < 8 * xs.length := by omega
        have e4 : xs.length - 1 - (j / 8 - 1) = xs.length + 1 - 1 - j / 8 := by omega
        have e5 : xs.length + 1 - 1 - j / 8 < xs.length := by omega
        simp only [hj, e3, decide_True, Bool.true_and, e4, List.getElem?_append_left e5]
      · have e3 : ¬ (j - 8 < 8 * xs.length) := by omega
        simp [hj, e3]

theorem testBit_b32 (b : B32) (j : Nat) : (b32asBEWord b).testBit j = bitOf b.val j := by
  unfold b32asBEWord bitOf
  rw [testBit_foldl, b.property]

theorem byteAt_beWordAsB32 (w i : Nat) (h : i < 32) :
    byteAt (beWordAsB32 w).val i = toByte (w / 256 ^ (31 - i)) := by
  unfold byteAt beWordAsB32
  simp only [List.getElem?_map, List.getElem?_range h, Option.map_some', Option.getD_some]

theorem testBit_toByte_div (w i t : Nat) :
    (toByte (w / 256 ^ (31 - i))).val.testBit t
      = (decide (t < 8) && w.testBit (8 * (31 - i) + t)) := by
  unfold toByte
  have e : (256 : Nat) ^ (31 - i) = 2 ^ (8 * (31 - i)) := by
    rw [Nat.pow_mul]
  show ((w / 256 ^ (31 - i)) % 256).testBit t = _
  have key := Nat.testBit_mod_two_pow (w >>> (8 * (31 - i))) 8 t
  simp only [Nat.reducePow] at key
  rw [e, ← Nat.shiftRight_eq_div_pow, key, Nat.testBit_shiftRight]

theorem beWordAsB32_of_bits (w : Nat) (l : List Byte) (hl : l.length = 32)
    (h : ∀ j, j < 256 → w.testBit j = bitOf l j) : (beWordAsB32 w).val = l := by
  apply List.ext_getElem?
  intro i
  by_cases hi : i < 32
  · have h1 : (beWordAsB32 w).val[i]? = some (byteAt (beWordAsB32 w).val i) := by
      unfold byteAt
      rw [List.getElem?_eq_getElem (by rw [(beWordAsB32 w).property]; exact hi)]
      rfl
    have h2 : l[i]? = some (byteAt l i) := by
      unfold byteAt
      rw [List.getElem?_eq_getElem (by rw [hl]; exact hi)]
      rfl
    rw [h1, h2, byteAt_beWordAsB32 w i hi]
    congr 1
    apply Fin.ext
    apply Nat.eq_of_testBit_eq
    intro t
    rw [testBit_toByte_div]
    by_cases ht : t < 8
    · have e1 : 31 - (8 * (31 - i) + t) / 8 = i := by omega
      have e2 : (8 * (31 - i) + t) % 8 = t := by omega
      have e3 : 8 * (31 - i) + t < 256 := by omega
      rw [h _ e3]
      simp [bitOf, ht, e1, e2, e3]
    · rw [testBit_byte _ _ (by omega)]
      simp [ht]
  · rw [List.getElem?_eq_none (by rw [(beWordAsB32 w).property]; omega),
      List.getElem?_eq_none (by rw [hl]; omega)]

theorem b32_beWord (w : Nat) (h : w < 2 ^ 256) : b32asBEWord (beWordAsB32 w) = w := by
  apply Nat.eq_of_testBit_eq
  intro j
  rw [testBit_b32]
  unfold bitOf
  by_cases hj : j < 256
  · have hi : 31 - j / 8 < 32 := by omega
    have e1 : 8 * (31 - (31 - j / 8)) + j % 8 = j := by omega
    have e2 : j % 8 < 8 := by omega
    rw [byteAt_beWordAsB32 w _ hi, testBit_toByte_div, e1]
    simp [hj, e2]
  · have : w.testBit j = false :=
      Nat.testBit_lt_two_pow (lt_of_lt_of_le h (Nat.pow_le_pow_right (by decide) (by omega)))
    simp [hj, this]

theorem byteAt_lt (l : List Byte) (i : Nat) (h : i < l.length) : l[i]? = some (byteAt l i) := by
  unfold byteAt
  rw [List.getElem?_eq_getElem h]
  rfl

theorem byteAt_ge (l : List Byte) (i : Nat) (h : l.length ≤ i) : byteAt l i = 0 := by
  unfold byteAt
  rw [List.getElem?_eq_none h]
  rfl

theorem byteAt_drop (l : List Byte) (n i : Nat) : byteAt (l.drop n) i = byteAt l (n + i) := by
  unfold byteAt
  rw [List.getElem?_drop]

theorem byteAt_take (l : List Byte) (n i : Nat) (h : i < n) :
    byteAt (l.take n) i = byteAt l i := by
  unfold byteAt
  rw [List.getElem?_take, if_pos h]

theorem byteAt_append_left (l1 l2 : List Byte) (i : Nat) (h : i < l1.length) :
    byteAt (l1 ++ l2) i = byteAt l1 i := by
  unfold byteAt
  rw [List.getElem?_append_left h]

theorem byteAt_append_right (l1 l2 : List Byte) (i : Nat) (h : l1.length ≤ i) :
    byteAt (l1 ++ l2) i = byteAt l2 (i - l1.length) := by
  unfold byteAt
  rw [List.getElem?_append_right h]

theorem shl_eq (s v : Nat) : shl s v = (v <<< s) % 2 ^ 256 := rfl

theorem shl64_3 (n : Nat) (h : n ≤ 32) : shl64 3 n = 8 * n := by
  unfold shl64
  rw [Nat.shiftLeft_eq]
  simp only [Nat.reducePow]
  omega

theorem shl_3 (n : Nat) (h : n ≤ 32) : shl 3 n = 8 * n := by
  unfold shl
  rw [Nat.shiftLeft_eq]
  simp only [Nat.reducePow]
  omega

theorem sub64_32 (n : Nat) (h : n ≤ 32) : sub64 32 n = 32 - n := by
  unfold sub64
  simp only [Nat.reducePow]
  omega

theorem and64_31 (x : Nat) : and64 x 31 = x % 32 :=
  Nat.and_pow_two_sub_one_eq_mod x 5

theorem clip_count (count m : Nat) :
    (if gt64 count m ≠ 0 then m else count) = min count m := by
  unfold gt64
  by_cases h : m < count
  · simp [h, Nat.min_eq_right (Nat.le_of_lt h)]
  · simp [h, Nat.min_eq_left (Nat.le_of_not_lt h)]

/-! ## The key of the pre-image oracle -/

theorem keyWord_bits (k l a c j : Nat) (hac : a + c ≤ 32) (hj : j < 256) :
    (or (shl (8 * c) k) (shr (8 * (32 - c)) (shl (8 * a) l))).testBit j
      = if 8 * c ≤ j then k.testBit (j - 8 * c) else l.testBit (8 * (32 - c - a) + j) := by
  unfold or shl shr
  rw [Nat.testBit_or, Nat.testBit_mod_two_pow, Nat.testBit_shiftLeft, Nat.testBit_shiftRight,
    Nat.testBit_mod_two_pow, Nat.testBit_shiftLeft]
  by_cases h : 8 * c ≤ j
  · have e1 : ¬ (8 * (32 - c) + j < 256) := by omega
    simp [hj, h, e1]
  · have e1 : 8 * (32 - c) + j < 256 := by omega
    have e2 : 8 * a ≤ 8 * (32 - c) + j := by omega
    have e3 : 8 * (32 - c) + j - 8 * a = 8 * (32 - c - a) + j := by omega
    simp [hj, h, e1, e2, e3]

theorem newKey_bytes (key leaf : B32) (a c : Nat) (hac : a + c ≤ 32) :
    (beWordAsB32 (or (shl (8 * c) (b32asBEWord key))
      (shr (8 * (32 - c)) (shl (8 * a) (b32asBEWord leaf))))).val
      = key.val.drop c ++ (leaf.val.drop a).take c := by
  have hk := key.property
  have hl := leaf.property
  have hlen1 : (key.val.drop c).length = 32 - c := by rw [List.length_drop, hk]
  have hlen2 : ((leaf.val.drop a).take c).length = c := by
    rw [List.length_take, List.length_drop, hl]; omega
  apply beWordAsB32_of_bits
  · rw [List.length_append, hlen1, hlen2]; omega
  · intro j hj
    rw [keyWord_bits _ _ a c j hac hj, testBit_b32, testBit_b32]
    unfold bitOf
    by_cases h : 8 * c ≤ j
    · have e1 : 31 - j / 8 < (key.val.drop c).length := by rw [hlen1]; omega
      have e2 : c + (31 - j / 8) = 31 - (j - 8 * c) / 8 := by omega
      have e3 : (j - 8 * c) % 8 = j % 8 := by omega
      have e4 : j - 8 * c < 256 := by omega
      rw [if_pos h, byteAt_append_left _ _ _ e1, byteAt_drop, e2, e3]
      simp [hj, e4]
    · have e1 : (key.val.drop c).length ≤ 31 - j / 8 := by rw [hlen1]; omega
      have e2 : 31 - j / 8 - (32 - c) < c := by omega
      have e3 : a + (31 - j / 8 - (32 - c)) = 31 - (8 * (32 - c - a) + j) / 8 := by omega
      have e4 : (8 * (32 - c - a) + j) % 8 = j % 8 := by omega
      have e5 : 8 * (32 - c - a) + j < 256 := by omega
      rw [if_neg h, byteAt_append_right _ _ _ e1, hlen1, byteAt_take _ _ _ e2, byteAt_drop, e3, e4]
      simp [hj, e5]

theorem keyWord_lt (k l a c : Nat) :
    or (shl (8 * c) k) (shr (8 * (32 - c)) (shl (8 * a) l)) < 2 ^ 256 := by
  unfold or shl shr
  apply Nat.or_lt_two_pow (Nat.mod_lt _ (by positivity))
  rw [Nat.shiftRight_eq_div_pow]
  exact lt_of_le_of_lt (Nat.div_le_self _ _) (Nat.mod_lt _ (by positivity))

theorem datWord_eq (leaf : B32) (a c : Nat) (hac : a + c ≤ 32) :
    shr (8 * (32 - c)) (shl (8 * a) (b32asBEWord leaf))
      = ((leaf.val.drop a).take c).foldl (fun (acc : Nat) (x : Byte) => acc * 256 + x.val) 0 := by
  have hl := leaf.property
  have hlen2 : ((leaf.val.drop a).take c).length = c := by
    rw [List.length_take, List.length_drop, hl]; omega
  apply Nat.eq_of_testBit_eq
  intro j
  unfold shr shl
  rw [Nat.testBit_shiftRight, Nat.testBit_mod_two_pow, Nat.testBit_shiftLeft, testBit_b32,
    testBit_foldl, hlen2]
  unfold bitOf
  by_cases h : j < 8 * c
  · have e1 : 8 * (32 - c) + j < 256 := by omega
    have e2 : 8 * a ≤ 8 * (32 - c) + j := by omega
    have e3 : 8 * (32 - c) + j - 8 * a < 256 := by omega
    have e4 : c - 1 - j / 8 < c := by omega
    have e5 : 31 - (8 * (32 - c) + j - 8 * a) / 8 = a + (c - 1 - j / 8) := by omega
    have e6 : (8 * (32 - c) + j - 8 * a) % 8 = j % 8 := by omega
    rw [byteAt_take _ _ _ e4, byteAt_drop, e5, e6]
    simp [h, e1, e2, e3]
  · have e1 : ¬ (8 * (32 - c) + j < 256) := by omega
    simp [h, e1]

theorem writePreimageKey_eq (keccak : List Byte → B32) (addr count : Nat) (cd : List Byte)
    (leaf : B32)
    (hget : getMemoryB32 keccak (sub64 addr (and64 addr 31)) 1 cd = Res.ok leaf cd) :
    writePreimageKey keccak addr count cd = Res.ok (min count (32 - addr % 32))
      (withPreimageOffset (withPreimageKey cd
        (beWordAsB32 (or (shl (8 * min count (32 - addr % 32)) (b32asBEWord (preimageKeyOf cd)))
          (shr (8 * (32 - min count (32 - addr % 32)))
            (shl (8 * (addr % 32)) (b32asBEWord leaf)))))) 0) := by
  have ha : addr % 32 ≤ 32 := by omega
  have hc : min count (32 - addr % 32) ≤ 32 := by omega
  rw [and64_31] at hget
  unfold writePreimageKey
  simp only [bind_apply, pure_apply, and64_31, hget, sub64_32 _ ha, clip_count, shl64_3 _ ha,
    shl_3 _ hc, sub64_32 _ hc, shl64_3 _ (Nat.sub_le 32 _), getPreimageKey, setPreimageKey,
    setPreimageOffset, writeState]
  rfl

theorem preimage_state (cd : List Byte) (k : B32) (v : Nat) (h : 4 + stateSize ≤ cd.length) :
    preimageKeyOf (withPreimageOffset (withPreimageKey cd k) v) = k ∧
      preimageOffsetOf (withPreimageOffset (withPreimageKey cd k) v) = v % 2 ^ 64 := by
  obtain ⟨e1, e2, e3, e4, e5, e6, e7, e8, e9⟩ := offsets_eq
  have hk := k.property
  have hl : (withPreimageKey cd k).length = cd.length :=
    length_writeAt _ _ _ (by rw [hk]; omega)
  constructor
  · unfold preimageKeyOf withPreimageOffset
    rw [readState_writeAt_other _ _ 32 _ _ (by rw [length_encodeU64]; omega)
      (by rw [length_encodeU64]; omega)]
    have := readState_writeAt_same cd stateOffsetPreimageKey k.val (by rw [hk]; omega)
    rw [hk] at this
    unfold withPreimageKey
    rw [this, padB32_val]
  · unfold preimageOffsetOf withPreimageOffset
    exact field_write_same _ _ v (by omega) (by omega)

/-! ## The value of the pre-image oracle -/

theorem mask0_eq (n : Nat) (hn : n ≤ 32) :
    not (sub (shl (8 * (32 - n)) 1) 1) = 2 ^ 256 - ((2 ^ (8 * (32 - n)) - 1) + 1) := by
  unfold not sub shl
  rw [Nat.shiftLeft_eq, Nat.one_mul]
  have h1 : 1 ≤ 2 ^ (8 * (32 - n)) := Nat.one_le_two_pow
  have h2 : 2 ^ (8 * (32 - n)) ≤ 2 ^ 256 := Nat.pow_le_pow_right (by decide) (by omega)
  generalize 2 ^ (8 * (32 - n)) = X at h1 h2 ⊢
  simp only [Nat.reducePow] at *
  omega

theorem mask_bits (a n j : Nat) (han : a + n ≤ 32) :
    (shr (8 * a) (not (sub (shl (8 * (32 - n)) 1) 1))).testBit j
      = decide (8 * (32 - a - n) ≤ j ∧ j < 8 * (32 - a)) := by
  have h2 : 2 ^ (8 * (32 - n)) - 1 < 2 ^ 256 :=
    lt_of_lt_of_le (Nat.sub_lt Nat.one_le_two_pow (by decide))
      (Nat.pow_le_pow_right (by decide) (by omega))
  unfold shr
  rw [mask0_eq n (by omega), Nat.testBit_shiftRight, Nat.testBit_two_pow_sub_succ h2,
    Nat.testBit_two_pow_sub_one]
  by_cases h : 8 * (32 - a - n) ≤ j ∧ j < 8 * (32 - a)
  · have e1 : 8 * a + j < 256 := by omega
    have e2 : ¬ (8 * a + j < 8 * (32 - n)) := by omega
    simp [h, e1, e2]
  · by_cases e1 : 8 * a + j < 256
    · have e2 : 8 * a + j < 8 * (32 - n) := by omega
      simp [h, e1, e2]
    · simp [h, e1]

theorem mask_lt (a n : Nat) : shr (8 * a) (not (sub (shl (8 * (32 - n)) 1) 1)) < 2 ^ 256 := by
  unfold shr not
  rw [Nat.shiftRight_eq_div_pow]
  refine lt_of_le_of_lt (Nat.div_le_self _ _) ?_
  have : 0 < 2 ^ 256 := by positivity
  omega

theorem blend_bits (N P a n j : Nat) (han : a + n ≤ 32) (hj : j < 256) :
    (or (and N (not (shr (8 * a) (not (sub (shl (8 * (32 - n)) 1) 1)))))
      (and (shr (8 * a) P) (shr (8 * a) (not (sub (shl (8 * (32 - n)) 1) 1))))).testBit j
      = if 8 * (32 - a - n) ≤ j ∧ j < 8 * (32 - a) then P.testBit (8 * a + j)
        else N.testBit j := by
  have hm := mask_lt a n
  have hnot : not (shr (8 * a) (not (sub (shl (8 * (32 - n)) 1) 1)))
      = 2 ^ 256 - (shr (8 * a) (not (sub (shl (8 * (32 - n)) 1) 1)) + 1) := by
    generalize shr (8 * a) (not (sub (shl (8 * (32 - n)) 1) 1)) = m at hm ⊢
    unfold not
    rw [Nat.mod_eq_of_lt hm]
    omega
  unfold or and
  rw [Nat.testBit_or, Nat.testBit_and, Nat.testBit_and, hnot, Nat.testBit_two_pow_sub_succ hm,
    mask_bits a n j han]
  unfold shr
  rw [Nat.testBit_shiftRight]
  by_cases h : 8 * (32 - a - n) ≤ j ∧ j < 8 * (32 - a)
  · simp [h, hj]
  · simp [h, hj]

theorem blend_lt (N P a n : Nat) (hN : N < 2 ^ 256) :
    or (and N (not (shr (8 * a) (not (sub (shl (8 * (32 - n)) 1) 1)))))
      (and (shr (8 * a) P) (shr (8 * a) (not (sub (shl (8 * (32 - n)) 1) 1)))) < 2 ^ 256 := by
  unfold or and
  exact Nat.or_lt_two_pow (lt_of_le_of_lt Nat.and_le_left hN)
    (lt_of_le_of_lt Nat.and_le_right (mask_lt a n))

theorem newLeaf_bytes (leaf chunk : B32) (a n : Nat) (han : a + n ≤ 32) :
    (beWordAsB32 (or (and (b32asBEWord leaf)
        (not (shr (8 * a) (not (sub (shl (8 * (32 - n)) 1) 1)))))
      (and (shr (8 * a) (b32asBEWord chunk))
        (shr (8 * a) (not (sub (shl (8 * (32 - n)) 1) 1)))))).val
      = leaf.val.take a ++ chunk.val.take n ++ leaf.val.drop (a + n) := by
  have hl := leaf.property
  have hc := chunk.property
  have hlen1 : (leaf.val.take a).length = a := by rw [List.length_take, hl]; omega
  have hlen2 : (chunk.val.take n).length = n := by rw [List.length_take, hc]; omega
  have hlen3 : (leaf.val.drop (a + n)).length = 32 - (a + n) := by rw [List.length_drop, hl]
  have hlen12 : (leaf.val.take a ++ chunk.val.take n).length = a + n := by
    rw [List.length_append, hlen1, hlen2]
  apply beWordAsB32_of_bits
  · rw [List.length_append, hlen12, hlen3]; omega
  · intro j hj
    rw [blend_bits _ _ a n j han hj, testBit_b32, testBit_b32]
    unfold bitOf
    by_cases h : 8 * (32 - a - n) ≤ j ∧ j < 8 * (32 - a)
    · have e0 : 31 - j / 8 < (leaf.val.take a ++ chunk.val.take n).length := by
        rw [hlen12]; omega
      have e1 : (leaf.val.take a).length ≤ 31 - j / 8 := by rw [hlen1]; omega
      have e2 : 31 - j / 8 - a < n := by omega
      have e3 : 31 - (8 * a + j) / 8 = 31 - j / 8 - a := by omega
      have e4 : (8 * a + j) % 8 = j % 8 := by omega
      have e5 : 8 * a + j < 256 := by omega
      rw [if_pos h, byteAt_append_left _ _ _ e0, byteAt_append_right _ _ _ e1, hlen1,
        byteAt_take _ _ _ e2, e3, e4]
      simp [hj, e5]
    · rw [if_neg h]
      by_cases hlow : 31 - j / 8 < a
      · have e0 : 31 - j / 8 < (leaf.val.take a ++ chunk.val.take n).length := by
          rw [hlen12]; omega
        have e1 : 31 - j / 8 < (leaf.val.take a).length := by rw [hlen1]; exact hlow
        rw [byteAt_append_left _ _ _ e0, byteAt_append_left _ _ _ e1, byteAt_take _ _ _ hlow]
      · have e0 : (leaf.val.take a ++ chunk.val.take n).length ≤ 31 - j / 8 := by
          rw [hlen12]; omega
        have e1 : a + n + (31 - j / 8 - (a + n)) = 31 - j / 8 := by omega
        rw [byteAt_append_right _ _ _ e0, hlen12, byteAt_drop, e1]

theorem getMemoryB32_frame (keccak : List Byte → B32) (addr proofIndex : Nat)
    (cd : List Byte) (leaf : B32) (off : Nat) (bs : List Byte) (hpi : proofIndex < 256)
    (hlen : proofOffset proofIndex + 64 * 32 ≤ cd.length) (h32 : 32 ≤ off)
    (hoff : off + bs.length ≤ stateSize)
    (hget : getMemoryB32 keccak addr proofIndex cd = Res.ok leaf cd) :
    getMemoryB32 keccak addr proofIndex (writeAt cd (4 + off) bs)
        = Res.ok leaf (writeAt cd (4 + off) bs) ∧
      proofSiblings (writeAt cd (4 + off) bs) proofIndex = proofSiblings cd proofIndex := by
  have hpo := proofOffset_eq proofIndex hpi
  rw [stateSize_eq] at hoff
  have hl : (writeAt cd (4 + off) bs).length = cd.length := length_writeAt _ _ _ (by omega)
  have hroot : memRootOf (writeAt cd (4 + off) bs) = memRootOf cd :=
    memRootOf_writeAt cd off bs (by omega) h32
  have hslot : proofSlot (writeAt cd (4 + off) bs) proofIndex 0 = proofSlot cd proofIndex 0 := by
    unfold proofSlot
    rw [Nat.mul_zero, Nat.add_zero, padB32_drop, padB32_drop cd,
      slice_writeAt_disjoint cd _ _ _ 32 (by omega) (Or.inr (by omega))]
  have hsib : proofSiblings (writeAt cd (4 + off) bs) proofIndex = proofSiblings cd proofIndex := by
    unfold proofSiblings
    apply slotsOf_congr
    intro o h1 h2
    rw [slice_writeAt_disjoint cd _ _ o 32 (by omega) (Or.inr (by omega))]
  refine ⟨?_, hsib⟩
  rw [getMemoryB32_eq keccak addr proofIndex cd hpi hlen] at hget
  rw [getMemoryB32_eq keccak addr proofIndex _ hpi (by omega), hslot, hsib, hroot]
  split at hget
  · cases hget
  · rename_i ha
    rw [if_neg ha]
    split at hget
    · rename_i hr
      rw [if_pos hr]
      cases hget
      rfl
    · cases hget

theorem readPreimageValue_eof (keccak : List Byte → B32) (po : PreImageOracle)
    (addr count : Nat) (cd : List Byte) (chunk : B32) (len : Byte)
    (hpo : po (preimageKeyOf cd) (preimageOffsetOf cd) = some (chunk, len))
    (h0 : len.val = 0) : readPreimageValue keccak po addr count cd = Res.ok 0 cd := by
  unfold readPreimageValue
  simp only [bind_apply, getPreimageKey, getPreimageOffset]
  have hpo2 : po (padB32 (readState stateOffsetPreimageKey 32 cd))
      (decodeU64 (readState stateOffsetPreimageOffset 8 cd)) = some (chunk, len) := hpo
  rw [hpo2]
  simp [iszero64, h0]

theorem readPreimageValue_eq (keccak : List Byte → B32) (po : PreImageOracle)
    (addr count : Nat) (cd : List Byte) (chunk : B32) (len : Byte)
    (hpo : po (preimageKeyOf cd) (preimageOffsetOf cd) = some (chunk, len))
    (h0 : len.val ≠ 0) :
    readPreimageValue keccak po addr count cd =
      (do
        setPreimageOffset (add64 (preimageOffsetOf cd) (min (min count (32 - addr % 32)) len.val))
        let node ← getMemoryB32 keccak (sub64 addr (and64 addr 31)) 1
        setMemoryB32 keccak (sub64 addr (and64 addr 31))
          (beWordAsB32 (or (and (b32asBEWord node)
              (not (shr (8 * (addr % 32))
                (not (sub (shl (8 * (32 - min (min count (32 - addr % 32)) len.val)) 1) 1)))))
            (and (shr (8 * (addr % 32)) (b32asBEWord chunk))
              (shr (8 * (addr % 32))
                (not (sub (shl (8 * (32 - min (min count (32 - addr % 32)) len.val)) 1) 1)))))) 1
        pure (min (min count (32 - addr % 32)) len.val)) cd := by
  have ha : addr % 32 ≤ 32 := by omega
  have hn : min (min count (32 - addr % 32)) len.val ≤ 32 := by omega
  have hpo2 : po (padB32 (readState stateOffsetPreimageKey 32 cd))
      (decodeU64 (readState stateOffsetPreimageOffset 8 cd)) = some (chunk, len) := hpo
  unfold readPreimageValue
  simp only [bind_apply, getPreimageKey, getPreimageOffset]
  rw [hpo2]
  simp only [iszero64, h0, decide_False, Bool.false_eq_true, if_false, bind_apply, pure_apply,
    and64_31, sub64_32 _ ha, clip_count, shl64_3 _ ha, sub64_32 _ hn,
    shl64_3 _ (Nat.sub_le 32 _), preimageOffsetOf]

theorem aligned_of_get (keccak : List Byte → B32) (addr proofIndex : Nat) (cd : List Byte)
    (leaf : B32) (hget : getMemoryB32 keccak addr proofIndex cd = Res.ok leaf cd) :
    and64 addr 31 = 0 := by
  by_contra h
  unfold getMemoryB32 at hget
  simp [h] at hget

theorem preimageOffsetOf_setRoot (cd : List Byte) (root : B32) (h : 4 + stateSize ≤ cd.length) :
    preimageOffsetOf (writeAt cd 4 root.val) = preimageOffsetOf cd := by
  obtain ⟨e1, e2, e3, e4, e5, e6, e7, e8, e9⟩ := offsets_eq
  unfold preimageOffsetOf
  show decodeU64 (readState _ 8 (writeAt cd (4 + 0) root.val)) = _
  rw [readState_writeAt_other cd _ 8 0 _ (by rw [root.property]; omega)
    (by rw [root.property]; omega)]

/-! ## Upper immediates and jump offsets -/

theorem shiftLeft_or (a b k : Nat) : (a ||| b) <<< k = a <<< k ||| b <<< k := by
  apply Nat.eq_of_testBit_eq
  intro i
  simp only [Nat.testBit_shiftLeft, Nat.testBit_or]
  cases decide (i ≥ k) <;> simp

theorem lui_value (b : Nat) (hb : b < 2 ^ 20) :
    shl64 12 (signExtend64 b 19) % 2 ^ 64 = signExtend64 (b <<< 12) 31 ∧
      shl64 12 (signExtend64 b 19) % 2 ^ 64 % 2 ^ 32 = b * 4096 ∧
      (b.testBit 19 = true → shl64 12 (signExtend64 b 19) % 2 ^ 64 / 2 ^ 32 = 2 ^ 32 - 1) ∧
      (b.testBit 19 = false → shl64 12 (signExtend64 b 19) % 2 ^ 64 / 2 ^ 32 = 0) := by
  unfold shl64 signExtend64
  simp only [Nat.testBit_to_div_mod, Nat.shiftLeft_eq, Nat.reducePow, ge_iff_le,
    Nat.reduceLeDiff, if_false, Nat.reduceAdd, decide_eq_true_eq, decide_eq_false_iff_not] at *
  refine ⟨?_, ?_, ?_, ?_⟩
  · split <;> split <;> omega
  · split <;> omega
  · intro h; rw [if_pos h]; omega
  · intro h; rw [if_neg h]; omega

theorem testBit_bits_31_12 (instr : Nat) : (bits 31 12 instr).testBit 19 = instr.testBit 31 := by
  unfold bits
  rw [Nat.testBit_mod_two_pow, Nat.testBit_shiftRight]
  simp

theorem jal_value (h : Nat) (hh : h < 2 ^ 20) :
    signExtend64 (shl64 1 (signExtend64 h 19)) 20 = signExtend64 (h <<< 1) 20 := by
  unfold shl64 signExtend64
  simp only [Nat.testBit_to_div_mod, Nat.shiftLeft_eq, Nat.reducePow, ge_iff_le,
    Nat.reduceLeDiff, if_false, Nat.reduceAdd, decide_eq_true_eq] at *
  split <;> split <;> (try split) <;> omega

theorem jField_lt (instr : Nat) :
    (bits 31 31 instr <<< 19) ||| (bits 19 12 instr <<< 11) ||| (bits 20 20 instr <<< 10)
      ||| bits 30 21 instr < 2 ^ 20 := by
  have h1 := bits_lt 31 31 instr
  have h2 := bits_lt 19 12 instr
  have h3 := bits_lt 20 20 instr
  have h4 := bits_lt 30 21 instr
  simp only [Nat.reduceAdd, Nat.reduceSub, Nat.reducePow] at h1 h2 h3 h4
  refine Nat.or_lt_two_pow (Nat.or_lt_two_pow (Nat.or_lt_two_pow ?_ ?_) ?_) ?_
  · rw [Nat.shiftLeft_eq]; omega
  · rw [Nat.shiftLeft_eq]; omega
  · rw [Nat.shiftLeft_eq]; omega
  · omega

/-- The offset that line 866 adds to `pc` is the J-type immediate of the specification. -/
theorem jal_offset (instr : Nat) :
    signExtend64 (shl64 1 (parseImmTypeJ instr)) 20 = immJ instr := by
  unfold parseImmTypeJ immJ
  rw [jal_value _ (jField_lt instr), shiftLeft_or, shiftLeft_or, shiftLeft_or,
    ← Nat.shiftLeft_add, ← Nat.shiftLeft_add, ← Nat.shiftLeft_add]

/-- The JAL arm of the switch: `x[rd] = pc + 4` (no write when `rd = 0`) and
`pc = pc + immJ`, both modulo `2^64`. -/
theorem jal_arm (keccak : List Byte → B32) (po : PreImageOracle) (pc instr : Nat)
    (cd : List Byte) (hlen : 4 + stateSize ≤ cd.length) (hop : parseOpcode instr = 0x6F) :
    ∃ cd1, execute keccak po pc instr cd = Res.ok () cd1 ∧
      pcOf cd1 = add64 pc (immJ instr) ∧
      (parseRd instr ≠ 0 → regOf cd1 (parseRd instr) = add64 pc 4) ∧
      (∀ q, q ≤ 31 → q ≠ parseRd instr → regOf cd1 q = regOf cd q) := by
  have hs := jump_state cd (parseRd instr) (add64 pc 4)
    (add64 pc (signExtend64 (shl64 1 (parseImmTypeJ instr)) 20)) (parseRd_le instr) hlen
  rw [add64_mod, add64_mod, jal_offset] at hs
  have hex := execute_jal keccak po pc instr cd hop
  rw [jal_offset] at hex
  exact ⟨_, hex, hs⟩

theorem jal_arm_sample :
    immJ 0x008000EF = 8 ∧
      ∃ cd1, execute sampleKeccak sampleOracle 0x100 0x008000EF cdJal = Res.ok () cd1 ∧
        pcOf cd1 = 0x108 ∧ regOf cd1 1 = 0x104 := by
  obtain ⟨cd1, h1, h2, h3, _⟩ := jal_arm sampleKeccak sampleOracle 0x100 0x008000EF cdJal
    (by decide!) (by decide!)
  have hi : immJ 0x008000EF = 8 := by decide!
  have hr : parseRd 0x008000EF = 1 := by decide!
  rw [hi] at h2
  rw [hr] at h3
  exact ⟨hi, cd1, h1, h2, h3 (by decide)⟩

theorem cdJal_length : cdJal.length = 2414 := by decide!

theorem cdJal_fetch :
    getMemoryB32 sampleKeccak 0 0 cdJal = Res.ok (padB32 jalLeaf) cdJal :=
  getMemoryB32_ok sampleKeccak 0 0 cdJal (padB32 jalLeaf) (List.replicate 59 zeroB32)
    (by decide) (by rw [cdJal_length]; decide!) (by decide!) (by decide!) (by decide!)
    (by decide!)

/-! ## A load-reserved followed by a store-conditional -/

/-- A load-reserved at address `A = x[rs1]` whose load succeeds completes and leaves
`loadReservation = A`.  On the state it leaves, a store-conditional whose address is `A`
completes whenever its store of `rs2` succeeds, with that store performed (`memRoot` is the one
the store left) and 0 in `rd`; a store-conditional whose address differs from `A` completes
with 1 in `rd` and `memRoot` unchanged; in both cases `loadReservation` is 0 afterwards. -/
theorem lr_then_sc (keccak : List Byte → B32) (po : PreImageOracle) (pc pc2 lr sc : Nat)
    (cd : List Byte) (v : Nat) (hlen : 4 + stateSize ≤ cd.length)
    (hlr1 : parseOpcode lr = 0x2F) (hlr2 : parseFunct3 lr = 2 ∨ parseFunct3 lr = 3)
    (hlr3 : shr64 2 (parseFunct7 lr) = 2)
    (hsc1 : parseOpcode sc = 0x2F) (hsc2 : parseFunct3 sc = 2 ∨ parseFunct3 sc = 3)
    (hsc3 : shr64 2 (parseFunct7 sc) = 3)
    (hload : loadMem keccak (regOf cd (parseRs1 lr)) (shl64 (parseFunct3 lr) 1) true 1 2 cd
      = Res.ok v cd) :
    ∃ cd1, execute keccak po pc lr cd = Res.ok () cd1 ∧
      loadReservationOf cd1 = regOf cd (parseRs1 lr) ∧
      (regOf cd1 (parseRs1 sc) = regOf cd (parseRs1 lr) →
        ∀ cd2, storeMem keccak (regOf cd1 (parseRs1 sc)) (shl64 (parseFunct3 sc) 1)
            (regOf cd1 (parseRs2 sc)) 1 2 cd1 = Res.ok () cd2 →
          ∃ cd3, execute keccak po pc2 sc cd1 = Res.ok () cd3 ∧
            (parseRd sc ≠ 0 → regOf cd3 (parseRd sc) = 0) ∧
            memRootOf cd3 = memRootOf cd2 ∧ loadReservationOf cd3 = 0) ∧
      (regOf cd1 (parseRs1 sc) ≠ regOf cd (parseRs1 lr) →
        ∃ cd3, execute keccak po pc2 sc cd1 = Res.ok () cd3 ∧
          (parseRd sc ≠ 0 → regOf cd3 (parseRd sc) = 1) ∧
          memRootOf cd3 = memRootOf cd1 ∧ loadReservationOf cd3 = 0) := by
  have hrd := parseRd_le lr
  have hrd2 := parseRd_le sc
  have hA : regOf cd (parseRs1 lr) % 2 ^ 64 = regOf cd (parseRs1 lr) :=
    Nat.mod_eq_of_lt (regOf_lt _ _)
  have hl1 : (withRd cd (parseRd lr) v).length = cd.length := length_withRd _ _ _ hrd hlen
  have hl2 : (withLoadReservation (withRd cd (parseRd lr) v) (regOf cd (parseRs1 lr))).length
      = cd.length := by rw [length_withLoadReservation _ _ (by omega), hl1]
  have hl3 : (withPC (withLoadReservation (withRd cd (parseRd lr) v) (regOf cd (parseRs1 lr)))
      (add64 pc 4)).length = cd.length := by rw [length_withPC _ _ (by omega), hl2]
  have hres : loadReservationOf (withPC (withLoadReservation (withRd cd (parseRd lr) v)
      (regOf cd (parseRs1 lr))) (add64 pc 4)) = regOf cd (parseRs1 lr) := by
    rw [loadReservationOf_withPC _ _ (by omega),
      loadReservationOf_withLoadReservation _ _ (by omega), hA]
  refine ⟨_, execute_lr_ok keccak po pc lr cd v hlr1 hlr2 hlr3 hload, hres, ?_, ?_⟩
  · intro heq cd2 hstore
    generalize withPC (withLoadReservation (withRd cd (parseRd lr) v) (regOf cd (parseRs1 lr)))
      (add64 pc 4) = cd1 at hl3 hres heq hstore ⊢
    have hlen1 : 4 + stateSize ≤ cd1.length := by omega
    have hlc2 := storeMem_length keccak _ _ _ _ _ cd1 cd2 hlen1 hstore
    have hlen2 : 4 + stateSize ≤ cd2.length := by omega
    have h4 : (withRd cd2 (parseRd sc) 0).length = cd2.length := length_withRd _ _ _ hrd2 hlen2
    have h5 : (withLoadReservation (withRd cd2 (parseRd sc) 0) 0).length = cd2.length := by
      rw [length_withLoadReservation _ _ (by omega), h4]
    refine ⟨_, execute_sc_eq keccak po pc2 sc cd1 cd2 hsc1 hsc2 hsc3 (by rw [hres, heq]) hstore,
      ?_, ?_, ?_⟩
    · intro h0
      rw [regOf_withPC _ _ _ (by omega),
        regOf_withLoadReservation _ _ _ (by omega) (by omega),
        regOf_withRd_same _ _ _ hrd2 h0 hlen2]
      rfl
    · rw [memRootOf_withPC _ _ (by omega), memRootOf_withLoadReservation _ _ (by omega),
        memRootOf_withRd _ _ _ hrd2 hlen2]
    · rw [loadReservationOf_withPC _ _ (by omega),
        loadReservationOf_withLoadReservation _ _ (by omega)]
      rfl
  · intro hne
    generalize withPC (withLoadReservation (withRd cd (parseRd lr) v) (regOf cd (parseRs1 lr)))
      (add64 pc 4) = cd1 at hl3 hres hne ⊢
    have hlen1 : 4 + stateSize ≤ cd1.length := by omega
    have h4 : (withRd cd1 (parseRd sc) 1).length = cd1.length := length_withRd _ _ _ hrd2 hlen1
    have h5 : (withLoadReservation (withRd cd1 (parseRd sc) 1) 0).length = cd1.length := by
      rw [length_withLoadReservation _ _ (by omega), h4]
    refine ⟨_, execute_sc_ne keccak po pc2 sc cd1 hsc1 hsc2 hsc3 (by rw [hres]; exact hne),
      ?_, ?_, ?_⟩
    · intro h0
      rw [regOf_withPC _ _ _ (by omega),
        regOf_withLoadReservation _ _ _ (by omega) (by omega),
        regOf_withRd_same _ _ _ hrd2 h0 hlen1]
      rfl
    · rw [memRootOf_withPC _ _ (by omega), memRootOf_withLoadReservation _ _ (by omega),
        memRootOf_withRd _ _ _ hrd2 hlen1]
    · rw [loadReservationOf_withPC _ _ (by omega),
        loadReservationOf_withLoadReservation _ _ (by omega)]
      rfl

theorem getMemoryB32_after_lr (keccak : List Byte → B32) (addr : Nat) (cd : List Byte)
    (leaf : B32) (rd v a p : Nat) (hrd : rd ≤ 31) (hlen : proofOffset 1 + 64 * 32 ≤ cd.length)
    (hget : getMemoryB32 keccak addr 1 cd = Res.ok leaf cd) :
    getMemoryB32 keccak addr 1 (withPC (withLoadReservation (withRd cd rd v) a) p)
        = Res.ok leaf (withPC (withLoadReservation (withRd cd rd v) a) p) ∧
      proofSiblings (withPC (withLoadReservation (withRd cd rd v) a) p) 1
        = proofSiblings cd 1 := by
  obtain ⟨e1, e2, e3, e4, _, _, _, _, e9⟩ := offsets_eq
  have hpo := proofOffset_eq 1 (by decide)
  have hl0 : 4 + stateSize ≤ cd.length := by omega
  have h1 : getMemoryB32 keccak addr 1 (withRd cd rd v) = Res.ok leaf (withRd cd rd v) ∧
      proofSiblings (withRd cd rd v) 1 = proofSiblings cd 1 := by
    unfold withRd
    split
    · exact ⟨hget, rfl⟩
    · exact getMemoryB32_frame keccak addr 1 cd leaf _ (encodeU64 v) (by decide) hlen
        (by omega) (by rw [length_encodeU64]; omega) hget
  have hl1 : (withRd cd rd v).length = cd.length := length_withRd cd rd v hrd hl0
  have h2 := getMemoryB32_frame keccak addr 1 (withRd cd rd v) leaf stateOffsetLoadReservation
    (encodeU64 a) (by decide) (by omega) (by omega) (by rw [length_encodeU64]; omega) h1.1
  have hl2 : (withLoadReservation (withRd cd rd v) a).length = cd.length := by
    rw [length_withLoadReservation _ _ (by omega), hl1]
  have h3 := getMemoryB32_frame keccak addr 1 (withLoadReservation (withRd cd rd v) a) leaf
    stateOffsetPC (encodeU64 p) (by decide) (by rw [hl2]; exact hlen) (by omega)
    (by rw [length_encodeU64]; omega) h2.1
  exact ⟨h3.1, h3.2.trans (h2.2.trans h1.2)⟩

theorem patchedLeaf_sd_bytes (leaf : B32) :
    (patchedLeaf 0x1000 8 0x0102030405060708 leaf).val.take 8 = List.replicate 8 0x08 := by
  have hpatch : patchOf 0x1000 8 0x0102030405060708
      = ⟨0x0808080808080808 <<< 192, 0, 0xFFFFFFFFFFFFFFFF <<< 192, 0⟩ := by decide!
  have hm : not (0xFFFFFFFFFFFFFFFF <<< 192) = 2 ^ 192 - 1 := by decide!
  have hp : (0x0808080808080808 <<< 192 : Nat) = 2 ^ 192 * 0x0808080808080808 := by decide!
  have hw : or (and (b32asBEWord leaf) (not (0xFFFFFFFFFFFFFFFF <<< 192)))
      (0x0808080808080808 <<< 192)
      = 2 ^ 192 * 0x0808080808080808 + b32asBEWord leaf % 2 ^ 192 := by
    unfold or and
    rw [hm, hp, Nat.and_pow_two_sub_one_eq_mod, Nat.or_comm]
    exact (Nat.mul_add_lt_is_or (Nat.mod_lt _ (by positivity)) _).symm
  have hr : b32asBEWord leaf % 2 ^ 192 < 2 ^ 192 := Nat.mod_lt _ (by positivity)
  generalize b32asBEWord leaf % 2 ^ 192 = r at hw hr
  unfold patchedLeaf beWordAsB32
  rw [hpatch]
  simp only []
  rw [hw]
  simp only [Nat.reducePow] at hr
  simp only [List.range, List.range.loop, List.map, List.take, List.replicate, toByte,
    Nat.reducePow, Nat.reduceSub, Nat.reduceMul]
  simp only [List.cons.injEq, and_true, Fin.mk.injEq]
  refine ⟨?_, ?_, ?_, ?_, ?_, ?_, ?_, ?_⟩ <;> (apply Fin.ext; simp only [Fin.val_ofNat']; omega)

theorem cdLrSc_length : cdLrSc.length = 4462 := by decide!

theorem cdLrSc_root : memRootOf cdLrSc = ⟨zeroRoot, by decide⟩ := by decide!

theorem cdLrSc_get : getMemoryB32 sampleKeccak 0x1000 1 cdLrSc = Res.ok zeroB32 cdLrSc :=
  getMemoryB32_ok sampleKeccak 0x1000 1 cdLrSc zeroB32 (List.replicate 59 zeroB32)
    (by decide) (by rw [cdLrSc_length]; decide!) (by decide!) (by decide!) (by decide!)
    (by rw [cdLrSc_root]; exact zeroRoot_fold)

theorem cdLrSc_regs : regOf cdLrSc 1 = 0x1000 ∧ regOf cdLrSc 2 = 0x0102030405060708 := by
  decide!

/-! ## What a revert leaves behind -/

theorem same_refl (cd : List Byte) : SameOutsideRootAndOffset cd cd := ⟨rfl, fun _ _ _ => rfl⟩

theorem same_trans {cd cd1 cd2 : List Byte} (h1 : SameOutsideRootAndOffset cd cd1)
    (h2 : SameOutsideRootAndOffset cd1 cd2) : SameOutsideRootAndOffset cd cd2 :=
  ⟨h2.1.trans h1.1, fun off n h => (h2.2 off n h).trans (h1.2 off n h)⟩

theorem wro_of_readOnly {α : Type} {m : M α} (h : ReadOnly m) : WritesRootAndOffsetOnly m := by
  intro cd _
  rw [h cd]
  exact same_refl cd

theorem wro_pure {α : Type} (a : α) : WritesRootAndOffsetOnly (pure a : M α) :=
  wro_of_readOnly (readOnly_pure a)

theorem wro_revertWithCode {α : Type} (c : Nat) :
    WritesRootAndOffsetOnly (revertWithCode c : M α) :=
  wro_of_readOnly (readOnly_revertWithCode c)

theorem wro_goPanic {α : Type} : WritesRootAndOffsetOnly (goPanic : M α) :=
  wro_of_readOnly readOnly_goPanic

theorem wro_bind {α β : Type} {m : M α} {f : α → M β} (hm : WritesRootAndOffsetOnly m)
    (hf : ∀ a, WritesRootAndOffsetOnly (f a)) : WritesRootAndOffsetOnly (m >>= f) := by
  intro cd hlen
  have h1 := hm cd hlen
  simp only [bind_apply]
  cases hmc : m cd with
  | ok a cd1 =>
    rw [hmc] at h1
    simp only [buf_ok] at h1
    exact same_trans h1 (hf a cd1 (by rw [h1.1]; exact hlen))
  | revert c cd1 =>
    rw [hmc] at h1
    exact h1

theorem wro_ite {α : Type} (c : Prop) [Decidable c] {m1 m2 : M α}
    (h1 : WritesRootAndOffsetOnly m1) (h2 : WritesRootAndOffsetOnly m2) :
    WritesRootAndOffsetOnly (if c then m1 else m2) := by
  split <;> assumption

theorem wro_writeState (off : Nat) (bs : List Byte)
    (h : off + bs.length ≤ stateOffsetPreimageKey
      ∨ (stateOffsetPreimageOffset ≤ off ∧ off + bs.length ≤ stateOffsetPC)) :
    WritesRootAndOffsetOnly (writeState off bs) := by
  intro cd hlen
  obtain ⟨e1, e2, e3, e4, _, _, e7, e8, e9⟩ := offsets_eq
  rw [e9] at hlen
  rw [e7, e8, e2] at h
  simp only [writeState, buf_ok, SameOutsideRootAndOffset, e7, e8, e2]
  refine ⟨length_writeAt _ _ _ (by omega), fun o n ho =>
    readState_writeAt_other cd o n off bs (by omega) (by omega)⟩

theorem wro_setMemRoot (v : B32) : WritesRootAndOffsetOnly (setMemRoot v) :=
  wro_writeState _ _ (Or.inl (by rw [v.property]; decide))

theorem wro_setPreimageOffset (v : Nat) : WritesRootAndOffsetOnly (setPreimageOffset v) :=
  wro_writeState _ _ (Or.inr (by rw [length_encodeU64]; decide))

theorem wro_setMemoryB32 (keccak : List Byte → B32) (addr : Nat) (v : B32)
    (proofIndex : Nat) : WritesRootAndOffsetOnly (setMemoryB32 keccak addr v proofIndex) := by
  unfold setMemoryB32
  with_reducible repeat (first
    | exact wro_pure _
    | exact wro_revertWithCode _
    | exact wro_setMemRoot _
    | exact wro_of_readOnly (readOnly_merkleLoop _ _ _ _ _ _)
    | apply wro_bind
    | apply wro_ite
    | intro _
    | dsimp only)

theorem wro_storeMemUnaligned (keccak : List Byte → B32) (addr size value : Nat)
    (proofIndexL proofIndexR : Nat) :
    WritesRootAndOffsetOnly (storeMemUnaligned keccak addr size value proofIndexL proofIndexR) := by
  unfold storeMemUnaligned
  with_reducible repeat (first
    | exact wro_pure _
    | exact wro_goPanic
    | exact wro_setMemoryB32 _ _ _ _
    | exact wro_of_readOnly (readOnly_getMemoryB32 _ _ _)
    | apply wro_bind
    | apply wro_ite
    | intro _
    | dsimp only)

theorem wro_readPreimageValue (keccak : List Byte → B32) (po : PreImageOracle)
    (addr count : Nat) : WritesRootAndOffsetOnly (readPreimageValue keccak po addr count) := by
  unfold readPreimageValue
  with_reducible repeat (first
    | exact wro_pure _
    | exact wro_revertWithCode _
    | exact wro_setPreimageOffset _
    | exact wro_setMemoryB32 _ _ _ _
    | exact wro_of_readOnly (readOnly_getMemoryB32 _ _ _)
    | exact wro_of_readOnly readOnly_getPreimageKey
    | exact wro_of_readOnly readOnly_getPreimageOffset
    | apply wro_bind
    | apply wro_ite
    | intro _
    | split
    | dsimp only)

theorem nr_pure {α : Type} (a : α) : NeverReverts (pure a : M α) :=
  fun cd _ => ⟨a, cd, rfl, rfl⟩

theorem nr_bind {α β : Type} {m : M α} {f : α → M β} (hm : NeverReverts m)
    (hf : ∀ a, NeverReverts (f a)) : NeverReverts (m >>= f) := by
  intro cd hlen
  obtain ⟨a, cd1, h1, hl1⟩ := hm cd hlen
  obtain ⟨b, cd2, h2, hl2⟩ := hf a cd1 (by rw [hl1]; exact hlen)
  exact ⟨b, cd2, by simp only [bind_apply, h1, h2], hl2.trans hl1⟩

theorem nr_ite {α : Type} (c : Prop) [Decidable c] {m1 m2 : M α} (h1 : NeverReverts m1)
    (h2 : NeverReverts m2) : NeverReverts (if c then m1 else m2) := by
  split <;> assumption

theorem nr_of_readOnly_ok {α : Type} {m : M α} (h : ∀ cd, ∃ a, m cd = Res.ok a cd) :
    NeverReverts m := by
  intro cd _
  obtain ⟨a, ha⟩ := h cd
  exact ⟨a, cd, ha, rfl⟩

theorem nr_writeState (off : Nat) (bs : List Byte) (h : off + bs.length ≤ stateSize) :
    NeverReverts (writeState off bs) := by
  intro cd hlen
  exact ⟨(), _, rfl, length_writeAt _ _ _ (by omega)⟩

theorem nr_loadRegister (r : Nat) (h : r ≤ 31) : NeverReverts (loadRegister r) :=
  nr_of_readOnly_ok (fun cd => ⟨_, loadRegister_eq r h cd⟩)

theorem nr_writeRegister (r v : Nat) (h : r ≤ 31) : NeverReverts (writeRegister r v) := by
  intro cd hlen
  exact ⟨(), _, writeRegister_withRd r v h cd, length_withRd cd r v h hlen⟩

theorem nr_setPC (v : Nat) : NeverReverts (setPC v) :=
  nr_writeState _ _ (by rw [length_encodeU64]; decide)

theorem nr_setHeap (v : Nat) : NeverReverts (setHeap v) :=
  nr_writeState _ _ (by rw [length_encodeU64]; decide)

theorem nr_setLoadReservation (v : Nat) : NeverReverts (setLoadReservation v) :=
  nr_writeState _ _ (by rw [length_encodeU64]; decide)

theorem nr_setPreimageOffset (v : Nat) : NeverReverts (setPreimageOffset v) :=
  nr_writeState _ _ (by rw [length_encodeU64]; decide)

theorem nr_setPreimageKey (k : B32) : NeverReverts (setPreimageKey k) :=
  nr_writeState _ _ (by rw [k.property]; decide)

theorem nr_setExited : NeverReverts setExited := nr_writeState _ _ (by decide)

theorem nr_setExitCode (v : Byte) : NeverReverts (setExitCode v) :=
  nr_writeState _ _ (by show stateOffsetExitCode + 1 ≤ stateSize; decide)

theorem nr_getHeap : NeverReverts getHeap := nr_of_readOnly_ok (fun _ => ⟨_, rfl⟩)

theorem nr_getPreimageKey : NeverReverts getPreimageKey := nr_of_readOnly_ok (fun _ => ⟨_, rfl⟩)

theorem rk_of_wro {α : Type} {m : M α} (h : WritesRootAndOffsetOnly m) :
    RevertKeepsFields m := by
  intro cd hlen
  have h1 := h cd hlen
  constructor
  · intro a cd1 he
    rw [he] at h1
    exact h1.1
  · intro c cd1 he
    rw [he] at h1
    exact h1

theorem rk_of_nr {α : Type} {m : M α} (h : NeverReverts m) : RevertKeepsFields m := by
  intro cd hlen
  obtain ⟨a, cd1, h1, hl⟩ := h cd hlen
  constructor
  · intro a2 cd2 he
    rw [h1] at he
    cases he
    exact hl
  · intro c cd2 he
    rw [h1] at he
    cases he

theorem rk_bind_wro {α β : Type} {m : M α} {f : α → M β} (hm : WritesRootAndOffsetOnly m)
    (hf : ∀ a, RevertKeepsFields (f a)) : RevertKeepsFields (m >>= f) := by
  intro cd hlen
  have h1 := hm cd hlen
  simp only [bind_apply]
  cases hmc : m cd with
  | ok a cd1 =>
    rw [hmc] at h1
    simp only [buf_ok] at h1
    have h2 := hf a cd1 (by rw [h1.1]; exact hlen)
    exact ⟨fun b cd2 he => (h2.1 b cd2 he).trans h1.1,
      fun c cd2 he => same_trans h1 (h2.2 c cd2 he)⟩
  | revert c cd1 =>
    rw [hmc] at h1
    simp only [buf_revert] at h1
    refine ⟨fun b cd2 he => (by cases he), fun c2 cd2 he => ?_⟩
    cases he
    exact h1

theorem rk_bind_nr {α β : Type} {m : M α} {f : α → M β} (hm : RevertKeepsFields m)
    (hf : ∀ a, NeverReverts (f a)) : RevertKeepsFields (m >>= f) := by
  intro cd hlen
  have h1 := hm cd hlen
  simp only [bind_apply]
  cases hmc : m cd with
  | ok a cd1 =>
    have hl := h1.1 a cd1 hmc
    obtain ⟨b, cd2, h2, hl2⟩ := hf a cd1 (by rw [hl]; exact hlen)
    simp only [h2]
    refine ⟨fun b2 cd3 he => ?_, fun c cd3 he => (by cases he)⟩
    cases he
    exact hl2.trans hl
  | revert c cd1 =>
    refine ⟨fun b cd2 he => (by cases he), fun c2 cd2 he => ?_⟩
    cases he
    exact h1.2 c cd1 hmc

theorem rk_ite {α : Type} (c : Prop) [Decidable c] {m1 m2 : M α} (h1 : RevertKeepsFields m1)
    (h2 : RevertKeepsFields m2) : RevertKeepsFields (if c then m1 else m2) := by
  split <;> assumption

theorem rk_writePreimageKey (keccak : List Byte → B32) (addr count : Nat) :
    RevertKeepsFields (writePreimageKey keccak addr count) := by
  unfold writePreimageKey
  dsimp only
  refine rk_bind_wro (wro_of_readOnly (readOnly_getMemoryB32 _ _ _)) (fun leaf => rk_of_nr ?_)
  with_reducible repeat (first
    | exact nr_pure _
    | exact nr_setPreimageKey _
    | exact nr_setPreimageOffset _
    | exact nr_getPreimageKey
    | apply nr_bind
    | intro _
    | dsimp only)

set_option maxRecDepth 20000 in
theorem rk_sysCall (keccak : List Byte → B32) (po : PreImageOracle) :
    RevertKeepsFields (sysCall keccak po) := by
  unfold sysCall
  with_reducible repeat (first
    | (refine rk_of_nr ?_
       solve
       | (repeat (first
          | exact nr_pure _
          | exact nr_writeRegister _ _ (by omega)
          | exact nr_loadRegister _ (by omega)
          | exact nr_setExited
          | exact nr_setExitCode _
          | exact nr_setHeap _
          | exact nr_getHeap
          | apply nr_bind
          | apply nr_ite
          | intro _
          | split
          | dsimp only)))
    | (refine rk_of_wro ?_
       solve
       | (repeat (first
          | exact wro_pure _
          | exact wro_revertWithCode _
          | exact wro_readPreimageValue _ _ _ _
          | exact wro_storeMemUnaligned _ _ _ _ _ _
          | exact wro_of_readOnly (readOnly_loadRegister _)
          | apply wro_bind
          | apply wro_ite
          | intro _
          | split
          | dsimp only)))
    | exact rk_writePreimageKey _ _ _
    | (refine rk_bind_wro ?_ ?_
       solve
       | (repeat (first
          | exact wro_pure _
          | exact wro_revertWithCode _
          | exact wro_readPreimageValue _ _ _ _
          | exact wro_storeMemUnaligned _ _ _ _ _ _
          | exact wro_of_readOnly (readOnly_loadRegister _)
          | apply wro_bind
          | apply wro_ite
          | intro _
          | split
          | dsimp only)))
    | (refine rk_bind_nr ?_ ?_
       rotate_left
       solve
       | (repeat (first
          | exact nr_pure _
          | exact nr_writeRegister _ _ (by omega)
          | exact nr_loadRegister _ (by omega)
          | exact nr_setExited
          | exact nr_setExitCode _
          | exact nr_setHeap _
          | exact nr_getHeap
          | apply nr_bind
          | apply nr_ite
          | intro _
          | split
          | dsimp only)))
    | apply rk_ite
    | intro _
    | split
    | dsimp only)

set_option maxRecDepth 20000 in
theorem rk_execute (keccak : List Byte → B32) (po : PreImageOracle) (pc instr : Nat) :
    RevertKeepsFields (execute keccak po pc instr) := by
  unfold execute storeMem
  with_reducible repeat (first
    | (refine rk_of_nr ?_
       solve
       | (repeat (first
          | exact nr_pure _
          | exact nr_writeRegister _ _ (parseRd_le _)
          | exact nr_loadRegister _ (parseRs1_le _)
          | exact nr_loadRegister _ (parseRs2_le _)
          | exact nr_setPC _
          | exact nr_setLoadReservation _
          | apply nr_bind
          | apply nr_ite
          | intro _
          | split
          | dsimp only)))
    | (refine rk_of_wro ?_
       solve
       | (repeat (first
          | exact wro_pure _
          | exact wro_revertWithCode _
          | exact wro_storeMemUnaligned _ _ _ _ _ _
          | exact wro_of_readOnly (readOnly_loadRegister _)
          | exact wro_of_readOnly (readOnly_loadMem _ _ _ _ _ _)
          | exact wro_of_readOnly (readOnly_updateCSR _ _ _)
          | exact wro_of_readOnly (readOnly_amoOp _ _ _)
          | exact wro_of_readOnly readOnly_getLoadReservation
          | apply wro_bind
          | apply wro_ite
          | intro _
          | split
          | dsimp only)))
    | exact rk_sysCall _ _
    | (refine rk_bind_wro ?_ ?_
       solve
       | (repeat (first
          | exact wro_pure _
          | exact wro_revertWithCode _
          | exact wro_storeMemUnaligned _ _ _ _ _ _
          | exact wro_of_readOnly (readOnly_loadRegister _)
          | exact wro_of_readOnly (readOnly_loadMem _ _ _ _ _ _)
          | exact wro_of_readOnly (readOnly_updateCSR _ _ _)
          | exact wro_of_readOnly (readOnly_amoOp _ _ _)
          | exact wro_of_readOnly readOnly_getLoadReservation
          | apply wro_bind
          | apply wro_ite
          | intro _
          | split
          | dsimp only)))
    | (refine rk_bind_nr ?_ ?_
       rotate_left
       solve
       | (repeat (first
          | exact nr_pure _
          | exact nr_writeRegister _ _ (parseRd_le _)
          | exact nr_setPC _
          | exact nr_setLoadReservation _
          | apply nr_bind
          | apply nr_ite
          | intro _
          | split
          | dsimp only)))
    | apply rk_ite
    | intro _
    | split
    | dsimp only)

/-! ## Reverts that leave a field written -/

theorem bind_of_revert {α β : Type} (m : M α) (f : α → M β) (cd cd1 : List Byte) (c : Nat)
    (h : m cd = Res.revert c cd1) : (m >>= f) cd = Res.revert c cd1 := by
  simp only [bind_apply, h]

theorem storeMem_cross_revert (keccak : List Byte → B32) (cd : List Byte) (leaf : B32)
    (c : Nat) (hlen : proofOffset 1 + 64 * 32 ≤ cd.length)
    (hget : getMemoryB32 keccak 0x1000 1 cd = Res.ok leaf cd)
    (hright : getMemoryB32 keccak 0x1020 2
        (writeAt cd 4 (foldRoot keccak (0x1000 >>> 5) 0
          (patchedLeaf 0x101c 8 0x0102030405060708 leaf) (proofSiblings cd 1)).val)
      = Res.revert c (writeAt cd 4 (foldRoot keccak (0x1000 >>> 5) 0
          (patchedLeaf 0x101c 8 0x0102030405060708 leaf) (proofSiblings cd 1)).val)) :
    storeMem keccak 0x101c 8 0x0102030405060708 1 2 cd
      = Res.revert c (writeAt cd 4 (foldRoot keccak (0x1000 >>> 5) 0
          (patchedLeaf 0x101c 8 0x0102030405060708 leaf) (proofSiblings cd 1)).val) := by
  have h1 : and64 0x101c (not64 31) = 0x1000 := by decide!
  have h2 : and64 (add64 0x101c (sub64 8 1)) (not64 31) = 0x1020 := by decide!
  have h3 : sub64 0x101c 0x1000 = 28 := by decide!
  have hp : storePatchLoop 28 0x0102030405060708 28 (add64 28 8) 64 0 ⟨0, 0, 0, 0⟩
      = ⟨0x08080808, 0x08080808 <<< 224, 0xFFFFFFFF, 0xFFFFFFFF <<< 224⟩ := by decide!
  have hleaf : patchedLeaf 0x101c 8 0x0102030405060708 leaf
      = beWordAsB32 (or (and (b32asBEWord leaf) (not 0xFFFFFFFF)) 0x08080808) := by
    unfold patchedLeaf patchOf
    rw [h1, h3, hp]
  have hset := setMemoryB32_eq keccak 0x1000
    (beWordAsB32 (or (and (b32asBEWord leaf) (not 0xFFFFFFFF)) 0x08080808)) 1 cd
    (by decide) hlen (by decide!)
  rw [hleaf] at hright ⊢
  have hne : ¬ ((if (0x1000 : Nat) = 0x1020 then 1 else 0) ≠ 0) := by decide
  have hpR : ¬ ((2 : Nat) = 0xff) := by decide
  have hsz : ¬ ((8 : Nat) > 32) := by decide
  unfold storeMem storeMemUnaligned
  simp only [h1, h2, h3, hp, bind_apply, pure_apply, ite_run, hget, hset, eq64,
    if_neg hne, if_neg hpR, if_neg hsz, hright]

theorem cdCross_length : cdCross.length = 6510 := by decide!

theorem cdCross_root : memRootOf cdCross = ⟨zeroRoot, by decide⟩ := by decide!

theorem cdCross_get :
    getMemoryB32 sampleKeccak 0x1000 1 cdCross = Res.ok zeroB32 cdCross ∧
      getMemoryB32 sampleKeccak 0x1020 2 cdCross = Res.ok zeroB32 cdCross :=
  ⟨getMemoryB32_ok sampleKeccak 0x1000 1 cdCross zeroB32 (List.replicate 59 zeroB32)
    (by decide) (by rw [cdCross_length]; decide!) (by decide!) (by decide!) (by decide!)
    (by rw [cdCross_root]; exact zeroRoot_fold),
  getMemoryB32_ok sampleKeccak 0x1020 2 cdCross zeroB32 (List.replicate 59 zeroB32)
    (by decide) (by rw [cdCross_length]; decide!) (by decide!) (by decide!) (by decide!)
    (by rw [cdCross_root]; decide!)⟩

theorem crossRoot_fold :
    foldRoot sampleKeccak (0x1000 >>> 5) 0 (patchedLeaf 0x101c 8 0x0102030405060708 zeroB32)
      (List.replicate 59 zeroB32) = ⟨crossRoot, by decide⟩ := by decide!

theorem cdCross_right :
    getMemoryB32 sampleKeccak 0x1020 2 (writeAt cdCross 4 crossRoot)
      = Res.revert 0x0badf00d (writeAt cdCross 4 crossRoot) := by
  have hl : (writeAt cdCross 4 crossRoot).length = 6510 := by decide!
  have h1 : proofSlot (writeAt cdCross 4 crossRoot) 2 0 = zeroB32 := by decide!
  have h2 : proofSiblings (writeAt cdCross 4 crossRoot) 2 = List.replicate 59 zeroB32 := by
    decide!
  have h3 : memRootOf (writeAt cdCross 4 crossRoot) = ⟨crossRoot, by decide⟩ := by decide!
  have h4 : foldRoot sampleKeccak (0x1020 >>> 5) 0 zeroB32 (List.replicate 59 zeroB32)
      ≠ ⟨crossRoot, by decide⟩ := by decide!
  rw [getMemoryB32_eq sampleKeccak 0x1020 2 _ (by decide) (by rw [hl]; decide!),
    if_neg (by decide!), h1, h2, h3, if_neg h4]

theorem cdCross_store :
    storeMem sampleKeccak 0x101c 8 0x0102030405060708 1 2 cdCross
      = Res.revert 0x0badf00d (writeAt cdCross 4 crossRoot) := by
  have hs : proofSiblings cdCross 1 = List.replicate 59 zeroB32 := by decide!
  have h := storeMem_cross_revert sampleKeccak cdCross zeroB32 0x0badf00d
    (by rw [cdCross_length]; decide!) cdCross_get.1
    (by rw [hs, crossRoot_fold]; exact cdCross_right)
  rw [hs, crossRoot_fold] at h
  exact h

theorem cdCross_execute :
    execute sampleKeccak sampleOracle 0 0x0020BE23 cdCross
      = Res.revert 0x0badf00d (writeAt cdCross 4 crossRoot) := by
  have hr1 : regOf cdCross (parseRs1 0x0020BE23) = 0x1000 := by decide!
  have hr2 : regOf cdCross (parseRs2 0x0020BE23) = 0x0102030405060708 := by decide!
  have hsz : shl64 (parseFunct3 0x0020BE23) 1 = 8 := by decide!
  have hadd : add64 0x1000 (signExtend64 (parseImmTypeS 0x0020BE23) 11) = 0x101c := by decide!
  rw [execute_store sampleKeccak sampleOracle 0 0x0020BE23 cdCross (by decide!), hr1, hr2, hsz,
    hadd, bind_of_revert _ _ _ _ _ cdCross_store]

theorem sysCall_read_preimage (keccak : List Byte → B32) (po : PreImageOracle)
    (cd : List Byte) (ha7 : regOf cd 17 = 63) (ha0 : regOf cd 10 = 5) :
    sysCall keccak po cd =
      (readPreimageValue keccak po (regOf cd 11) (regOf cd 12) >>= fun n =>
        writeRegister 10 n >>= fun _ => writeRegister 11 0) cd := by
  simp [sysCall, loadRegister_eq, ha7, ha0, fdStdin, fdHintRead, fdPreimageRead]
  cases readPreimageValue keccak po (regOf cd 11) (regOf cd 12) cd <;> rfl

theorem readPreimageValue_revert (keccak : List Byte → B32) (po : PreImageOracle)
    (addr count : Nat) (cd : List Byte) (chunk : B32) (len : Byte) (c : Nat)
    (hpo : po (preimageKeyOf cd) (preimageOffsetOf cd) = some (chunk, len))
    (h0 : len.val ≠ 0)
    (hget : getMemoryB32 keccak (sub64 addr (and64 addr 31)) 1
        (withPreimageOffset cd
          (add64 (preimageOffsetOf cd) (min (min count (32 - addr % 32)) len.val)))
      = Res.revert c (withPreimageOffset cd
          (add64 (preimageOffsetOf cd) (min (min count (32 - addr % 32)) len.val)))) :
    readPreimageValue keccak po addr count cd
      = Res.revert c (withPreimageOffset cd
          (add64 (preimageOffsetOf cd) (min (min count (32 - addr % 32)) len.val))) := by
  unfold withPreimageOffset at hget
  rw [readPreimageValue_eq keccak po addr count cd chunk len hpo h0]
  simp only [bind_apply, setPreimageOffset, writeState, hget, withPreimageOffset]

theorem cdRead_length : cdRead.length = 4462 := by decide!

theorem cdRead_right :
    getMemoryB32 sampleKeccak 0x1000 1 (withPreimageOffset cdRead 4)
      = Res.revert 0x0badf00d (withPreimageOffset cdRead 4) := by
  have hl : (withPreimageOffset cdRead 4).length = 4462 := by decide!
  have h1 : proofSlot (withPreimageOffset cdRead 4) 1 0 = zeroB32 := by decide!
  have h2 : proofSiblings (withPreimageOffset cdRead 4) 1 = List.replicate 59 zeroB32 := by
    decide!
  have h3 : memRootOf (withPreimageOffset cdRead 4) = ⟨zeroRoot0, by decide⟩ := by decide!
  have h4 : foldRoot sampleKeccak (0x1000 >>> 5) 0 zeroB32 (List.replicate 59 zeroB32)
      ≠ ⟨zeroRoot0, by decide⟩ := by decide!
  rw [getMemoryB32_eq sampleKeccak 0x1000 1 _ (by decide) (by rw [hl]; decide!),
    if_neg (by decide!), h1, h2, h3, if_neg h4]

theorem cdRead_readPreimageValue :
    readPreimageValue sampleKeccak chunkOracle 0x1000 4 cdRead
      = Res.revert 0x0badf00d (withPreimageOffset cdRead 4) := by
  have ha : sub64 0x1000 (and64 0x1000 31) = 0x1000 := by decide!
  have ho : add64 (preimageOffsetOf cdRead) (min (min 4 (32 - 0x1000 % 32)) (5 : Byte).val) = 4 := by
    decide!
  have h := readPreimageValue_revert sampleKeccak chunkOracle 0x1000 4 cdRead _ 5 0x0badf00d rfl
    (by decide) (by rw [ha, ho]; exact cdRead_right)
  rw [ho] at h
  exact h

theorem cdRead_execute :
    execute sampleKeccak chunkOracle 0 0x73 cdRead
      = Res.revert 0x0badf00d (withPreimageOffset cdRead 4) := by
  have h11 : regOf cdRead 11 = 0x1000 := by decide!
  have h12 : regOf cdRead 12 = 4 := by decide!
  rw [execute_ecall sampleKeccak chunkOracle 0 0x73 cdRead (by decide!) (by decide!)
    (by decide!)]
  refine bind_of_revert _ _ _ _ _ ?_
  rw [sysCall_read_preimage sampleKeccak chunkOracle cdRead (by decide!) (by decide!), h11, h12]
  exact bind_of_revert _ _ _ _ _ cdRead_readPreimageValue

/-! ## The claims -/

/-- C1: on a calldata whose state record has `exited == 1`, `Step` returns the keccak256 of the
362-byte state record with a nil error, and the buffer (hence every byte of the state record)
is left as it was on entry. -/
theorem C1_step_exited (keccak : List Byte → B32) (po : PreImageOracle) (cd : List Byte)
    (hlen : 4 + stateSize ≤ cd.length) (hex : readState stateOffsetExited 1 cd = [1]) :
    Step keccak po cd = some ⟨keccak (stateData cd), none, cd⟩ ∧
      ∀ r, Step keccak po cd = some r → stateData r.calldata = stateData cd := by
  have h : Step keccak po cd = some ⟨keccak (stateData cd), none, cd⟩ := by
    unfold Step
    rw [if_neg (by omega)]
    simp [getExited, hex, computeStateHash]
  refine ⟨h, ?_⟩
  intro r hr
  rw [h] at hr
  cases hr
  rfl

theorem C1_step_exited_witness :
    Step sampleKeccak sampleOracle cdExited
        = some ⟨sampleKeccak (stateData cdExited), none, cdExited⟩ ∧
      ∀ r, Step sampleKeccak sampleOracle cdExited = some r →
        stateData r.calldata = stateData cdExited :=
  C1_step_exited sampleKeccak sampleOracle cdExited (by rw [cdExited_length]; decide!)
    (by decide!)

/-- C4: `getMemoryB32` reverts with `0xbad10ad0` exactly when `addr & 31 != 0`; otherwise it
folds the leaf of slot 0 with the siblings of slots 1 to 59 along the bits of `addr >> 5`,
reverts with `0x0badf00d` exactly when the folded root differs from `memRoot`, and otherwise
returns the slot-0 leaf; in every case the buffer is left unchanged. -/
theorem C4_getMemoryB32 (keccak : List Byte → B32) (addr proofIndex : Nat) (cd : List Byte)
    (hpi : proofIndex < 256) (hlen : proofOffset proofIndex + 64 * 32 ≤ cd.length) :
    ((∃ cd1, getMemoryB32 keccak addr proofIndex cd = Res.revert 0xbad10ad0 cd1)
        ↔ addr &&& 31 ≠ 0) ∧
      (addr &&& 31 = 0 →
        ((∃ cd1, getMemoryB32 keccak addr proofIndex cd = Res.revert 0x0badf00d cd1)
          ↔ foldRoot keccak (addr >>> 5) 0 (proofSlot cd proofIndex 0)
              (proofSiblings cd proofIndex) ≠ memRootOf cd) ∧
        (foldRoot keccak (addr >>> 5) 0 (proofSlot cd proofIndex 0)
              (proofSiblings cd proofIndex) = memRootOf cd →
          getMemoryB32 keccak addr proofIndex cd = Res.ok (proofSlot cd proofIndex 0) cd)) ∧
      (getMemoryB32 keccak addr proofIndex cd).buf = cd := by
  have heq := getMemoryB32_eq keccak addr proofIndex cd hpi hlen
  refine ⟨?_, ?_, readOnly_getMemoryB32 keccak addr proofIndex cd⟩
  · rw [heq]
    by_cases ha : and64 addr 31 ≠ 0
    · have ha2 : addr &&& 31 ≠ 0 := ha
      simp [ha, ha2]
    · have ha2 : ¬ (addr &&& 31 ≠ 0) := ha
      rw [if_neg ha]
      constructor
      · rintro ⟨cd1, h⟩
        split at h <;> simp at h
      · intro h; exact absurd h ha2
  · intro ha
    have ha2 : ¬ (and64 addr 31 ≠ 0) := by simp [and64, ha]
    rw [heq, if_neg ha2]
    constructor
    · constructor
      · rintro ⟨cd1, h⟩ hroot
        rw [if_pos hroot] at h
        simp at h
      · intro hroot
        exact ⟨cd, by rw [if_neg hroot]⟩
    · intro hroot
      rw [if_pos hroot]

theorem C4_getMemoryB32_witness :
    ((∃ cd1, getMemoryB32 sampleKeccak 0 0 cdAddi = Res.revert 0xbad10ad0 cd1)
        ↔ 0 &&& 31 ≠ 0) ∧
      (0 &&& 31 = 0 →
        ((∃ cd1, getMemoryB32 sampleKeccak 0 0 cdAddi = Res.revert 0x0badf00d cd1)
          ↔ foldRoot sampleKeccak (0 >>> 5) 0 (proofSlot cdAddi 0 0)
              (proofSiblings cdAddi 0) ≠ memRootOf cdAddi) ∧
        (foldRoot sampleKeccak (0 >>> 5) 0 (proofSlot cdAddi 0 0)
              (proofSiblings cdAddi 0) = memRootOf cdAddi →
          getMemoryB32 sampleKeccak 0 0 cdAddi = Res.ok (proofSlot cdAddi 0 0) cdAddi)) ∧
      (getMemoryB32 sampleKeccak 0 0 cdAddi).buf = cdAddi :=
  C4_getMemoryB32 sampleKeccak 0 0 cdAddi (by decide) (by rw [cdAddi_length]; decide!)

/-- C5: for a 32-byte-aligned `addr`, `setMemoryB32(addr, v, proofIndex)` succeeds and the new
`memRoot` is the root folded from `v` and the 59 siblings of the block; on the witness whose
leaf slot holds `v` (same siblings) `getMemoryB32(addr, proofIndex)` then succeeds against the
new `memRoot` and returns `v`. -/
theorem C5_setMemoryB32_then_get (keccak : List Byte → B32) (addr proofIndex : Nat) (v : B32)
    (cd : List Byte) (hpi : proofIndex < 256)
    (hlen : proofOffset proofIndex + 64 * 32 ≤ cd.length) (ha : addr &&& 31 = 0) :
    ∃ cd1, setMemoryB32 keccak addr v proofIndex cd = Res.ok () cd1 ∧
      memRootOf cd1 = foldRoot keccak (addr >>> 5) 0 v (proofSiblings cd proofIndex) ∧
      proofSlot (withLeaf cd1 proofIndex v) proofIndex 0 = v ∧
      proofSiblings (withLeaf cd1 proofIndex v) proofIndex = proofSiblings cd proofIndex ∧
      getMemoryB32 keccak addr proofIndex (withLeaf cd1 proofIndex v)
        = Res.ok v (withLeaf cd1 proofIndex v) :=
  ⟨_, setMemoryB32_eq keccak addr v proofIndex cd hpi hlen ha,
    get_after_set keccak addr proofIndex v cd _ hpi hlen ha rfl⟩

theorem C5_setMemoryB32_then_get_witness :
    ∃ cd1, setMemoryB32 sampleKeccak 0 zeroB32 0 cdAddi = Res.ok () cd1 ∧
      memRootOf cd1 = foldRoot sampleKeccak (0 >>> 5) 0 zeroB32 (proofSiblings cdAddi 0) ∧
      proofSlot (withLeaf cd1 0 zeroB32) 0 0 = zeroB32 ∧
      proofSiblings (withLeaf cd1 0 zeroB32) 0 = proofSiblings cdAddi 0 ∧
      getMemoryB32 sampleKeccak 0 0 (withLeaf cd1 0 zeroB32)
        = Res.ok zeroB32 (withLeaf cd1 0 zeroB32) :=
  C5_setMemoryB32_then_get sampleKeccak 0 0 zeroB32 cdAddi (by decide)
    (by rw [cdAddi_length]; decide!) (by decide)

/-- C6 (the code departs from it): for `size` in {1,2,4,8}, whenever the bytes
`[addr, addr+size)` lie inside one leaf (`leftAddr == rightAddr`), whatever `loadMem` returns is `0`, signed or not and whatever the
bytes of the verified leaf are: the second `if` of the byte loop overwrites the byte taken from
the left leaf with a byte of the zero word `right`.  The buffer is left unchanged. -/
theorem C6_loadMem_inside_leaf_is_zero (keccak : List Byte → B32) (addr size : Nat)
    (signed : Bool) (proofIndexL proofIndexR : Nat) (cd : List Byte) (v : Nat) (cd1 : List Byte)
    (ha : addr < 2 ^ 64) (hs : size = 1 ∨ size = 2 ∨ size = 4 ∨ size = 8)
    (h : addr % 32 + size ≤ 32)
    (hr : loadMem keccak addr size signed proofIndexL proofIndexR cd = Res.ok v cd1) :
    v = 0 ∧ cd1 = cd :=
  loadMem_inside_leaf keccak addr size signed proofIndexL proofIndexR cd v cd1
    (inside_leaf addr size ha (by omega) h) hr

theorem C6_loadMem_inside_leaf_is_zero_witness :
    (0 : Nat) = 0 ∧ cdAddi = cdAddi :=
  C6_loadMem_inside_leaf_is_zero sampleKeccak 0 4 false 0 0xff cdAddi 0 cdAddi (by decide)
    (by decide) (by decide)
    (loadMem_inside_ok sampleKeccak 0 4 false 0 0xff cdAddi (padB32 addiLeaf) (by decide)
      (by decide!) cdAddi_fetch)

/-- C7 (the code departs from it): `storeMem(0x1000, 8, 0xDEADBEEFCAFEBABE, 1, 2)` over a
verified leaf writes back, through `setMemoryB32`, the leaf whose bytes 0 to 7 are all `0xBE`
(byte 0 of the value repeated), not the little-endian bytes `BE BA FE CA EF BE AD DE`: the
patch loop indexes the value with `shr64(3, index - alignment)`, a right shift of the byte
index, so every byte of the range takes `value & 0xff`. -/
theorem C7_storeMem_repeats_low_byte (keccak : List Byte → B32) (cd : List Byte) (leaf : B32)
    (hget : getMemoryB32 keccak 0x1000 1 cd = Res.ok leaf cd) :
    storeMem keccak 0x1000 8 0xDEADBEEFCAFEBABE 1 2 cd
        = setMemoryB32 keccak 0x1000 (storedLeaf leaf) 1 cd ∧
      (storedLeaf leaf).val.take 8 = List.replicate 8 0xBE :=
  storeMem_sd keccak cd leaf hget

theorem C7_storeMem_repeats_low_byte_witness :
    storeMem sampleKeccak 0x1000 8 0xDEADBEEFCAFEBABE 1 2 cdStore
        = setMemoryB32 sampleKeccak 0x1000 (storedLeaf zeroB32) 1 cdStore ∧
      (storedLeaf zeroB32).val.take 8 = List.replicate 8 0xBE :=
  C7_storeMem_repeats_low_byte sampleKeccak cdStore zeroB32 cdStore_get

/-- C8 (the code departs from it): for `size` in {1,2,4,8} and `addr` a multiple of `size`,
on any buffer that `storeMem(addr, size, v)` leaves behind, with the leaf slot of the witness
updated to any leaf, whatever `loadMem(addr, size, unsigned)` returns is `0`, not
`v & ((1 << (8*size)) - 1)`. -/
theorem C8_store_then_load_is_zero (keccak : List Byte → B32) (addr size value : Nat)
    (proofIndexL proofIndexR : Nat) (cd cd1 cd2 : List Byte) (newLeaf : B32) (x : Nat)
    (ha : addr < 2 ^ 64) (hs : size = 1 ∨ size = 2 ∨ size = 4 ∨ size = 8)
    (hal : addr % size = 0)
    (_hstore : storeMem keccak addr size value proofIndexL proofIndexR cd = Res.ok () cd1)
    (hload : loadMem keccak addr size false proofIndexL proofIndexR
      (withLeaf cd1 proofIndexL newLeaf) = Res.ok x cd2) :
    x = 0 ∧ cd2 = withLeaf cd1 proofIndexL newLeaf := by
  have hin : addr % 32 + size ≤ 32 := by
    rcases hs with hs | hs | hs | hs <;> subst hs <;> omega
  exact loadMem_inside_leaf keccak addr size false proofIndexL proofIndexR _ x cd2
    (inside_leaf addr size ha (by omega) hin) hload

theorem C8_store_then_load_is_zero_witness :
    (0 : Nat) = 0 ∧ withLeaf cdStored 1 (storedLeaf zeroB32)
      = withLeaf cdStored 1 (storedLeaf zeroB32) :=
  C8_store_then_load_is_zero sampleKeccak 0x1000 8 0xDEADBEEFCAFEBABE 1 2 cdStore cdStored
    (withLeaf cdStored 1 (storedLeaf zeroB32)) (storedLeaf zeroB32) 0
    (by decide) (by decide) (by decide) cdStore_store cdStored_load

/-- C9: `writeRegister(0, v)` returns at once and leaves the whole buffer (so all 256 bytes of
the register file) as it was; the instruction switch, whatever the instruction word and
whatever `rd` it names, leaves the 8 bytes of `x0` (state offsets 106 to 113) as they were,
whether it completes or reverts; and so does `Step` on every calldata and oracle. -/
theorem C9_x0_is_never_written :
    (∀ (v : Nat) (cd : List Byte), writeRegister 0 v cd = Res.ok () cd) ∧
      (∀ (keccak : List Byte → B32) (po : PreImageOracle) (pc instr : Nat) (cd : List Byte),
        4 + stateSize ≤ cd.length →
          readState stateOffsetRegisters 8 (execute keccak po pc instr cd).buf
            = readState stateOffsetRegisters 8 cd) ∧
      (∀ (keccak : List Byte → B32) (po : PreImageOracle) (cd : List Byte) (r : StepResult),
        Step keccak po cd = some r →
          readState stateOffsetRegisters 8 r.calldata = readState stateOffsetRegisters 8 cd) :=
  ⟨writeRegister_zero, fun keccak po pc instr cd h => (keepsX0_execute keccak po pc instr cd h).2,
    step_keeps_x0⟩

theorem C9_x0_is_never_written_witness :
    readState stateOffsetRegisters 8 (⟨zeroB32, some 0xf001c0de, cdAddi⟩ : StepResult).calldata
      = readState stateOffsetRegisters 8 cdAddi :=
  C9_x0_is_never_written.2.2 sampleKeccak sampleOracle cdAddi _ cdAddi_step

/-- C10 (the code departs from it): on a non-exited state whose four instruction bytes at `pc`
lie inside one leaf (`pc mod 32 <= 28`) and whose fetch proof is valid, `Step` ends with the error `0xf001c0de` whatever the instruction word is
(an ADDI included), because the fetch yields the word 0; `x[rd]` is not written, `pc` is not
advanced and the buffer is left as it was. -/
theorem C10_step_addi_reverts (keccak : List Byte → B32) (po : PreImageOracle)
    (cd : List Byte) (leaf : B32) (hlen : 4 + stateSize ≤ cd.length)
    (hex : readState stateOffsetExited 1 cd = [0])
    (hpc : decodeU64 (readState stateOffsetPC 8 cd) % 32 ≤ 28)
    (hproof : getMemoryB32 keccak (and64 (decodeU64 (readState stateOffsetPC 8 cd)) (not64 31)) 0 cd
      = Res.ok leaf cd) :
    Step keccak po cd = some ⟨zeroB32, some 0xf001c0de, cd⟩ :=
  step_of_fetch keccak po cd leaf hlen hex hpc hproof

theorem C10_step_addi_reverts_witness :
    Step sampleKeccak sampleOracle cdAddi = some ⟨zeroB32, some 0xf001c0de, cdAddi⟩ := by
  have hpc : and64 (decodeU64 (readState stateOffsetPC 8 cdAddi)) (not64 31) = 0 := by decide!
  exact C10_step_addi_reverts sampleKeccak sampleOracle cdAddi (padB32 addiLeaf)
    (by rw [cdAddi_length]; decide!) (by decide!) (by decide!) (by rw [hpc]; exact cdAddi_fetch)

/-- C11: for opcode `0x33` with `funct7 = 1` and a register `rs2` holding 0, the switch writes
to `rd` the value `2^64 - 1` for DIV (`funct3 = 4`) and DIVU (`funct3 = 5`), and the value of
`rs1` itself for REM (`funct3 = 6`) and REMU (`funct3 = 7`); then it sets `pc + 4`. -/
theorem C11_div_by_zero (keccak : List Byte → B32) (po : PreImageOracle) (pc instr : Nat)
    (cd : List Byte) (hop : parseOpcode instr = 0x33) (hf7 : parseFunct7 instr = 1)
    (hz : regOf cd (parseRs2 instr) = 0) :
    (parseFunct3 instr = 4 ∨ parseFunct3 instr = 5 →
        execute keccak po pc instr cd =
          (writeRegister (parseRd instr) (2 ^ 64 - 1) >>= fun _ => setPC (add64 pc 4)) cd) ∧
      (parseFunct3 instr = 6 ∨ parseFunct3 instr = 7 →
        execute keccak po pc instr cd =
          (writeRegister (parseRd instr) (regOf cd (parseRs1 instr))
            >>= fun _ => setPC (add64 pc 4)) cd) := by
  rw [execute_op keccak po pc instr cd hop, hf7, hz]
  constructor
  · rintro (h | h) <;> simp [opReg, h, u64Mask]
  · rintro (h | h) <;> simp [opReg, h]

theorem C11_div_by_zero_witness :
    execute sampleKeccak sampleOracle 0 0x0220C1B3 (cdRegs 7 0) =
      (writeRegister (parseRd 0x0220C1B3) (2 ^ 64 - 1) >>= fun _ => setPC (add64 0 4))
        (cdRegs 7 0) :=
  (C11_div_by_zero sampleKeccak sampleOracle 0 0x0220C1B3 (cdRegs 7 0) (by decide!) (by decide!)
    (by decide!)).1 (Or.inl (by decide!))

/-- C12 (the code departs from it): for opcode `0x3B` with `funct7 = 1` and a register `rs2`
whose low 32 bits are zero but which is not zero as a 64-bit value, the switch takes the
`default` branch of `switch rs2Value.val()` and writes 0 to `rd` for DIVW, DIVUW, REMW and
REMUW alike (the helpers return 0 for a zero divisor), not all ones resp. the sign-extended
low 32 bits of `rs1`. -/
theorem C12_divw_tests_all_64_bits (keccak : List Byte → B32) (po : PreImageOracle)
    (pc instr : Nat) (cd : List Byte) (hop : parseOpcode instr = 0x3B)
    (hf7 : parseFunct7 instr = 1)
    (hf3 : parseFunct3 instr = 4 ∨ parseFunct3 instr = 5 ∨ parseFunct3 instr = 6
      ∨ parseFunct3 instr = 7)
    (hnz : regOf cd (parseRs2 instr) ≠ 0) (hlow : regOf cd (parseRs2 instr) % 2 ^ 32 = 0) :
    execute keccak po pc instr cd =
      (writeRegister (parseRd instr) 0 >>= fun _ => setPC (add64 pc 4)) cd := by
  have hm : mask32Signed64 (regOf cd (parseRs2 instr)) = 0 := by
    rw [mask32Signed64_of_low _ 0 hlow, signExtend64_zero]
  have ha : and64 (regOf cd (parseRs2 instr)) u32Mask = 0 := by rw [and64_u32Mask, hlow]
  have h0 : mask32Signed64 0 = 0 := by decide!
  rw [execute_op32 keccak po pc instr cd hop, hf7]
  rcases hf3 with h | h | h | h <;>
    simp [opReg32, h, hnz, hm, ha, sdiv64, smod64, div64, mod64, h0]

theorem C12_divw_tests_all_64_bits_witness :
    execute sampleKeccak sampleOracle 0 0x0220C1BB (cdRegs 1 0x100000000) =
      (writeRegister (parseRd 0x0220C1BB) 0 >>= fun _ => setPC (add64 0 4))
        (cdRegs 1 0x100000000) :=
  C12_divw_tests_all_64_bits sampleKeccak sampleOracle 0 0x0220C1BB (cdRegs 1 0x100000000)
    (by decide!) (by decide!) (Or.inl (by decide!)) (by decide!) (by decide!)

/-- C13: with `rs1 = 0x8000000000000000` and `rs2 = 0xFFFFFFFFFFFFFFFF`, DIV writes
`0x8000000000000000` to `rd` and REM writes 0; and whenever the low 32 bits of `rs1` are
`0x80000000` and those of `rs2` are `0xFFFFFFFF`, DIVW writes `0xFFFFFFFF80000000` and REMW
writes 0. -/
theorem C13_signed_division_overflow (keccak : List Byte → B32) (po : PreImageOracle)
    (pc instr : Nat) (cd : List Byte) (hf7 : parseFunct7 instr = 1) :
    (parseOpcode instr = 0x33 → regOf cd (parseRs1 instr) = 0x8000000000000000 →
        regOf cd (parseRs2 instr) = 0xFFFFFFFFFFFFFFFF →
        (parseFunct3 instr = 4 → execute keccak po pc instr cd =
          (writeRegister (parseRd instr) 0x8000000000000000
            >>= fun _ => setPC (add64 pc 4)) cd) ∧
        (parseFunct3 instr = 6 → execute keccak po pc instr cd =
          (writeRegister (parseRd instr) 0 >>= fun _ => setPC (add64 pc 4)) cd)) ∧
      (parseOpcode instr = 0x3B → regOf cd (parseRs1 instr) % 2 ^ 32 = 0x80000000 →
        regOf cd (parseRs2 instr) % 2 ^ 32 = 0xFFFFFFFF →
        (parseFunct3 instr = 4 → execute keccak po pc instr cd =
          (writeRegister (parseRd instr) 0xFFFFFFFF80000000
            >>= fun _ => setPC (add64 pc 4)) cd) ∧
        (parseFunct3 instr = 6 → execute keccak po pc instr cd =
          (writeRegister (parseRd instr) 0 >>= fun _ => setPC (add64 pc 4)) cd)) := by
  constructor
  · intro hop h1 h2
    have e1 : sdiv64 0x8000000000000000 0xFFFFFFFFFFFFFFFF = 0x8000000000000000 := by decide!
    have e2 : smod64 0x8000000000000000 0xFFFFFFFFFFFFFFFF = 0 := by decide!
    rw [execute_op keccak po pc instr cd hop, hf7, h1, h2]
    constructor <;> intro h <;> simp [opReg, h, e1, e2]
  · intro hop h1 h2
    have hnz : regOf cd (parseRs2 instr) ≠ 0 := by
      intro hc; rw [hc] at h2; simp at h2
    have e1 : mask32Signed64 (sdiv64 (signExtend64 0x80000000 31) (signExtend64 0xFFFFFFFF 31))
        = 0xFFFFFFFF80000000 := by decide!
    have e2 : mask32Signed64 (smod64 (signExtend64 0x80000000 31) (signExtend64 0xFFFFFFFF 31))
        = 0 := by decide!
    rw [execute_op32 keccak po pc instr cd hop, hf7]
    constructor <;> intro h <;>
      simp only [opReg32, h, hnz, if_true, if_false, mask32Signed64_of_low _ _ h1,
        mask32Signed64_of_low _ _ h2, e1, e2] <;> simp

theorem C13_signed_division_overflow_witness :
    execute sampleKeccak sampleOracle 0 0x0220C1B3
        (cdRegs 0x8000000000000000 0xFFFFFFFFFFFFFFFF) =
      (writeRegister (parseRd 0x0220C1B3) 0x8000000000000000
        >>= fun _ => setPC (add64 0 4)) (cdRegs 0x8000000000000000 0xFFFFFFFFFFFFFFFF) :=
  ((C13_signed_division_overflow sampleKeccak sampleOracle 0 0x0220C1B3
    (cdRegs 0x8000000000000000 0xFFFFFFFFFFFFFFFF) (by decide!)).1 (by decide!) (by decide!)
    (by decide!)).1 (by decide!)

/-- C14: for opcode `0x33` with `funct7 = 1`, the value written to `rd` is bits 64..127 of the
exact product of signed `rs1` by signed `rs2` for MULH (`funct3 = 1`), of signed `rs1` by
unsigned `rs2` for MULHSU (`funct3 = 2`) and of unsigned `rs1` by unsigned `rs2` for MULHU
(`funct3 = 3`): the reduction of the widened product modulo `2^256` does not reach them. -/
theorem C14_mulh_upper_bits (keccak : List Byte → B32) (po : PreImageOracle) (pc instr : Nat)
    (cd : List Byte) (hop : parseOpcode instr = 0x33) (hf7 : parseFunct7 instr = 1) :
    (parseFunct3 instr = 1 → execute keccak po pc instr cd =
        (writeRegister (parseRd instr)
          (toInt64 (regOf cd (parseRs1 instr)) * toInt64 (regOf cd (parseRs2 instr))
            / 2 ^ 64 % 2 ^ 64).toNat >>= fun _ => setPC (add64 pc 4)) cd) ∧
      (parseFunct3 instr = 2 → execute keccak po pc instr cd =
        (writeRegister (parseRd instr)
          (toInt64 (regOf cd (parseRs1 instr)) * (regOf cd (parseRs2 instr) : Int)
            / 2 ^ 64 % 2 ^ 64).toNat >>= fun _ => setPC (add64 pc 4)) cd) ∧
      (parseFunct3 instr = 3 → execute keccak po pc instr cd =
        (writeRegister (parseRd instr)
          (regOf cd (parseRs1 instr) * regOf cd (parseRs2 instr) / 2 ^ 64 % 2 ^ 64)
            >>= fun _ => setPC (add64 pc 4)) cd) := by
  have ha := regOf_lt cd (parseRs1 instr)
  have hb := regOf_lt cd (parseRs2 instr)
  rw [execute_op keccak po pc instr cd hop, hf7]
  refine ⟨?_, ?_, ?_⟩ <;> intro h
  · simp only [opReg, h, if_true, mulh_value _ _ ha hb]; simp
  · simp only [opReg, h, if_true, mulhsu_value _ _ ha]; simp
  · simp only [opReg, h, if_true, mulhu_value _ _ ha hb]; simp

theorem C14_mulh_upper_bits_witness :
    execute sampleKeccak sampleOracle 0 0x022091B3 (cdRegs 0xFFFFFFFFFFFFFFFF 2) =
      (writeRegister (parseRd 0x022091B3)
        (toInt64 (regOf (cdRegs 0xFFFFFFFFFFFFFFFF 2) (parseRs1 0x022091B3))
          * toInt64 (regOf (cdRegs 0xFFFFFFFFFFFFFFFF 2) (parseRs2 0x022091B3))
          / 2 ^ 64 % 2 ^ 64).toNat
        >>= fun _ => setPC (add64 0 4)) (cdRegs 0xFFFFFFFFFFFFFFFF 2) :=
  (C14_mulh_upper_bits sampleKeccak sampleOracle 0 0x022091B3 (cdRegs 0xFFFFFFFFFFFFFFFF 2)
    (by decide!) (by decide!)).1 (by decide!)

/-- C15 (the code departs from it): for an atomic memory operation (opcode `0x2F`, size 4 or 8,
`op` neither LR nor SC) whose load yields `v`, whose operation yields `w` from `v` and `rs2`
(sign-extended from bit 31 when the size is 4) and whose store of `w` succeeds, the switch
completes, memory holds the store of `w`, and `rd` receives `w`, the value after the operation
(`rdValue := v` is read after `v` has been overwritten), not the loaded value `v`. -/
theorem C15_amo_rd_gets_result (keccak : List Byte → B32) (po : PreImageOracle)
    (pc instr : Nat) (cd cd1 : List Byte) (v w : Nat) (hlen : 4 + stateSize ≤ cd.length)
    (hop : parseOpcode instr = 0x2F)
    (hf3 : parseFunct3 instr = 2 ∨ parseFunct3 instr = 3)
    (hne2 : shr64 2 (parseFunct7 instr) ≠ 2) (hne3 : shr64 2 (parseFunct7 instr) ≠ 3)
    (hload : loadMem keccak (regOf cd (parseRs1 instr)) (shl64 (parseFunct3 instr) 1) true 1 2 cd
      = Res.ok v cd)
    (hamo : amoOp (shr64 2 (parseFunct7 instr)) v
      (if eq64 (shl64 (parseFunct3 instr) 1) 4 ≠ 0
        then mask32Signed64 (regOf cd (parseRs2 instr)) else regOf cd (parseRs2 instr)) cd
      = Res.ok w cd)
    (hstore : storeMem keccak (regOf cd (parseRs1 instr)) (shl64 (parseFunct3 instr) 1) w 1 3 cd
      = Res.ok () cd1) :
    ∃ cd2, execute keccak po pc instr cd = Res.ok () cd2 ∧
      (parseRd instr ≠ 0 → regOf cd2 (parseRd instr) = w % 2 ^ 64) ∧
      memRootOf cd2 = memRootOf cd1 := by
  have hl1 := storeMem_length keccak _ _ _ _ _ cd cd1 hlen hstore
  have hlen1 : 4 + stateSize ≤ cd1.length := by omega
  have hrd := parseRd_le instr
  refine ⟨_, execute_amo_ok keccak po pc instr cd cd1 v w hop hf3 hne2 hne3 hload hamo hstore,
    ?_, ?_⟩
  · intro h0
    rw [regOf_withPC _ _ _ (by rw [length_withRd _ _ _ hrd hlen1]; exact hlen1),
      regOf_withRd_same _ _ _ hrd h0 hlen1]
  · rw [memRootOf_withPC _ _ (by rw [length_withRd _ _ _ hrd hlen1]; exact hlen1),
      memRootOf_withRd _ _ _ hrd hlen1]

theorem C15_amo_rd_gets_result_witness :
    ∃ cd2, execute sampleKeccak sampleOracle 0 0x0020B1AF cdAmo = Res.ok () cd2 ∧
      (parseRd 0x0020B1AF ≠ 0 → regOf cd2 (parseRd 0x0020B1AF) = 5 % 2 ^ 64) ∧
      memRootOf cd2 = memRootOf (writeAt cdAmo 4 (foldRoot sampleKeccak (and64 0x1000 (not64 31) >>> 5) 0
        (patchedLeaf 0x1000 8 5 zeroB32) (proofSiblings cdAmo 1)).val) := by
  have hr1 : regOf cdAmo (parseRs1 0x0020B1AF) = 0x1000 := by decide!
  have hr2 : regOf cdAmo (parseRs2 0x0020B1AF) = 5 := by decide!
  have hsz : shl64 (parseFunct3 0x0020B1AF) 1 = 8 := by decide!
  have hop : shr64 2 (parseFunct7 0x0020B1AF) = 0 := by decide!
  have ha : and64 0x1000 (not64 31) = 0x1000 := by decide!
  exact C15_amo_rd_gets_result sampleKeccak sampleOracle 0 0x0020B1AF cdAmo _ 0 5
    (by rw [cdAmo_length]; decide!) (by decide!) (Or.inr (by decide!)) (by decide!) (by decide!)
    (by rw [hr1, hsz]; exact cdAmo_load 8 (Or.inr rfl))
    (by rw [hr2, hsz, hop]; rfl)
    (by
      rw [hr1, hsz]
      exact storeMem_inside_ok sampleKeccak 0x1000 8 5 1 3 cdAmo zeroB32 (by decide) (by decide)
        (by decide) (by rw [cdAmo_length]; decide!) (by decide!) (by rw [ha]; exact cdAmo_get))

/-- C17, at the one address where it fails: on a state with `loadReservation = 0`, `x1 = 0`,
`x2 = 5`, `x3 = 7` and a valid proof for address 0, the store-conditional `SC.D x3, x2, (x1)`
completes with 0 in `x3` and a changed `memRoot`: the store was performed. -/
theorem C17_sc_at_address_zero_succeeds :
    loadReservationOf cdSc0 = 0 ∧ regOf cdSc0 3 = 7 ∧
      ∃ cd1, execute sampleKeccak sampleOracle 0 0x1820B1AF cdSc0 = Res.ok () cd1 ∧
        regOf cd1 3 = 0 ∧ memRootOf cd1 ≠ memRootOf cdSc0 := by
  have hr1 : regOf cdSc0 (parseRs1 0x1820B1AF) = 0 := by decide!
  have hr2 : regOf cdSc0 (parseRs2 0x1820B1AF) = 5 := by decide!
  have hsz : shl64 (parseFunct3 0x1820B1AF) 1 = 8 := by decide!
  have hrd : parseRd 0x1820B1AF = 3 := by decide!
  have hlen : 4 + stateSize ≤ cdSc0.length := by rw [cdSc0_length]; decide!
  have hex := execute_sc_eq sampleKeccak sampleOracle 0 0x1820B1AF cdSc0 _ (by decide!)
    (Or.inr (by decide!)) (by decide!) (by rw [hr1]; exact cdSc0_regs.2.2.2.symm)
    (by rw [hr1, hr2, hsz]; exact cdSc0_store)
  rw [hrd] at hex
  have hl1 : (writeAt cdSc0 4 (foldRoot sampleKeccak 0 0 (patchedLeaf 0 8 5 zeroB32)
      (List.replicate 59 zeroB32)).val).length = cdSc0.length :=
    length_writeAt _ _ _ (by rw [(foldRoot sampleKeccak 0 0 (patchedLeaf 0 8 5 zeroB32)
      (List.replicate 59 zeroB32)).property, cdSc0_length]; decide)
  refine ⟨cdSc0_regs.2.2.2, cdSc0_regs.2.2.1, _, hex, ?_, ?_⟩
  · rw [regOf_withPC _ _ _ (by
        rw [length_withLoadReservation _ _ (by rw [length_withRd _ _ _ (by decide) (by omega)]; omega),
          length_withRd _ _ _ (by decide) (by omega)]; omega),
      regOf_withLoadReservation _ _ _ (by decide)
        (by rw [length_withRd _ _ _ (by decide) (by omega)]; omega),
      regOf_withRd_same _ _ _ (by decide) (by decide) (by omega)]
    rfl
  · rw [memRootOf_withPC _ _ (by
        rw [length_withLoadReservation _ _ (by rw [length_withRd _ _ _ (by decide) (by omega)]; omega),
          length_withRd _ _ _ (by decide) (by omega)]; omega),
      memRootOf_withLoadReservation _ _ (by rw [length_withRd _ _ _ (by decide) (by omega)]; omega),
      memRootOf_withRd _ _ _ (by decide) (by omega),
      memRootOf_setRoot _ _ (by rw [cdSc0_length]; decide), cdSc0_root]
    exact cdSc0_newRoot

/-- C17, amended: on a state with `loadReservation = 0`, a store-conditional (opcode `0x2F`,
size 4 or 8, `op = 3`) whose address `x[rs1]` is not 0 completes with 1 in `rd`, leaves
`memRoot` unchanged and leaves `loadReservation = 0`. -/
theorem C17_sc_without_reservation (keccak : List Byte → B32) (po : PreImageOracle)
    (pc instr : Nat) (cd : List Byte) (hlen : 4 + stateSize ≤ cd.length)
    (hop : parseOpcode instr = 0x2F) (hf3 : parseFunct3 instr = 2 ∨ parseFunct3 instr = 3)
    (hop2 : shr64 2 (parseFunct7 instr) = 3) (hres : loadReservationOf cd = 0)
    (haddr : regOf cd (parseRs1 instr) ≠ 0) :
    ∃ cd1, execute keccak po pc instr cd = Res.ok () cd1 ∧
      (parseRd instr ≠ 0 → regOf cd1 (parseRd instr) = 1) ∧
      memRootOf cd1 = memRootOf cd ∧ loadReservationOf cd1 = 0 := by
  have hrd := parseRd_le instr
  have h4 : (withRd cd (parseRd instr) 1).length = cd.length := length_withRd _ _ _ hrd hlen
  have h5 : (withLoadReservation (withRd cd (parseRd instr) 1) 0).length = cd.length := by
    rw [length_withLoadReservation _ _ (by omega), h4]
  refine ⟨_, execute_sc_ne keccak po pc instr cd hop hf3 hop2 (by rw [hres]; exact haddr),
    ?_, ?_, ?_⟩
  · intro h0
    rw [regOf_withPC _ _ _ (by omega), regOf_withLoadReservation _ _ _ (by omega) (by omega),
      regOf_withRd_same _ _ _ hrd h0 hlen]
    rfl
  · rw [memRootOf_withPC _ _ (by omega), memRootOf_withLoadReservation _ _ (by omega),
      memRootOf_withRd _ _ _ hrd hlen]
  · rw [loadReservationOf_withPC _ _ (by omega),
      loadReservationOf_withLoadReservation _ _ (by omega)]
    rfl

theorem C17_sc_without_reservation_witness :
    ∃ cd1, execute sampleKeccak sampleOracle 0 0x1820B1AF (cdRegs 0x1000 5) = Res.ok () cd1 ∧
      (parseRd 0x1820B1AF ≠ 0 → regOf cd1 (parseRd 0x1820B1AF) = 1) ∧
      memRootOf cd1 = memRootOf (cdRegs 0x1000 5) ∧ loadReservationOf cd1 = 0 :=
  C17_sc_without_reservation sampleKeccak sampleOracle 0 0x1820B1AF (cdRegs 0x1000 5)
    (by decide!) (by decide!) (Or.inr (by decide!)) (by decide!) (by decide!) (by decide!)

/-- C18 (the code departs from it): on a non-exited state whose verified leaf holds the word
`0x00000073` (ECALL) at `pc` and whose `a7` is 93 or 94, `Step` ends with the error
`0xf001c0de` and leaves the buffer as it was: `exited` stays 0 and `exitCode` is not set,
because the fetch yields the word 0 whatever the leaf holds. -/
theorem C18_step_exit_reverts (keccak : List Byte → B32) (po : PreImageOracle)
    (cd : List Byte) (leaf : B32) (hlen : 4 + stateSize ≤ cd.length)
    (hex : readState stateOffsetExited 1 cd = [0]) (hpc : pcOf cd % 32 ≤ 28)
    (hproof : getMemoryB32 keccak (and64 (pcOf cd) (not64 31)) 0 cd = Res.ok leaf cd)
    (_hword : (leaf.val.drop (pcOf cd % 32)).take 4 = [0x73, 0, 0, 0])
    (_ha7 : regOf cd 17 = 93 ∨ regOf cd 17 = 94) :
    Step keccak po cd = some ⟨zeroB32, some 0xf001c0de, cd⟩ ∧ getExited cd = false :=
  ⟨step_of_fetch keccak po cd leaf hlen hex hpc hproof, by simp [getExited, hex]⟩

theorem C18_step_exit_reverts_witness :
    Step sampleKeccak sampleOracle cdExit = some ⟨zeroB32, some 0xf001c0de, cdExit⟩ ∧
      getExited cdExit = false := by
  have hpc : and64 (pcOf cdExit) (not64 31) = 0 := by decide!
  exact C18_step_exit_reverts sampleKeccak sampleOracle cdExit (padB32 ecallLeaf)
    (by rw [cdExit_length]; decide!) (by decide!) (by decide!) (by rw [hpc]; exact cdExit_fetch)
    (by decide!) (Or.inl cdExit_regs.2.1)

/-- C19, where it fails: on the state of scenario S6 (`pc = 0`, `a7 = 93`, `a0 = 42`, the word
`0x00000073` at address 0) `Step` ends with an error and `exited` stays 0; and the switch,
applied to `pc = 0` and the ECALL word on that state, leaves `exited = 1`, `exitCode = 42` and
`pc = 4`, not `pc = 0`. -/
theorem C19_exit_at_pc_zero :
    pcOf cdExit = 0 ∧
      Step sampleKeccak sampleOracle cdExit = some ⟨zeroB32, some 0xf001c0de, cdExit⟩ ∧
      getExited cdExit = false ∧
      ∃ cd1, execute sampleKeccak sampleOracle 0 0x00000073 cdExit = Res.ok () cd1 ∧
        pcOf cd1 = 4 ∧ getExited cd1 = true ∧ exitCodeOf cd1 = [42] := by
  have hlen : 4 + stateSize ≤ cdExit.length := by rw [cdExit_length]; decide!
  have hex := execute_exit sampleKeccak sampleOracle 0 0x00000073 cdExit (by decide!)
    (by decide!) (by decide!) (Or.inl cdExit_regs.2.1)
  have hs := exit_state cdExit 0 (toByte (regOf cdExit 10)) hlen
  rw [cdExit_regs.1] at hex hs
  exact ⟨cdExit_regs.2.2, cdExit_step, by decide!, _, hex, hs.1, hs.2.1, hs.2.2.1⟩

/-- C19, amended: when the switch executes ECALL (`0x73`, `funct3 = 0`, `imm12 = 0`) with `a7`
equal to 93 or 94, it completes, sets `exitCode` to the low byte of `a0` and `exited` to 1,
leaves all 32 registers and `memRoot` unchanged, and sets `pc` to `pc + 4` modulo `2^64`. -/
theorem C19_exit_advances_pc (keccak : List Byte → B32) (po : PreImageOracle) (pc instr : Nat)
    (cd : List Byte) (hlen : 4 + stateSize ≤ cd.length) (hop : parseOpcode instr = 0x73)
    (hf3 : parseFunct3 instr = 0) (himm : shr64 20 instr = 0)
    (ha7 : regOf cd 17 = 93 ∨ regOf cd 17 = 94) :
    ∃ cd1, execute keccak po pc instr cd = Res.ok () cd1 ∧
      pcOf cd1 = add64 pc 4 ∧ getExited cd1 = true ∧
      exitCodeOf cd1 = [toByte (regOf cd 10)] ∧
      (∀ r, r ≤ 31 → regOf cd1 r = regOf cd r) ∧ memRootOf cd1 = memRootOf cd :=
  ⟨_, execute_exit keccak po pc instr cd hop hf3 himm ha7, exit_state cd pc _ hlen⟩

theorem C19_exit_advances_pc_witness :
    ∃ cd1, execute sampleKeccak sampleOracle 8 0x00000073 cdExit = Res.ok () cd1 ∧
      pcOf cd1 = add64 8 4 ∧ getExited cd1 = true ∧
      exitCodeOf cd1 = [toByte (regOf cdExit 10)] ∧
      (∀ r, r ≤ 31 → regOf cd1 r = regOf cdExit r) ∧ memRootOf cd1 = memRootOf cdExit :=
  C19_exit_advances_pc sampleKeccak sampleOracle 8 0x00000073 cdExit
    (by rw [cdExit_length]; decide!) (by decide!) (by decide!) (by decide!)
    (Or.inl cdExit_regs.2.1)

/-- C20: for the system call `mmap` (`a7 = 222`) the call completes and `a1` becomes 0; when
`a0 = 0`, `a0` receives the previous `heap` and `heap` becomes `heap + n'` modulo `2^64`, where
`n'` is `a1` rounded up to a multiple of 4096; when `a0 != 0`, `a0` and `heap` are unchanged. -/
theorem C20_mmap (keccak : List Byte → B32) (po : PreImageOracle) (cd : List Byte)
    (hlen : 4 + stateSize ≤ cd.length) (ha7 : regOf cd 17 = 222) :
    ∃ cd1, sysCall keccak po cd = Res.ok () cd1 ∧ regOf cd1 11 = 0 ∧
      (regOf cd 10 = 0 → regOf cd1 10 = heapOf cd ∧
        heapOf cd1 = (heapOf cd + (regOf cd 11 + 4095) / 4096 * 4096) % 2 ^ 64) ∧
      (regOf cd 10 ≠ 0 → regOf cd1 10 = regOf cd 10 ∧ heapOf cd1 = heapOf cd) := by
  have hh : heapOf cd < 2 ^ 64 := decodeU64_lt _ (length_slice_le _ _ _)
  have ha1 := regOf_lt cd 11
  refine ⟨_, sysCall_mmap keccak po cd ha7, ?_, ?_, ?_⟩
  · by_cases h0 : regOf cd 10 = 0
    · rw [if_pos h0, regOf_withRd_same _ _ _ (by decide) (by decide)
        (by rw [length_withHeap _ _ (by rw [length_withRd _ _ _ (by decide) hlen]; exact hlen),
          length_withRd _ _ _ (by decide) hlen]; exact hlen)]
      rfl
    · rw [if_neg h0, regOf_withRd_same _ _ _ (by decide) (by decide) hlen]
      rfl
  · intro h0
    have hl1 : (withRd cd 10 (heapOf cd)).length = cd.length := length_withRd _ _ _ (by decide) hlen
    have hl2 : (withHeap (withRd cd 10 (heapOf cd))
        (add64 (heapOf cd)
          (if and64 (regOf cd 11) 4095 ≠ 0
            then add64 (regOf cd 11) (sub64 4096 (and64 (regOf cd 11) 4095))
            else regOf cd 11))).length = cd.length := by
      rw [length_withHeap _ _ (by omega), hl1]
    rw [if_pos h0]
    constructor
    · rw [regOf_withRd_other _ _ _ _ (by decide) (by decide) (by omega),
        regOf_withHeap _ _ _ (by decide) (by omega),
        regOf_withRd_same _ _ _ (by decide) (by decide) hlen]
      exact Nat.mod_eq_of_lt hh
    · rw [heapOf_withRd _ _ _ (by decide) (by omega), heapOf_withHeap _ _ (by omega), add64_mod]
      have hand : and64 (regOf cd 11) 4095 = regOf cd 11 % 4096 :=
        Nat.and_pow_two_sub_one_eq_mod _ 12
      rw [hand]
      generalize regOf cd 11 = a at ha1 ⊢
      generalize heapOf cd = hp at hh ⊢
      simp only [add64, sub64, Nat.reducePow] at *
      split <;> omega
  · intro h0
    rw [if_neg h0]
    constructor
    · rw [regOf_withRd_other _ _ _ _ (by decide) (by decide) hlen]
    · rw [heapOf_withRd _ _ _ (by decide) hlen]

theorem C20_mmap_witness :
    ∃ cd1, sysCall sampleKeccak sampleOracle (cdMmap 0 5000) = Res.ok () cd1 ∧
      regOf cd1 11 = 0 ∧
      (regOf (cdMmap 0 5000) 10 = 0 → regOf cd1 10 = heapOf (cdMmap 0 5000) ∧
        heapOf cd1 = (heapOf (cdMmap 0 5000) + (regOf (cdMmap 0 5000) 11 + 4095) / 4096 * 4096)
          % 2 ^ 64) ∧
      (regOf (cdMmap 0 5000) 10 ≠ 0 → regOf cd1 10 = regOf (cdMmap 0 5000) 10 ∧
        heapOf cd1 = heapOf (cdMmap 0 5000)) :=
  C20_mmap sampleKeccak sampleOracle (cdMmap 0 5000) (by decide!) (by decide!)

/-- C21 (the code departs from it): on a non-exited state whose verified leaf holds a JALR
word (opcode `0x67`) at `pc`, `Step` ends with the error `0xf001c0de` and leaves the buffer as
it was: neither `pc` nor `x[rd]` is written, because the fetch yields the word 0 whatever the
leaf holds. -/
theorem C21_step_jalr_reverts (keccak : List Byte → B32) (po : PreImageOracle)
    (cd : List Byte) (leaf : B32) (instr : Nat) (hlen : 4 + stateSize ≤ cd.length)
    (hex : readState stateOffsetExited 1 cd = [0]) (hpc : pcOf cd % 32 ≤ 28)
    (hproof : getMemoryB32 keccak (and64 (pcOf cd) (not64 31)) 0 cd = Res.ok leaf cd)
    (_hword : (leaf.val.drop (pcOf cd % 32)).take 4 = (encodeU64 instr).take 4)
    (_hop : parseOpcode instr = 0x67) :
    Step keccak po cd = some ⟨zeroB32, some 0xf001c0de, cd⟩ :=
  step_of_fetch keccak po cd leaf hlen hex hpc hproof

theorem C21_step_jalr_reverts_witness :
    Step sampleKeccak sampleOracle cdJalr = some ⟨zeroB32, some 0xf001c0de, cdJalr⟩ := by
  have hpc : and64 (pcOf cdJalr) (not64 31) = 0 := by decide!
  exact C21_step_jalr_reverts sampleKeccak sampleOracle cdJalr (padB32 jalrLeaf) 0x004080E7
    (by rw [cdJalr_length]; decide!) (by decide!) (by decide!) (by rw [hpc]; exact cdJalr_fetch)
    (by decide!) (by decide!)

/-- C27: with `a = x[rs1]`, SRAW (`s` = low 5 bits of `x[rs2]`) and SRAIW (`s` = low 5 bits of
the immediate) write to `rd` the 64-bit word of `floor(signed32(a) / 2^s)`, the arithmetic
right shift of the low 32 bits of `a` sign-extended to 64 bits; SRLW and SRLIW write the
logical right shift by `s` of the low 32 bits of `a`, sign-extended from bit 31. -/
theorem C27_word_right_shifts (keccak : List Byte → B32) (po : PreImageOracle)
    (pc instr : Nat) (cd : List Byte) (hf3 : parseFunct3 instr = 5) :
    (parseOpcode instr = 0x3B →
      (parseFunct7 instr = 0x20 → execute keccak po pc instr cd =
        (writeRegister (parseRd instr)
          (ofInt64 (toInt32 (regOf cd (parseRs1 instr)) / 2 ^ (regOf cd (parseRs2 instr) % 32)))
          >>= fun _ => setPC (add64 pc 4)) cd) ∧
      (parseFunct7 instr = 0x00 → execute keccak po pc instr cd =
        (writeRegister (parseRd instr)
          (signExtend64 ((regOf cd (parseRs1 instr) % 2 ^ 32)
            >>> (regOf cd (parseRs2 instr) % 32)) 31)
          >>= fun _ => setPC (add64 pc 4)) cd)) ∧
    (parseOpcode instr = 0x1B →
      (shr64 6 (parseImmTypeI instr) = 0x10 → execute keccak po pc instr cd =
        (writeRegister (parseRd instr)
          (ofInt64 (toInt32 (regOf cd (parseRs1 instr)) / 2 ^ (parseImmTypeI instr % 32)))
          >>= fun _ => setPC (add64 pc 4)) cd) ∧
      (shr64 6 (parseImmTypeI instr) = 0x00 → execute keccak po pc instr cd =
        (writeRegister (parseRd instr)
          (signExtend64 ((regOf cd (parseRs1 instr) % 2 ^ 32)
            >>> (parseImmTypeI instr % 32)) 31)
          >>= fun _ => setPC (add64 pc 4)) cd)) := by
  have hs1 : regOf cd (parseRs2 instr) % 32 ≤ 31 := by omega
  have hs2 : parseImmTypeI instr % 32 ≤ 31 := by omega
  refine ⟨fun hop => ?_, fun hop => ?_⟩
  · rw [execute_op32 keccak po pc instr cd hop, hf3]
    constructor <;> intro h7
    · have hne : ¬ ((0x20 : Nat) = 1) := by decide
      simp only [opReg32, h7, hne, if_false, and64_1F, sraw_value _ _ hs1]
      simp
    · have hne : ¬ ((0x00 : Nat) = 1) := by decide
      simp only [opReg32, h7, hne, if_false, and64_1F, and64_u32Mask, shr64]
      simp
  · rw [execute_opimm32 keccak po pc instr cd hop, hf3]
    constructor <;> intro h7
    · simp only [opImm32, h7, and64_1F, sraw_value _ _ hs2]
      simp
    · simp only [opImm32, h7, and64_1F, and64_u32Mask]
      simp [shr64]

theorem C27_word_right_shifts_witness :
    execute sampleKeccak sampleOracle 0 0x4020D1BB (cdRegs 0x80000000 4) =
      (writeRegister (parseRd 0x4020D1BB)
        (ofInt64 (toInt32 (regOf (cdRegs 0x80000000 4) (parseRs1 0x4020D1BB))
          / 2 ^ (regOf (cdRegs 0x80000000 4) (parseRs2 0x4020D1BB) % 32)))
        >>= fun _ => setPC (add64 0 4)) (cdRegs 0x80000000 4) :=
  ((C27_word_right_shifts sampleKeccak sampleOracle 0 0x4020D1BB (cdRegs 0x80000000 4)
    (by decide!)).1 (by decide!)).1 (by decide!)

/-- C26: on a non-exited state whose fetch succeeds with the word `instr`, `Step` returns the
error `0xf001c0de` exactly when `bits[6:0]` of `instr` is none of the 17 opcodes of the switch;
the switch itself, on every word and every buffer, reverts with `0xf001c0de` exactly in that
case; and for the opcodes `0x0F`, `0x07`, `0x27`, `0x53` it completes, sets `pc` to `pc + 4`
and leaves every byte of the state record outside the `pc` field as it was. -/
theorem C26_unknown_opcode :
    (∀ (keccak : List Byte → B32) (po : PreImageOracle) (cd : List Byte) (instr : Nat),
      4 + stateSize ≤ cd.length → getExited cd = false →
      loadMem keccak (pcOf cd) 4 false 0 0xff cd = Res.ok instr cd →
        ((∃ r, Step keccak po cd = some r ∧ r.outErr = some 0xf001c0de)
          ↔ parseOpcode instr ∉ knownOpcodes)) ∧
    (∀ (keccak : List Byte → B32) (po : PreImageOracle) (pc instr : Nat) (cd : List Byte),
      (∃ cd1, execute keccak po pc instr cd = Res.revert 0xf001c0de cd1)
        ↔ parseOpcode instr ∉ knownOpcodes) ∧
    (∀ (keccak : List Byte → B32) (po : PreImageOracle) (pc instr : Nat) (cd : List Byte),
      4 + stateSize ≤ cd.length →
      (parseOpcode instr = 0x0F ∨ parseOpcode instr = 0x07 ∨ parseOpcode instr = 0x27
        ∨ parseOpcode instr = 0x53) →
        execute keccak po pc instr cd = Res.ok () (withPC cd (add64 pc 4)) ∧
        pcOf (withPC cd (add64 pc 4)) = add64 pc 4 ∧
        ∀ off n, off + n ≤ 72 ∨ 80 ≤ off →
          readState off n (withPC cd (add64 pc 4)) = readState off n cd) :=
  ⟨fun keccak po cd instr hlen hex hfetch => step_unknown_iff keccak po cd instr hlen hex hfetch,
    execute_unknown_iff,
    fun keccak po pc instr cd hlen hop =>
      ⟨execute_noop keccak po pc instr cd hop,
        by rw [pcOf_withPC _ _ hlen, add64_mod],
        fun off n hd => readState_withPC cd _ off n hlen hd⟩⟩

theorem C26_unknown_opcode_witness :
    ((∃ r, Step sampleKeccak sampleOracle cdAddi = some r ∧ r.outErr = some 0xf001c0de)
        ↔ parseOpcode 0 ∉ knownOpcodes) ∧
      (execute sampleKeccak sampleOracle 0 0x0000000F (cdRegs 0 0)
          = Res.ok () (withPC (cdRegs 0 0) (add64 0 4)) ∧
        pcOf (withPC (cdRegs 0 0) (add64 0 4)) = add64 0 4 ∧
        ∀ off n, off + n ≤ 72 ∨ 80 ≤ off →
          readState off n (withPC (cdRegs 0 0) (add64 0 4)) = readState off n (cdRegs 0 0)) := by
  have hpc : pcOf cdAddi = 0 := by decide!
  exact ⟨C26_unknown_opcode.1 sampleKeccak sampleOracle cdAddi 0
      (by rw [cdAddi_length]; decide!) (by decide!)
      (by
        rw [hpc]
        exact loadMem_inside_ok sampleKeccak 0 4 false 0 0xff cdAddi (padB32 addiLeaf)
          (by decide) (by decide!) cdAddi_fetch),
    C26_unknown_opcode.2.2 sampleKeccak sampleOracle 0 0x0000000F (cdRegs 0 0) (by decide!)
      (Or.inl (by decide!))⟩

/-- C28 (the code departs from it): the word `0x0020C023` is a store (opcode `0x23`) whose
`funct3 = 4` gives the size 16, and on a state with `x1 = 0x1000`, `x2 = 5` and a valid proof
the switch completes and changes `memRoot`; the word `0x1820C1AF` is a store-conditional
(opcode `0x2F`) of size 16, and on a state with `x1 = 0 = loadReservation` and a valid proof
the switch completes with a changed `memRoot` as well. -/
theorem C28_store_of_16_bytes :
    (parseOpcode 0x0020C023 = 0x23 ∧ shl64 (parseFunct3 0x0020C023) 1 = 16 ∧
      ∃ cd1, execute sampleKeccak sampleOracle 0 0x0020C023 cdAmo = Res.ok () cd1 ∧
        memRootOf cd1 ≠ memRootOf cdAmo) ∧
    (parseOpcode 0x1820C1AF = 0x2F ∧ shl64 (parseFunct3 0x1820C1AF) 1 = 16 ∧
      ∃ cd1, execute sampleKeccak sampleOracle 0 0x1820C1AF cdSc0 = Res.ok () cd1 ∧
        memRootOf cd1 ≠ memRootOf cdSc0) := by
  constructor
  · have hr1 : regOf cdAmo (parseRs1 0x0020C023) = 0x1000 := by decide!
    have hr2 : regOf cdAmo (parseRs2 0x0020C023) = 5 := by decide!
    have hsz : shl64 (parseFunct3 0x0020C023) 1 = 16 := by decide!
    have hadd : add64 0x1000 (signExtend64 (parseImmTypeS 0x0020C023) 11) = 0x1000 := by decide!
    have hl1 : (writeAt cdAmo 4 (foldRoot sampleKeccak (0x1000 >>> 5) 0
        (patchedLeaf 0x1000 16 5 zeroB32) (List.replicate 59 zeroB32)).val).length
          = cdAmo.length :=
      length_writeAt _ _ _ (by rw [(foldRoot sampleKeccak (0x1000 >>> 5) 0
        (patchedLeaf 0x1000 16 5 zeroB32) (List.replicate 59 zeroB32)).property, cdAmo_length]
                               decide)
    have hlen : 4 + stateSize ≤ cdAmo.length := by rw [cdAmo_length]; decide!
    have hex : execute sampleKeccak sampleOracle 0 0x0020C023 cdAmo = Res.ok ()
        (withPC (writeAt cdAmo 4 (foldRoot sampleKeccak (0x1000 >>> 5) 0
          (patchedLeaf 0x1000 16 5 zeroB32) (List.replicate 59 zeroB32)).val) (add64 0 4)) := by
      rw [execute_store sampleKeccak sampleOracle 0 0x0020C023 cdAmo (by decide!), hr1, hr2, hsz,
        hadd, bind_of_ok _ _ _ _ _ cdAmo_store16, setPC_eq]
    refine ⟨by decide!, hsz, _, hex, ?_⟩
    rw [memRootOf_withPC _ _ (by omega),
      memRootOf_setRoot _ _ (by rw [cdAmo_length]; decide), cdAmo_root]
    exact cdAmo_newRoot16
  · have hr1 : regOf cdSc0 (parseRs1 0x1820C1AF) = 0 := by decide!
    have hr2 : regOf cdSc0 (parseRs2 0x1820C1AF) = 5 := by decide!
    have hsz : shl64 (parseFunct3 0x1820C1AF) 1 = 16 := by decide!
    have hrd : parseRd 0x1820C1AF ≤ 31 := parseRd_le _
    have hlen : 4 + stateSize ≤ cdSc0.length := by rw [cdSc0_length]; decide!
    have hl1 : (writeAt cdSc0 4 (foldRoot sampleKeccak 0 0 (patchedLeaf 0 16 5 zeroB32)
        (List.replicate 59 zeroB32)).val).length = cdSc0.length :=
      length_writeAt _ _ _ (by rw [(foldRoot sampleKeccak 0 0 (patchedLeaf 0 16 5 zeroB32)
        (List.replicate 59 zeroB32)).property, cdSc0_length]
                               decide)
    have hex := execute_sc_eq_size sampleKeccak sampleOracle 0 0x1820C1AF cdSc0 _ (by decide!)
      (by decide!) (by decide!) (by rw [hr1]; exact cdSc0_regs.2.2.2.symm)
      (by rw [hr1, hr2, hsz]; exact cdSc0_store16)
    refine ⟨by decide!, hsz, _, hex, ?_⟩
    rw [memRootOf_withPC _ _ (by
        rw [length_withLoadReservation _ _ (by rw [length_withRd _ _ _ hrd (by omega)]; omega),
          length_withRd _ _ _ hrd (by omega)]; omega),
      memRootOf_withLoadReservation _ _ (by rw [length_withRd _ _ _ hrd (by omega)]; omega),
      memRootOf_withRd _ _ _ hrd (by omega),
      memRootOf_setRoot _ _ (by rw [cdSc0_length]; decide), cdSc0_root]
    exact cdSc0_newRoot16

/-- C24: with a valid proof 1 for the leaf that contains `addr`, `writePreimageKey(addr, count)`
returns `c = min(count, 32 - (addr & 31))`; the bytes of the new `preimageKey` are the last
`32 - c` bytes of the old key followed by the `c` bytes of the leaf from `addr & 31` on, so that
as a big-endian word it is `(old key << 8c) mod 2^256` or-ed with those `c` bytes right-aligned;
and `preimageOffset` is 0. -/
theorem C24_writePreimageKey (keccak : List Byte → B32) (addr count : Nat) (cd : List Byte)
    (leaf : B32) (hlen : 4 + stateSize ≤ cd.length)
    (hget : getMemoryB32 keccak (sub64 addr (and64 addr 31)) 1 cd = Res.ok leaf cd) :
    ∃ cd1, writePreimageKey keccak addr count cd = Res.ok (min count (32 - addr % 32)) cd1 ∧
      (preimageKeyOf cd1).val = (preimageKeyOf cd).val.drop (min count (32 - addr % 32))
        ++ (leaf.val.drop (addr % 32)).take (min count (32 - addr % 32)) ∧
      b32asBEWord (preimageKeyOf cd1)
        = (b32asBEWord (preimageKeyOf cd) <<< (8 * min count (32 - addr % 32))) % 2 ^ 256
          ||| beValue ((leaf.val.drop (addr % 32)).take (min count (32 - addr % 32))) ∧
      preimageOffsetOf cd1 = 0 := by
  have hac : addr % 32 + min count (32 - addr % 32) ≤ 32 := by omega
  have hs := preimage_state cd
    (beWordAsB32 (or (shl (8 * min count (32 - addr % 32)) (b32asBEWord (preimageKeyOf cd)))
      (shr (8 * (32 - min count (32 - addr % 32)))
        (shl (8 * (addr % 32)) (b32asBEWord leaf))))) 0 hlen
  refine ⟨_, writePreimageKey_eq keccak addr count cd leaf hget, ?_, ?_, ?_⟩
  · rw [hs.1]
    exact newKey_bytes (preimageKeyOf cd) leaf _ _ hac
  · rw [hs.1, b32_beWord _ (keyWord_lt _ _ _ _), datWord_eq leaf _ _ hac]
    rfl
  · exact hs.2.trans (by norm_num)

theorem C24_writePreimageKey_witness :
    ∃ cd1, writePreimageKey sampleKeccak 0x1004 40 cdAmo
        = Res.ok (min 40 (32 - 0x1004 % 32)) cd1 ∧
      (preimageKeyOf cd1).val = (preimageKeyOf cdAmo).val.drop (min 40 (32 - 0x1004 % 32))
        ++ (zeroB32.val.drop (0x1004 % 32)).take (min 40 (32 - 0x1004 % 32)) ∧
      b32asBEWord (preimageKeyOf cd1)
        = (b32asBEWord (preimageKeyOf cdAmo) <<< (8 * min 40 (32 - 0x1004 % 32))) % 2 ^ 256
          ||| beValue ((zeroB32.val.drop (0x1004 % 32)).take (min 40 (32 - 0x1004 % 32))) ∧
      preimageOffsetOf cd1 = 0 := by
  have ha : sub64 0x1004 (and64 0x1004 31) = 0x1000 := by decide!
  exact C24_writePreimageKey sampleKeccak 0x1004 40 cdAmo zeroB32
    (by rw [cdAmo_length]; decide!) (by rw [ha]; exact cdAmo_get)

/-- C25: when the oracle answers `(chunk, length)` for the current key and offset:
if `length = 0`, `readPreimageValue` returns 0 and leaves the buffer as it was; otherwise, with
a valid proof 1 for the leaf that contains `addr`, it returns
`n = min(count, 32 - (addr & 31), length)`, the leaf handed to `setMemoryB32` is the verified
leaf with its bytes `[addr & 31, (addr & 31) + n)` replaced by the first `n` bytes of the chunk
(so it is the verified leaf itself when `n = 0`), `memRoot` becomes the root folded from that
leaf, and `preimageOffset` becomes the old offset plus `n` modulo `2^64`. -/
theorem C25_readPreimageValue (keccak : List Byte → B32) (po : PreImageOracle)
    (addr count : Nat) (cd : List Byte) (chunk : B32) (len : Byte)
    (hlen : proofOffset 1 + 64 * 32 ≤ cd.length)
    (hpo : po (preimageKeyOf cd) (preimageOffsetOf cd) = some (chunk, len)) :
    (len.val = 0 → readPreimageValue keccak po addr count cd = Res.ok 0 cd) ∧
      (len.val ≠ 0 → ∀ leaf,
        getMemoryB32 keccak (sub64 addr (and64 addr 31)) 1 cd = Res.ok leaf cd →
        ∃ newLeaf cd1,
          newLeaf.val = leaf.val.take (addr % 32)
            ++ chunk.val.take (min (min count (32 - addr % 32)) len.val)
            ++ leaf.val.drop (addr % 32 + min (min count (32 - addr % 32)) len.val) ∧
          readPreimageValue keccak po addr count cd
            = Res.ok (min (min count (32 - addr % 32)) len.val) cd1 ∧
          memRootOf cd1 = foldRoot keccak (sub64 addr (and64 addr 31) >>> 5) 0 newLeaf
            (proofSiblings cd 1) ∧
          preimageOffsetOf cd1
            = add64 (preimageOffsetOf cd) (min (min count (32 - addr % 32)) len.val)) := by
  refine ⟨readPreimageValue_eof keccak po addr count cd chunk len hpo, ?_⟩
  intro h0 leaf hget
  obtain ⟨e1, e2, e3, e4, e5, e6, e7, e8, e9⟩ := offsets_eq
  have hpo1 := proofOffset_eq 1 (by decide)
  have hst : 4 + stateSize ≤ cd.length := by omega
  have han : addr % 32 + min (min count (32 - addr % 32)) len.val ≤ 32 := by omega
  have hfr := getMemoryB32_frame keccak (sub64 addr (and64 addr 31)) 1 cd leaf
    stateOffsetPreimageOffset
    (encodeU64 (add64 (preimageOffsetOf cd) (min (min count (32 - addr % 32)) len.val)))
    (by decide) hlen (by omega) (by rw [length_encodeU64]; omega) hget
  have hl1 : (withPreimageOffset cd
      (add64 (preimageOffsetOf cd) (min (min count (32 - addr % 32)) len.val))).length
        = cd.length := length_write8 cd _ _ hst (by omega)
  have hset := setMemoryB32_eq keccak (sub64 addr (and64 addr 31))
    (beWordAsB32 (or (and (b32asBEWord leaf)
        (not (shr (8 * (addr % 32))
          (not (sub (shl (8 * (32 - min (min count (32 - addr % 32)) len.val)) 1) 1)))))
      (and (shr (8 * (addr % 32)) (b32asBEWord chunk))
        (shr (8 * (addr % 32))
          (not (sub (shl (8 * (32 - min (min count (32 - addr % 32)) len.val)) 1) 1)))))) 1
    (withPreimageOffset cd
      (add64 (preimageOffsetOf cd) (min (min count (32 - addr % 32)) len.val)))
    (by decide) (by rw [hl1]; exact hlen) (aligned_of_get keccak _ 1 cd leaf hget)
  have hbytes := newLeaf_bytes leaf chunk _ _ han
  obtain ⟨cd1, hcd1⟩ : ∃ cd1, setMemoryB32 keccak (sub64 addr (and64 addr 31))
      (beWordAsB32 (or (and (b32asBEWord leaf)
          (not (shr (8 * (addr % 32))
            (not (sub (shl (8 * (32 - min (min count (32 - addr % 32)) len.val)) 1) 1)))))
        (and (shr (8 * (addr % 32)) (b32asBEWord chunk))
          (shr (8 * (addr % 32))
            (not (sub (shl (8 * (32 - min (min count (32 - addr % 32)) len.val)) 1) 1)))))) 1
      (withPreimageOffset cd
        (add64 (preimageOffsetOf cd) (min (min count (32 - addr % 32)) len.val)))
      = Res.ok () cd1 := ⟨_, hset⟩
  have hcd := (Res.ok.inj (hcd1.symm.trans hset)).2
  have hrun : readPreimageValue keccak po addr count cd
      = Res.ok (min (min count (32 - addr % 32)) len.val) cd1 := by
    rw [readPreimageValue_eq keccak po addr count cd chunk len hpo h0]
    simp only [bind_apply, pure_apply, setPreimageOffset, writeState]
    have h1 := hfr.1
    unfold withPreimageOffset at hcd1
    rw [h1]
    simp only []
    rw [hcd1]
  refine ⟨_, cd1, hbytes, hrun, ?_, ?_⟩
  · rw [hcd, memRootOf_setRoot _ _ (by rw [hl1]; omega)]
    unfold withPreimageOffset
    rw [hfr.2]
  · rw [hcd, preimageOffsetOf_setRoot _ _ (by rw [hl1]; exact hst)]
    unfold preimageOffsetOf withPreimageOffset
    rw [field_write_same cd _ _ hst (by omega), add64_mod]

theorem C25_readPreimageValue_witness :
    ∃ newLeaf cd1,
      newLeaf.val = zeroB32.val.take (0x1004 % 32)
        ++ ((List.range 32).map (fun i => toByte (i + 1))).take
          (min (min 40 (32 - 0x1004 % 32)) (5 : Byte).val)
        ++ zeroB32.val.drop (0x1004 % 32 + min (min 40 (32 - 0x1004 % 32)) (5 : Byte).val) ∧
      readPreimageValue sampleKeccak chunkOracle 0x1004 40 cdAmo
        = Res.ok (min (min 40 (32 - 0x1004 % 32)) (5 : Byte).val) cd1 ∧
      memRootOf cd1 = foldRoot sampleKeccak (sub64 0x1004 (and64 0x1004 31) >>> 5) 0 newLeaf
        (proofSiblings cdAmo 1) ∧
      preimageOffsetOf cd1
        = add64 (preimageOffsetOf cdAmo) (min (min 40 (32 - 0x1004 % 32)) (5 : Byte).val) := by
  have ha : sub64 0x1004 (and64 0x1004 31) = 0x1000 := by decide!
  exact (C25_readPreimageValue sampleKeccak chunkOracle 0x1004 40 cdAmo _ 5
    (by rw [cdAmo_length]; decide!) rfl).2 (by decide) zeroB32 (by rw [ha]; exact cdAmo_get)

/-- C22: for LUI (opcode `0x37`) the switch completes and `rd` (when it is not `x0`) receives
the field `imm = bits[31:12]` shifted left by 12 and sign-extended from bit 31 to 64 bits: the
low 32 bits of `rd` are `imm * 4096`, and the upper 32 bits are all ones when bit 31 of
the instruction is set, all zeros when it is clear. -/
theorem C22_lui_sign_extended (keccak : List Byte → B32) (po : PreImageOracle)
    (pc instr : Nat) (cd : List Byte) (hlen : 4 + stateSize ≤ cd.length)
    (hop : parseOpcode instr = 0x37) (hrd : parseRd instr ≠ 0) :
    ∃ cd1, execute keccak po pc instr cd = Res.ok () cd1 ∧
      regOf cd1 (parseRd instr) = signExtend64 (bits 31 12 instr <<< 12) 31 ∧
      regOf cd1 (parseRd instr) % 2 ^ 32 = bits 31 12 instr * 4096 ∧
      (instr.testBit 31 = true → regOf cd1 (parseRd instr) / 2 ^ 32 = 2 ^ 32 - 1) ∧
      (instr.testBit 31 = false → regOf cd1 (parseRd instr) / 2 ^ 32 = 0) := by
  have hb := bits_lt 31 12 instr
  have hv := lui_value (bits 31 12 instr) hb
  rw [testBit_bits_31_12] at hv
  have hs := (jump_state cd (parseRd instr) (shl64 12 (parseImmTypeU instr)) (add64 pc 4)
    (parseRd_le instr) hlen).2.1 hrd
  refine ⟨_, execute_lui keccak po pc instr cd hop, ?_⟩
  rw [hs]
  exact hv

theorem C22_lui_sign_extended_witness :
    ∃ cd1, execute sampleKeccak sampleOracle 0 0x800000B7 (cdRegs 0 0) = Res.ok () cd1 ∧
      regOf cd1 (parseRd 0x800000B7) = signExtend64 (bits 31 12 0x800000B7 <<< 12) 31 ∧
      regOf cd1 (parseRd 0x800000B7) % 2 ^ 32 = bits 31 12 0x800000B7 * 4096 ∧
      ((0x800000B7 : Nat).testBit 31 = true →
        regOf cd1 (parseRd 0x800000B7) / 2 ^ 32 = 2 ^ 32 - 1) ∧
      ((0x800000B7 : Nat).testBit 31 = false → regOf cd1 (parseRd 0x800000B7) / 2 ^ 32 = 0) :=
  C22_lui_sign_extended sampleKeccak sampleOracle 0 0x800000B7 (cdRegs 0 0) (by decide!)
    (by decide!) (by decide!)

/-- C23 (the code departs from it): on a non-exited state whose verified leaf holds a JAL
word (opcode `0x6F`) at `pc`, `Step` ends with the error `0xf001c0de` and leaves the buffer as
it was: neither `x[rd]` nor `pc` is written, because the fetch yields the word 0 whatever the
leaf holds. -/
theorem C23_step_jal_reverts (keccak : List Byte → B32) (po : PreImageOracle)
    (cd : List Byte) (leaf : B32) (instr : Nat) (hlen : 4 + stateSize ≤ cd.length)
    (hex : readState stateOffsetExited 1 cd = [0]) (hpc : pcOf cd % 32 ≤ 28)
    (hproof : getMemoryB32 keccak (and64 (pcOf cd) (not64 31)) 0 cd = Res.ok leaf cd)
    (_hword : (leaf.val.drop (pcOf cd % 32)).take 4 = (encodeU64 instr).take 4)
    (_hop : parseOpcode instr = 0x6F) :
    Step keccak po cd = some ⟨zeroB32, some 0xf001c0de, cd⟩ :=
  step_of_fetch keccak po cd leaf hlen hex hpc hproof

theorem C23_step_jal_reverts_witness :
    Step sampleKeccak sampleOracle cdJal = some ⟨zeroB32, some 0xf001c0de, cdJal⟩ := by
  have hpc : and64 (pcOf cdJal) (not64 31) = 0 := by decide!
  exact C23_step_jal_reverts sampleKeccak sampleOracle cdJal (padB32 jalLeaf) 0x008000EF
    (by rw [cdJal_length]; decide!) (by decide!) (by decide!) (by rw [hpc]; exact cdJal_fetch)
    (by decide!) (by decide!)

/-- C16 (the code departs from it): on a state with `x1 = 0x1000`,
`x2 = 0x0102030405060708` and a verified leaf at `0x1000`, `lr.d x3, (x1)` (the word
`0x1000B1AF`) completes and leaves `loadReservation = 0x1000`; the following
`sc.d x3, x2, (x1)` (the word `0x1820B1AF`) completes with 0 in `x3` and
`loadReservation = 0`, but the store it performs is not the store of `rs2`: the leaf it writes
back, from which the new `memRoot` is folded, has its bytes 0 to 7 all equal to `0x08` (byte 0
of `x2` repeated), not the little-endian bytes `08 07 06 05 04 03 02 01` of `x2`. -/
theorem C16_sc_stores_low_byte_repeated (keccak : List Byte → B32) (po : PreImageOracle)
    (pc pc2 : Nat) (cd : List Byte) (leaf : B32)
    (hlen : proofOffset 1 + 64 * 32 ≤ cd.length)
    (hx1 : regOf cd 1 = 0x1000) (hx2 : regOf cd 2 = 0x0102030405060708)
    (hget : getMemoryB32 keccak 0x1000 1 cd = Res.ok leaf cd) :
    ∃ cd1, execute keccak po pc 0x1000B1AF cd = Res.ok () cd1 ∧
      loadReservationOf cd1 = 0x1000 ∧
      ∃ cd2, execute keccak po pc2 0x1820B1AF cd1 = Res.ok () cd2 ∧
        regOf cd2 3 = 0 ∧ loadReservationOf cd2 = 0 ∧
        memRootOf cd2 = foldRoot keccak (0x1000 >>> 5) 0
          (patchedLeaf 0x1000 8 0x0102030405060708 leaf) (proofSiblings cd 1) ∧
        (patchedLeaf 0x1000 8 0x0102030405060708 leaf).val.take 8 = List.replicate 8 0x08 ∧
        (encodeU64 0x0102030405060708 : List Byte) = [8, 7, 6, 5, 4, 3, 2, 1] := by
  obtain ⟨e1, e2, e3, e4, _, _, _, _, e9⟩ := offsets_eq
  have hpo := proofOffset_eq 1 (by decide)
  have hl0 : 4 + stateSize ≤ cd.length := by omega
  have ha : and64 0x1000 (not64 31) = 0x1000 := by decide!
  have hin : and64 0x1000 (not64 31) = and64 (add64 0x1000 (sub64 8 1)) (not64 31) := by decide!
  have hlr1 : parseRs1 0x1000B1AF = 1 := by decide!
  have hlr2 : shl64 (parseFunct3 0x1000B1AF) 1 = 8 := by decide!
  have hlr3 : parseRd 0x1000B1AF = 3 := by decide!
  have hsc1 : parseRs1 0x1820B1AF = 1 := by decide!
  have hsc2 : shl64 (parseFunct3 0x1820B1AF) 1 = 8 := by decide!
  have hsc3 : parseRd 0x1820B1AF = 3 := by decide!
  have hsc4 : parseRs2 0x1820B1AF = 2 := by decide!
  -- the load-reserved
  have hload : loadMem keccak (regOf cd (parseRs1 0x1000B1AF)) (shl64 (parseFunct3 0x1000B1AF) 1)
      true 1 2 cd = Res.ok 0 cd := by
    rw [hlr1, hlr2, hx1]
    exact loadMem_inside_ok keccak 0x1000 8 true 1 2 cd leaf (by decide) hin
      (by rw [ha]; exact hget)
  have hex1 := execute_lr_ok keccak po pc 0x1000B1AF cd 0 (by decide!) (Or.inr (by decide!))
    (by decide!) hload
  rw [hlr1, hlr3, hx1] at hex1
  have hl1 : (withRd cd 3 0).length = cd.length := length_withRd _ _ _ (by decide) hl0
  have hl2 : (withLoadReservation (withRd cd 3 0) 0x1000).length = cd.length := by
    rw [length_withLoadReservation _ _ (by omega), hl1]
  have hl3 : (withPC (withLoadReservation (withRd cd 3 0) 0x1000) (add64 pc 4)).length
      = cd.length := by rw [length_withPC _ _ (by omega), hl2]
  have hres : loadReservationOf (withPC (withLoadReservation (withRd cd 3 0) 0x1000)
      (add64 pc 4)) = 0x1000 := by
    rw [loadReservationOf_withPC _ _ (by omega),
      loadReservationOf_withLoadReservation _ _ (by omega)]
    norm_num
  have hr1 : regOf (withPC (withLoadReservation (withRd cd 3 0) 0x1000) (add64 pc 4)) 1
      = 0x1000 := by
    rw [regOf_withPC _ _ _ (by omega), regOf_withLoadReservation _ _ _ (by decide) (by omega),
      regOf_withRd_other _ _ _ _ (by decide) (by decide) hl0, hx1]
  have hr2 : regOf (withPC (withLoadReservation (withRd cd 3 0) 0x1000) (add64 pc 4)) 2
      = 0x0102030405060708 := by
    rw [regOf_withPC _ _ _ (by omega), regOf_withLoadReservation _ _ _ (by decide) (by omega),
      regOf_withRd_other _ _ _ _ (by decide) (by decide) hl0, hx2]
  have hfr := getMemoryB32_after_lr keccak 0x1000 cd leaf 3 0 0x1000 (add64 pc 4) (by decide)
    hlen hget
  refine ⟨_, hex1, hres, ?_⟩
  generalize withPC (withLoadReservation (withRd cd 3 0) 0x1000) (add64 pc 4) = cd1
    at hl3 hres hr1 hr2 hfr ⊢
  -- the store-conditional
  have hstore := storeMem_inside_ok keccak 0x1000 8 0x0102030405060708 1 2 cd1 leaf (by decide)
    (by decide) (by decide) (by omega) hin (by rw [ha]; exact hfr.1)
  rw [ha, hfr.2] at hstore
  have hex2 := execute_sc_eq keccak po pc2 0x1820B1AF cd1 _ (by decide!) (Or.inr (by decide!))
    (by decide!) (by rw [hsc1, hr1, hres]) (by rw [hsc1, hsc2, hsc4, hr1, hr2]; exact hstore)
  rw [hsc3] at hex2
  have hroot : (foldRoot keccak (0x1000 >>> 5) 0 (patchedLeaf 0x1000 8 0x0102030405060708 leaf)
      (proofSiblings cd 1)).val.length = 32 := (foldRoot _ _ _ _ _).property
  have hl4 : (writeAt cd1 4 (foldRoot keccak (0x1000 >>> 5) 0
      (patchedLeaf 0x1000 8 0x0102030405060708 leaf) (proofSiblings cd 1)).val).length
        = cd1.length := length_writeAt _ _ _ (by rw [hroot]; omega)
  refine ⟨_, hex2, ?_, ?_, ?_, patchedLeaf_sd_bytes leaf, by decide⟩
  · generalize writeAt cd1 4 _ = cd2 at hl4 ⊢
    have hl5 : (withRd cd2 3 0).length = cd2.length := length_withRd _ _ _ (by decide) (by omega)
    rw [regOf_withPC _ _ _ (by rw [length_withLoadReservation _ _ (by omega)]; omega),
      regOf_withLoadReservation _ _ _ (by decide) (by omega),
      regOf_withRd_same _ _ _ (by decide) (by decide) (by omega)]
    norm_num
  · generalize writeAt cd1 4 _ = cd2 at hl4 ⊢
    have hl5 : (withRd cd2 3 0).length = cd2.length := length_withRd _ _ _ (by decide) (by omega)
    rw [loadReservationOf_withPC _ _ (by rw [length_withLoadReservation _ _ (by omega)]; omega),
      loadReservationOf_withLoadReservation _ _ (by omega)]
    norm_num
  · have hl5 : (withRd (writeAt cd1 4 (foldRoot keccak (0x1000 >>> 5) 0
        (patchedLeaf 0x1000 8 0x0102030405060708 leaf) (proofSiblings cd 1)).val) 3 0).length
          = cd1.length := by rw [length_withRd _ _ _ (by decide) (by omega), hl4]
    rw [memRootOf_withPC _ _ (by rw [length_withLoadReservation _ _ (by omega)]; omega),
      memRootOf_withLoadReservation _ _ (by omega),
      memRootOf_withRd _ _ _ (by decide) (by omega), memRootOf_setRoot _ _ (by omega)]

theorem C16_sc_stores_low_byte_repeated_witness :
    ∃ cd1, execute sampleKeccak sampleOracle 0 0x1000B1AF cdLrSc = Res.ok () cd1 ∧
      loadReservationOf cd1 = 0x1000 ∧
      ∃ cd2, execute sampleKeccak sampleOracle 4 0x1820B1AF cd1 = Res.ok () cd2 ∧
        regOf cd2 3 = 0 ∧ loadReservationOf cd2 = 0 ∧
        memRootOf cd2 = foldRoot sampleKeccak (0x1000 >>> 5) 0
          (patchedLeaf 0x1000 8 0x0102030405060708 zeroB32) (proofSiblings cdLrSc 1) ∧
        (patchedLeaf 0x1000 8 0x0102030405060708 zeroB32).val.take 8 = List.replicate 8 0x08 ∧
        (encodeU64 0x0102030405060708 : List Byte) = [8, 7, 6, 5, 4, 3, 2, 1] :=
  C16_sc_stores_low_byte_repeated sampleKeccak sampleOracle 0 4 cdLrSc zeroB32
    (by rw [cdLrSc_length]; decide!) cdLrSc_regs.1 cdLrSc_regs.2 cdLrSc_get

/-- C2: on every calldata whose state record has `exited == 0`, a result of `Step` that carries
no error has as `stateHash` the keccak256 of the state record as it stands afterwards.  No
such result exists: every result of `Step` on such a calldata carries an error, because the
fetch yields the word 0 and no case of the switch accepts it; the statement holds of every
step that completes because none does. -/
theorem C2_step_hash_when_no_error (keccak : List Byte → B32) (po : PreImageOracle)
    (cd : List Byte) (hex : readState stateOffsetExited 1 cd = [0]) :
    (∀ r, Step keccak po cd = some r → r.outErr = none →
        r.stateHash = keccak (stateData r.calldata)) ∧
      (∀ r, Step keccak po cd = some r → r.outErr ≠ none) := by
  have hex2 : getExited cd = false := by simp [getExited, hex]
  have key : ∀ r, Step keccak po cd = some r → r.outErr ≠ none := by
    intro r hr
    have hlen : 4 + stateSize ≤ cd.length := by
      by_contra hc
      unfold Step at hr
      rw [if_pos (by omega)] at hr
      cases hr
    obtain ⟨c, hc⟩ := step_not_exited keccak po cd hlen hex2
    rw [hc] at hr
    cases hr
    simp
  exact ⟨fun r hr hn => absurd hn (key r hr), key⟩

theorem C2_step_hash_when_no_error_witness :
    Step sampleKeccak sampleOracle cdAddi = some ⟨zeroB32, some 0xf001c0de, cdAddi⟩ ∧
      (∀ r, Step sampleKeccak sampleOracle cdAddi = some r → r.outErr = none →
        r.stateHash = sampleKeccak (stateData r.calldata)) ∧
      (∀ r, Step sampleKeccak sampleOracle cdAddi = some r → r.outErr ≠ none) :=
  ⟨cdAddi_step, C2_step_hash_when_no_error sampleKeccak sampleOracle cdAddi (by decide!)⟩

/-- C3, where it fails.  On `cdCross`, whose blocks 1 and 2 verify the leaves at `0x1000` and
`0x1020` against `memRoot`, the switch applied to `sd x2, 28(x1)` (the word `0x0020BE23`, a
store of 8 bytes at `0x101c` that crosses into the next leaf) reverts with `0x0badf00d` and
leaves a `memRoot` that differs from the one before: the left leaf has been written back and
the right leaf is then checked against the new root.  On `cdRead`, with an oracle that
answers, the switch applied to `ecall` (a pre-image read of 4 bytes into `0x1000` whose
witness does not verify) reverts with `0x0badf00d` and leaves `preimageOffset = 4`, where it
was 0 before. -/
theorem C3_revert_leaves_fields_written :
    (getMemoryB32 sampleKeccak 0x1000 1 cdCross = Res.ok zeroB32 cdCross ∧
      getMemoryB32 sampleKeccak 0x1020 2 cdCross = Res.ok zeroB32 cdCross ∧
      ∃ cd1, execute sampleKeccak sampleOracle 0 0x0020BE23 cdCross
          = Res.revert 0x0badf00d cd1 ∧
        memRootOf cd1 ≠ memRootOf cdCross ∧ stateData cd1 ≠ stateData cdCross) ∧
    (∃ cd1, execute sampleKeccak chunkOracle 0 0x73 cdRead = Res.revert 0x0badf00d cd1 ∧
      preimageOffsetOf cdRead = 0 ∧ preimageOffsetOf cd1 = 4 ∧
      stateData cd1 ≠ stateData cdRead) :=
  ⟨⟨cdCross_get.1, cdCross_get.2, _, cdCross_execute, by decide!, by decide!⟩,
    ⟨_, cdRead_execute, by decide!, by decide!, by decide!⟩⟩

/-- C3, amended: whenever the instruction switch of `Step` reverts on a buffer that holds a
whole state record, the buffer keeps its length and every slice of the state record outside
the fields `memRoot` and `preimageOffset` is byte-identical to its value before: `preimageKey`,
`pc`, `exitCode`, `exited`, `step`, `heap`, `loadReservation` and every register are never
left updated by an instruction that reverts. -/
theorem C3_revert_keeps_other_fields (keccak : List Byte → B32) (po : PreImageOracle)
    (pc instr : Nat) (cd : List Byte) (c : Nat) (cd1 : List Byte)
    (hlen : 4 + stateSize ≤ cd.length)
    (hrev : execute keccak po pc instr cd = Res.revert c cd1) :
    cd1.length = cd.length ∧
      (∀ off n, (stateOffsetPreimageKey ≤ off ∧ off + n ≤ stateOffsetPreimageOffset)
          ∨ stateOffsetPC ≤ off → readState off n cd1 = readState off n cd) ∧
      preimageKeyOf cd1 = preimageKeyOf cd ∧ pcOf cd1 = pcOf cd ∧
      exitCodeOf cd1 = exitCodeOf cd ∧ getExited cd1 = getExited cd ∧
      readState stateOffsetStep 8 cd1 = readState stateOffsetStep 8 cd ∧
      heapOf cd1 = heapOf cd ∧ loadReservationOf cd1 = loadReservationOf cd ∧
      ∀ r, regOf cd1 r = regOf cd r := by
  obtain ⟨hl, h⟩ := (rk_execute keccak po pc instr cd hlen).2 c cd1 hrev
  refine ⟨hl, h, ?_, ?_, ?_, ?_, ?_, ?_, ?_, ?_⟩
  · unfold preimageKeyOf
    rw [h _ _ (Or.inl ⟨Nat.le_refl _, by decide⟩)]
  · unfold pcOf
    rw [h _ _ (Or.inr (Nat.le_refl _))]
  · unfold exitCodeOf
    rw [h _ _ (Or.inr (by decide))]
  · unfold getExited
    rw [h _ _ (Or.inr (by decide))]
  · exact h _ _ (Or.inr (by decide))
  · unfold heapOf
    rw [h _ _ (Or.inr (by decide))]
  · unfold loadReservationOf
    rw [h _ _ (Or.inr (by decide))]
  · intro r
    unfold regOf
    rw [h _ _ (Or.inr (by
      obtain ⟨e1, e2, _⟩ := offsets_eq
      rw [e1, e2]; omega))]

theorem C3_revert_keeps_other_fields_witness :
    (writeAt cdCross 4 crossRoot).length = cdCross.length ∧
      (∀ off n, (stateOffsetPreimageKey ≤ off ∧ off + n ≤ stateOffsetPreimageOffset)
          ∨ stateOffsetPC ≤ off →
        readState off n (writeAt cdCross 4 crossRoot) = readState off n cdCross) ∧
      preimageKeyOf (writeAt cdCross 4 crossRoot) = preimageKeyOf cdCross ∧
      pcOf (writeAt cdCross 4 crossRoot) = pcOf cdCross ∧
      exitCodeOf (writeAt cdCross 4 crossRoot) = exitCodeOf cdCross ∧
      getExited (writeAt cdCross 4 crossRoot) = getExited cdCross ∧
      readState stateOffsetStep 8 (writeAt cdCross 4 crossRoot)
        = readState stateOffsetStep 8 cdCross ∧
      heapOf (writeAt cdCross 4 crossRoot) = heapOf cdCross ∧
      loadReservationOf (writeAt cdCross 4 crossRoot) = loadReservationOf cdCross ∧
      ∀ r, regOf (writeAt cdCross 4 crossRoot) r = regOf cdCross r :=
  C3_revert_keeps_other_fields sampleKeccak sampleOracle 0 0x0020BE23 cdCross 0x0badf00d
    (writeAt cdCross 4 crossRoot) (by rw [cdCross_length]; decide!) cdCross_execute

end Asterisc
